import Mathlib

/-!
Static file server (package `static`): request resolution, allow-list and caches.

A shallow embedding of `src/static/static.go`, of the legacy handler
`src/handler/static/static.go`, and of the parts of packages `filehandler` and
`dbstorage` that set the size limits, derive the storage key and check the
directory of a request.  Go strings and byte slices are byte sequences; both
are represented as `List Char`, one `Char` per byte.  The handlers are
modelled sequentially: one `ServeHTTP` call is one atomic step on the two maps
`files` and `notFoundPaths`.  What a call does to the mutex and to the two
maps, in program order, is listed by `ServeHTTPSteps`.
-/

namespace Static

/-- A Go `string` (or `[]byte`): a sequence of bytes. -/
abbrev GoString := List Char

/-! ## The Go library functions the handler calls (`strings`, `path`, `path/filepath` on Unix) -/

/-- Go `strings.HasPrefix(s, prefix)`. -/
def HasPrefix : GoString → GoString → Bool
  | _, [] => true
  | [], _ :: _ => false
  | c :: s, d :: p => c == d && HasPrefix s p

/-- Go `strings.HasSuffix(s, suffix)`. -/
def HasSuffix (s suffix : GoString) : Bool :=
  HasPrefix s.reverse suffix.reverse

/-- Go `strings.TrimPrefix(s, prefix)`. -/
def TrimPrefix (s pre : GoString) : GoString :=
  if HasPrefix s pre then s.drop pre.length else s

/-- The loop state of `path.Clean`: `rest` is `path[r:]`, `out` is the first
`out.w` bytes of the lazy buffer, `dotdot` is the index where `..` must stop. -/
structure CleanState where
  rest : GoString
  out : GoString
  dotdot : Nat
  deriving DecidableEq

/-- The test `r == n || path[r] == '/'` on the remaining input. -/
def isElemEnd : GoString → Bool
  | [] => true
  | c :: _ => c == '/'

/-- The inner loop of the `..` case of `path.Clean`, entered after `out.w--`:
`for out.w > dotdot && out.index(out.w) != '/' { out.w-- }`; returns the final `out.w`. -/
def backtrack (buf : GoString) (dotdot : Nat) : Nat → Nat
  | 0 => 0
  | w + 1 => if w + 1 > dotdot ∧ buf.getD (w + 1) '/' ≠ '/' then backtrack buf dotdot w else w + 1

/-- The "add slash if needed" of `path.Clean`:
`if rooted && out.w != 1 || !rooted && out.w != 0 { out.append('/') }`. -/
def addSlash (rooted : Bool) (out : GoString) : GoString :=
  if (rooted = true ∧ out.length ≠ 1) ∨ (rooted = false ∧ out.length ≠ 0) then out ++ ['/'] else out

/-- One iteration of the `for r < n` loop of `path.Clean`. -/
def cleanStep (rooted : Bool) (s : CleanState) : CleanState :=
  match s.rest with
  | [] => s
  | c :: t =>
    if c = '/' then
      -- empty path element
      { s with rest := t }
    else if c = '.' ∧ isElemEnd t = true then
      -- . element
      { s with rest := t }
    else if c = '.' ∧ t.head? = some '.' ∧ isElemEnd t.tail = true then
      -- .. element: remove to last /
      if s.out.length > s.dotdot then
        { s with rest := t.tail, out := s.out.take (backtrack s.out s.dotdot (s.out.length - 1)) }
      else if rooted = false then
        let out1 := (if s.out.length > 0 then s.out ++ ['/'] else s.out) ++ ['.', '.']
        { rest := t.tail, out := out1, dotdot := out1.length }
      else
        { s with rest := t.tail }
    else
      -- real path element: add slash if needed, copy element
      { s with rest := (c :: t).dropWhile (fun x => x != '/'),
               out := addSlash rooted s.out ++ (c :: t).takeWhile (fun x => x != '/') }

/-- The `for r < n` loop of `path.Clean`; every iteration consumes at least one
byte, so `len(path)` iterations always reach `r == n`. -/
def cleanLoop (rooted : Bool) : Nat → CleanState → CleanState
  | 0, s => s
  | n + 1, s => cleanLoop rooted n (cleanStep rooted s)

/-- Go `path.Clean` (and `filepath.Clean` on Unix). -/
def Clean (path : GoString) : GoString :=
  if path = [] then ['.']
  else
    let rooted := path.head? == some '/'
    let init : CleanState :=
      if rooted then { rest := path.tail, out := ['/'], dotdot := 1 }
      else { rest := path, out := [], dotdot := 0 }
    let fin := cleanLoop rooted path.length init
    -- Turn empty string into "."
    if fin.out.length = 0 then ['.'] else fin.out

/-- Go `strings.Join(elems, "/")`. -/
def joinSep : List GoString → GoString
  | [] => []
  | [e] => e
  | e :: es => e ++ '/' :: joinSep es

/-- Go `filepath.Join(elem...)` on Unix: the elements from the first non-empty
one on are joined with `/` and the result is cleaned; `""` if all are empty. -/
def Join : List GoString → GoString
  | [] => []
  | e :: es => if e ≠ [] then Clean (joinSep (e :: es)) else Join es

/-- The scan of `filepath.Dir`: `path[:i+1]` for the last separator index `i`
(the empty string when there is none). -/
def dirPart (path : GoString) : GoString :=
  (path.reverse.dropWhile (fun x => x != '/')).reverse

/-- Go `filepath.Dir(path)` on Unix (the volume name is empty). -/
def Dir (path : GoString) : GoString :=
  Clean (dirPart path)

/-- Go `filepath.Ext(path)`: the suffix from the last `.` of the last element. -/
def Ext (path : GoString) : GoString :=
  let last := (path.reverse.takeWhile (fun x => x != '/')).reverse
  if last.contains '.' then
    '.' :: (last.reverse.takeWhile (fun x => x != '.')).reverse
  else []

/-! ## The data model of the handler -/

/-- An error of the operating system (`*os.PathError`), as `ioutil.ReadFile`,
`os.Stat` and `ioutil.ReadDir` return it. -/
inductive OSError where
  /-- an error for which `os.IsNotExist` holds -/
  | notExist (msg : GoString)
  /-- any other error (permission denied, is a directory, ...) -/
  | other (msg : GoString)
  deriving DecidableEq

/-- A Go `error` value as the handler sees it. -/
inductive GoError where
  /-- an error of the operating system -/
  | os (e : OSError)
  /-- the value of `errors.New(msg)` -/
  | new (msg : GoString)
  /-- the value of `errors.Wrap(cause, msg)` -/
  | wrap (cause : GoError) (msg : GoString)
  deriving DecidableEq

/-- Go `os.IsNotExist(err)`. -/
def IsNotExist : GoError → Bool
  | .os (.notExist _) => true
  | _ => false

/-- The method `err.Error()`. -/
def GoError.Error : GoError → GoString
  | .os (.notExist msg) => msg
  | .os (.other msg) => msg
  | .new msg => msg
  | .wrap cause msg => msg ++ ':' :: ' ' :: cause.Error

/-- The part of `os.FileInfo` the handler uses: `Size()` and `ModTime()`, the
latter held as its rendering `ModTime().UTC().Format(http.TimeFormat)`. -/
structure FileInfo where
  Size : Int
  ModTime : GoString
  deriving DecidableEq

/-- The struct `staticFile`: cached data for a static file. -/
structure staticFile where
  data : GoString
  finfo : FileInfo
  ctype : GoString
  deriving DecidableEq

/-- The struct `pushOptions`: server push information of one trigger path. -/
structure pushOptions where
  path : GoString
  strict : Bool
  pushFiles : List GoString
  deriving DecidableEq

/-- The method `pushOptions.Key`. -/
def pushOptions.Key (po : pushOptions) : GoString := po.path

/-- The part of `*http.Request` the handler reads: `r.Method` and `r.URL.Path`. -/
structure Request where
  Method : GoString
  Path : GoString
  deriving DecidableEq

/-- What a handler has written to its `http.ResponseWriter`. -/
structure Response where
  status : Nat
  headers : List (GoString × GoString)
  body : GoString
  deriving DecidableEq

/-- An `http.Handler` outside the core (the not-found collaborator): the
response it writes for a request. -/
abbrev Handler := Request → Response

/-- The platform as one call of the handler meets it: the filesystem
(`ioutil.ReadFile`, `os.Stat`), the MIME lookups (`mime.TypeByExtension`,
`http.DetectContentType`) and the response writer's push capability
(`Pusher = none` when `w` is not an `http.Pusher`, otherwise the error each
`Push(target, opts)` returns). -/
structure World where
  ReadFile : GoString → Except OSError GoString
  Stat : GoString → Except OSError FileInfo
  TypeByExtension : GoString → GoString
  DetectContentType : GoString → GoString
  Pusher : Option (GoString → Option GoError)

/-- The observable effects of the handler, in program order. -/
inductive Event where
  /-- the allow-list check of `addStaticFile` ran on this filesystem path -/
  | allowCheck (filePath : GoString)
  /-- `ioutil.ReadFile(filePath)` -/
  | readFile (filePath : GoString)
  /-- `os.Stat(filePath)` -/
  | stat (filePath : GoString)
  /-- `pusher.Push(target, sfs.pushOptions)` -/
  | push (target : GoString)
  /-- `sfs.notFoundHandler.ServeHTTP(w, r)` -/
  | notFound (r : Request)
  deriving DecidableEq

/-- The struct `staticFileServer`.  The maps are functions from keys to
optional values, `staticDirs` is the list of its keys; the mutex and the
constant `pushOptions` (`Method: GET`, header `pushed-from: api`) carry no
sequential state. -/
structure staticFileServer where
  rootDir : GoString
  indexPage : GoString
  allowedDirs : List GoString
  staticDirs : List GoString
  allowAll : Bool
  pushSupport : Bool
  files : GoString → Option staticFile
  pushContent : GoString → Option pushOptions
  notFoundPaths : GoString → Option Int
  notFoundHandler : Handler

/-- The struct `ServerOptions`.  `PushContent` is the map as the list of its
entries in the order the `range` loop of `NewHandler` visits them. -/
structure ServerOptions where
  RootDir : GoString
  Index : GoString
  AllowedDirs : List GoString
  NotFoundHandler : Option Handler
  URLPathPrefix : GoString
  PushContent : List (GoString × List GoString)

/-- What `ioutil.ReadDir` finds under a directory when `NewHandler` walks the
root: the entries in listing order, a directory entry with the listing of that
directory (or the error reading it gives). -/
inductive DirTree where
  /-- no further entry -/
  | done
  /-- an entry that is not a directory -/
  | file (name : GoString) (rest : DirTree)
  /-- a directory entry whose own listing is `sub` -/
  | dir (name : GoString) (sub : DirTree) (rest : DirTree)
  /-- a directory entry that `ioutil.ReadDir` fails to read -/
  | badDir (name : GoString) (err : OSError) (rest : DirTree)
  deriving DecidableEq

/-- Go `http.Error(w, msg, code)`. -/
def httpError (msg : GoString) (code : Nat) : Response :=
  { status := code,
    headers := [("Content-Type".toList, "text/plain; charset=utf-8".toList),
                ("X-Content-Type-Options".toList, "nosniff".toList)],
    body := msg ++ ['\n'] }

/-- Go `http.NotFoundHandler()`. -/
def NotFoundHandler : Handler :=
  fun _ => httpError "404 page not found".toList 404

/-- Go `strconv.FormatInt(i, 10)`. -/
def FormatInt (i : Int) : GoString :=
  match i with
  | Int.ofNat n => (Nat.toDigits 10 n)
  | Int.negSucc n => '-' :: Nat.toDigits 10 (n + 1)

/-- Go `http.MethodGet`. -/
def MethodGet : GoString := "GET".toList

/-- The map update `m[k] = v`. -/
def mapSet {V : Type} (m : GoString → Option V) (k : GoString) (v : V) : GoString → Option V :=
  fun x => if x = k then some v else m x

/-! ## The handler -/

/-- The method `getStaticFile`. -/
def getStaticFile (sfs : staticFileServer) (fpath : GoString) : Option staticFile :=
  sfs.files fpath

/-- The method `addNotFoundPath`. -/
def addNotFoundPath (sfs : staticFileServer) (fpath : GoString) : staticFileServer :=
  { sfs with notFoundPaths := mapSet sfs.notFoundPaths fpath 2 }

/-- The allow-list check of `addStaticFile` on the filesystem path: `false`
exactly when `errors.New("directory access not allowed")` is returned. -/
def allowListPasses (sfs : staticFileServer) (filePath : GoString) : Bool :=
  if sfs.allowAll = false then
    -- check if path is trying to access a static directory in root
    if Dir filePath ∈ sfs.staticDirs then
      -- check that filepath is in list of allowed directories
      sfs.allowedDirs.any (fun allowedDir => HasPrefix filePath allowedDir)
    else true
  else true

/-- The method `addStaticFile`: the error it returns (`none` for `nil`), the
server afterwards and the effects it performed. -/
def addStaticFile (sfs : staticFileServer) (world : World) (path : GoString) :
    Option GoError × staticFileServer × List Event :=
  let filePath := Join [sfs.rootDir, path]
  let checks : List Event := if sfs.allowAll = false then [Event.allowCheck filePath] else []
  if allowListPasses sfs filePath = false then
    (some (GoError.new "directory access not allowed".toList), sfs, checks)
  else
    -- read file content
    match world.ReadFile filePath with
    | .error err => (some (GoError.os err), sfs, checks ++ [Event.readFile filePath])
    | .ok bs =>
      -- get file stats
      match world.Stat filePath with
      | .error err =>
        (some (GoError.os err), sfs, checks ++ [Event.readFile filePath, Event.stat filePath])
      | .ok finfo =>
        -- find mime of file
        let ctype0 := world.TypeByExtension (Ext filePath)
        let ctype := if ctype0 = [] then world.DetectContentType bs else ctype0
        (none,
         { sfs with files := mapSet sfs.files path { data := bs, finfo := finfo, ctype := ctype } },
         checks ++ [Event.readFile filePath, Event.stat filePath])

/-- The method `serverPush`: the targets offered to the client, in order. -/
def serverPush (sfs : staticFileServer) (world : World) (fpath : GoString) : List Event :=
  -- return early when push support is not enabled
  if sfs.pushSupport = false then []
  else
    match world.Pusher with
    | none => []
    | some _ =>
      match sfs.pushContent fpath with
      | none => []
      | some pushInfo => pushInfo.pushFiles.map Event.push

/-- The method `writeResponse`, on a writer whose `Write` succeeds. -/
def writeResponse (sfs : staticFileServer) (name : GoString) : Response :=
  match getStaticFile sfs name with
  | none => httpError "file data does not exist".toList 500
  | some sfile =>
    { status := 200,
      headers := [("Content-Type".toList, sfile.ctype),
                  ("Content-Length".toList, FormatInt sfile.finfo.Size),
                  ("Accept-Ranges".toList, "bytes".toList),
                  ("Last-Modified".toList, sfile.finfo.ModTime)],
      body := sfile.data }

/-- The path resolution at the head of `ServeHTTP`: the cache key `fpath` and
the request as it is afterwards (`r.URL.Path` is rewritten when the cleaned
path has no leading `/`). -/
def resolvePath (sfs : staticFileServer) (r : Request) : GoString × Request :=
  let fpath := Clean r.Path
  let (fpath, r) :=
    if HasPrefix fpath ['/'] = false then
      -- add prefix and clean
      ('/' :: fpath, { r with Path := '/' :: fpath })
    else (fpath, r)
  -- update to render index page
  if fpath = ['/'] ∨ fpath = [] then (sfs.indexPage, r) else (fpath, r)

/-- The result of one `ServeHTTP` call: the server afterwards, the response
written to `w`, and the effects in program order. -/
structure Outcome where
  sfs : staticFileServer
  response : Response
  trace : List Event

/-- The closure `pushAndServe` of `ServeHTTP`. -/
def pushAndServe (sfs : staticFileServer) (world : World) (r : Request) (before : List Event) :
    Outcome :=
  { sfs := sfs,
    response := sfs.notFoundHandler r,
    trace := before ++ serverPush sfs world sfs.indexPage ++ [Event.notFound r] }

/-- The method `ServeHTTP`. -/
def ServeHTTP (sfs : staticFileServer) (world : World) (r : Request) : Outcome :=
  -- Method must be get
  if r.Method ≠ MethodGet then
    { sfs := sfs, response := httpError "METHOD_NOT_ALLOWED".toList 400, trace := [] }
  else
    let (fpath, r) := resolvePath sfs r
    -- Check if file name exist in map
    match getStaticFile sfs fpath with
    | some _ =>
      { sfs := sfs, response := writeResponse sfs fpath, trace := serverPush sfs world fpath }
    | none =>
      -- check if the path is in notFoundPaths so that we serve index page
      match sfs.notFoundPaths fpath with
      | some _ => pushAndServe sfs world r []
      | none =>
        match addStaticFile sfs world fpath with
        | (some err, sfs1, evs) =>
          if IsNotExist err = true then
            pushAndServe (addNotFoundPath sfs1 fpath) world r evs
          else
            { sfs := sfs1, response := httpError err.Error 500, trace := evs }
        | (none, sfs1, evs) =>
          { sfs := sfs1, response := writeResponse sfs1 fpath,
            trace := evs ++ serverPush sfs1 world fpath }

/-- The closure `readDir` of `NewHandler` on the listing of `dir`: every
directory found is added to `staticDirs` and walked in turn; the first
listing that fails ends the walk with the wrapped error. -/
def readDir (dir : GoString) : DirTree → List GoString → Except GoError (List GoString)
  | .done, staticDirs => .ok staticDirs
  | .file _ rest, staticDirs => readDir dir rest staticDirs
  | .dir name sub rest, staticDirs =>
    match readDir (Join [dir, name]) sub (Join [dir, name] :: staticDirs) with
    | .error err => .error err
    | .ok staticDirs1 => readDir dir rest staticDirs1
  | .badDir _ err _, _ => .error (GoError.wrap (GoError.os err) "failed to read directory".toList)

/-- The inner loop of `NewHandler` over the files of one push entry: the push
targets collected and the server with each file added, or the first error. -/
def addPushFiles (urlPathPrefix : GoString) (world : World) :
    List GoString → staticFileServer → List GoString →
      Except GoError (staticFileServer × List GoString)
  | [], sfs, pushFiles => .ok (sfs, pushFiles)
  | file :: files, sfs, pushFiles =>
    let filePath := Clean file
    match addStaticFile sfs world (Clean filePath) with
    | (some err, _, _) => .error err
    | (none, sfs1, _) =>
      addPushFiles urlPathPrefix world files sfs1 (pushFiles ++ [Join [urlPathPrefix, filePath]])

/-- The loop of `NewHandler` over `opt.PushContent`. -/
def addPushContent (urlPathPrefix : GoString) (world : World) :
    List (GoString × List GoString) → staticFileServer → Except GoError staticFileServer
  | [], sfs => .ok sfs
  | (ppath, files) :: more, sfs =>
    match addPushFiles urlPathPrefix world files sfs [] with
    | .error err => .error err
    | .ok (sfs1, pushFiles) =>
      let pushVal : pushOptions :=
        { strict := !HasSuffix ppath ['*'], path := Clean ppath, pushFiles := pushFiles }
      addPushContent urlPathPrefix world more
        { sfs1 with pushContent := mapSet sfs1.pushContent pushVal.Key pushVal }

/-- The function `NewHandler`.  `root` is what `ioutil.ReadDir` gives for the
cleaned root directory (an error, or its listing), `world` the filesystem the
push files are loaded from. -/
def NewHandler (opt : ServerOptions) (root : Except OSError DirTree) (world : World) :
    Except GoError staticFileServer :=
  -- set rootDir to current directory, clean rootDir
  let RootDir := Clean (if opt.RootDir = [] then ['.'] else opt.RootDir)
  -- clean and update URLPathPrefix
  let URLPathPrefix := '/' :: TrimPrefix (Clean opt.URLPathPrefix) ['/']
  -- clean and update home dir
  let Index := Clean (if opt.Index = [] then "./index.html".toList else opt.Index)
  let notFoundHandler := match opt.NotFoundHandler with
    | none => NotFoundHandler
    | some h => h
  -- allowed direcories
  let allowedDirs := (opt.AllowedDirs.map (fun dir => Join [RootDir, dir])).filter
    (fun dir => dir ≠ Index)
  let allowAll := allowedDirs.length == 0
  let walked : Except GoError (List GoString) :=
    if allowAll = false then
      match root with
      | .error err => .error (GoError.wrap (GoError.os err) "failed to read directory".toList)
      | .ok tree => readDir RootDir tree []
    else .ok []
  match walked with
  | .error err => .error err
  | .ok staticDirs =>
    -- create the server
    let sfs : staticFileServer :=
      { rootDir := RootDir, indexPage := Index, allowedDirs := allowedDirs,
        staticDirs := staticDirs, allowAll := allowAll,
        files := fun _ => none, pushContent := fun _ => none, notFoundPaths := fun _ => none,
        pushSupport := decide (opt.PushContent.length > 0),
        notFoundHandler := notFoundHandler }
    if sfs.pushSupport = true then addPushContent URLPathPrefix world opt.PushContent sfs
    else .ok sfs

/-- The server after a sequence of `ServeHTTP` calls, each with the platform
it meets. -/
def serveAll (sfs : staticFileServer) : List (World × Request) → staticFileServer
  | [] => sfs
  | (world, r) :: more => serveAll (ServeHTTP sfs world r).sfs more


/-! ## Predicates the statements use -/

/-- A file name as a directory listing gives it: non-empty, without a
separator, and neither `.` nor `..`. -/
def IsName (n : GoString) : Prop :=
  n ≠ [] ∧ '/' ∉ n ∧ n ≠ ['.'] ∧ n ≠ ['.', '.']

instance (n : GoString) : Decidable (IsName n) := by
  unfold IsName; infer_instance

/-- The first state of the loop of `path.Clean` on a non-empty path. -/
def cleanStart (rooted : Bool) (path : GoString) : CleanState :=
  if rooted then { rest := path.tail, out := ['/'], dotdot := 1 }
  else { rest := path, out := [], dotdot := 0 }

/-- Every entry name of a directory listing is a file name. -/
def DirTree.wellNamed : DirTree → Bool
  | .done => true
  | .file name rest => decide (IsName name) && rest.wellNamed
  | .dir name sub rest => decide (IsName name) && sub.wellNamed && rest.wellNamed
  | .badDir name _ rest => decide (IsName name) && rest.wellNamed

/-- The file at `filePath` exists: both `ioutil.ReadFile` and `os.Stat` succeed on it. -/
def World.hasFile (world : World) (filePath : GoString) : Bool :=
  match world.ReadFile filePath, world.Stat filePath with
  | .ok _, .ok _ => true
  | _, _ => false

/-- The cleaned path `filePath` lies inside the cleaned directory `rootDir`:
it is the directory itself or a path below it. -/
def liesInside (rootDir filePath : GoString) : Bool :=
  if rootDir = ['/'] then HasPrefix filePath ['/']
  else if rootDir = ['.'] then
    !HasPrefix filePath ['/'] && filePath != ['.', '.'] && !HasPrefix filePath ['.', '.', '/']
  else filePath == rootDir || HasPrefix filePath (rootDir ++ ['/'])

/-- The cache key `ServeHTTP` resolves a request path to. -/
def cacheKey (sfs : staticFileServer) (r : Request) : GoString :=
  (resolvePath sfs r).1

/-- The filesystem path `addStaticFile` reads for a cache key. -/
def fileOf (sfs : staticFileServer) (key : GoString) : GoString :=
  Join [sfs.rootDir, key]

/-- The two servers have the same configuration: they differ at most in the
maps `files`, `notFoundPaths` and `pushContent`. -/
def sameConfig (a b : staticFileServer) : Prop :=
  a.rootDir = b.rootDir ∧ a.indexPage = b.indexPage ∧ a.allowedDirs = b.allowedDirs ∧
    a.staticDirs = b.staticDirs ∧ a.allowAll = b.allowAll ∧ a.pushSupport = b.pushSupport ∧
    a.notFoundHandler = b.notFoundHandler

/-- Every key of the two maps passed the allow-list check of `addStaticFile`. -/
def Admitted (sfs : staticFileServer) : Prop :=
  ∀ key, (sfs.files key ≠ none ∨ sfs.notFoundPaths key ≠ none) →
    allowListPasses sfs (fileOf sfs key) = true

/-- The event is a call of the not-found handler. -/
def Event.isNotFound : Event → Bool
  | .notFound _ => true
  | _ => false

/-- The event is an offered push. -/
def Event.isPush : Event → Bool
  | .push _ => true
  | _ => false

/-- The value `path.Clean` returns for the final buffer. -/
def pathOf (out : GoString) : GoString :=
  if out.length = 0 then ['.'] else out

/-- The buffers the loop of `path.Clean` can hold: the leading `/` of a rooted
path or nothing, then `..` elements (unrooted only, while nothing else has
been written), then names, each written after `addSlash`. -/
inductive CleanForm (rooted : Bool) : GoString → Nat → Prop where
  | init : CleanForm rooted (if rooted then ['/'] else []) (if rooted then 1 else 0)
  | dots (out : GoString) : rooted = false → CleanForm rooted out out.length →
      CleanForm rooted (addSlash rooted out ++ ['.', '.']) (addSlash rooted out ++ ['.', '.']).length
  | name (out : GoString) (dd : Nat) (n : GoString) : CleanForm rooted out dd → IsName n →
      CleanForm rooted (addSlash rooted out ++ n) dd

/-- The path `t` is a buffer in clean form that ends in a name written at or
after position `L`: a path strictly below a directory whose buffer has length `L`. -/
def BelowForm (rooted : Bool) (L : Nat) (t : GoString) : Prop :=
  ∃ prev dd n, CleanForm rooted prev dd ∧ IsName n ∧ L ≤ prev.length ∧
    t = addSlash rooted prev ++ n

/-! ## A test configuration -/

/-- The configuration of `static_allowed_test.go`: index `index.html` and the
allow-list `css`, `img`, on the root `/srv/www`. -/
def testOptions : ServerOptions :=
  { RootDir := "/srv/www".toList, Index := "index.html".toList,
    AllowedDirs := ["css".toList, "img".toList], NotFoundHandler := none,
    URLPathPrefix := "/".toList, PushContent := [] }

/-- The listing of the test root: the directories `css`, `img` and `js`, and
the files `index.html` and `robots.txt`. -/
def testTree : DirTree :=
  .dir "css".toList (.file "app.css".toList .done)
    (.dir "img".toList .done
      (.dir "js".toList (.file "app.js".toList .done)
        (.file "index.html".toList (.file "robots.txt".toList .done))))

/-- The files of the test filesystem. -/
def testFiles : List (GoString × GoString) :=
  [("/srv/www/index.html".toList, "<html></html>".toList),
   ("/srv/www/css/app.css".toList, "body {}".toList),
   ("/srv/www/js/app.js".toList, "main()".toList),
   ("/srv/www/robots.txt".toList, "User-agent: *".toList),
   ("/etc/passwd".toList, "root:x:0:0".toList)]

/-- The test filesystem: the files of `testFiles`; any other path does not
exist (the root directory itself cannot be read as a file). -/
def testWorld : World :=
  { ReadFile := fun p =>
      if p = "/srv/www".toList then .error (.other "is a directory".toList)
      else match testFiles.lookup p with
        | some bs => .ok bs
        | none => .error (.notExist "no such file or directory".toList),
    Stat := fun p =>
      match testFiles.lookup p with
      | some bs => .ok { Size := bs.length, ModTime := "Mon, 02 Jan 2006 15:04:05 GMT".toList }
      | none => .error (.notExist "no such file or directory".toList),
    TypeByExtension := fun ext =>
      if ext = ".html".toList then "text/html; charset=utf-8".toList
      else if ext = ".css".toList then "text/css; charset=utf-8".toList
      else if ext = ".js".toList then "application/javascript".toList
      else [],
    DetectContentType := fun _ => "text/plain; charset=utf-8".toList,
    Pusher := none }

/-- The server `NewHandler` builds from `testOptions` on the test root. -/
def testServer : staticFileServer :=
  { rootDir := "/srv/www".toList, indexPage := "index.html".toList,
    allowedDirs := ["/srv/www/css".toList, "/srv/www/img".toList],
    staticDirs := ["/srv/www/js".toList, "/srv/www/img".toList, "/srv/www/css".toList],
    allowAll := false, pushSupport := false,
    files := fun _ => none, pushContent := fun _ => none, notFoundPaths := fun _ => none,
    notFoundHandler := NotFoundHandler }

/-- The test server with the rooted index path `/index.html`. -/
def rootedIndexServer : staticFileServer :=
  { testServer with indexPage := "/index.html".toList }

/-! ## Server push: the calls and their options -/

/-- Go `http.PushOptions`: the method and the header of a promised request. -/
structure PushOptions where
  Method : GoString
  Header : List (GoString × List GoString)
  deriving DecidableEq

/-- The field `sfs.pushOptions`: `NewHandler` sets it to this value and no
code assigns it afterwards. -/
def serverPushOptions : PushOptions :=
  { Method := MethodGet, Header := [("pushed-from".toList, ["api".toList])] }

/-- The calls `pusher.Push(target, sfs.pushOptions)` of `serverPush`, each
with the options it passes. -/
def serverPushCalls (sfs : staticFileServer) (world : World) (fpath : GoString) :
    List (GoString × PushOptions) :=
  if sfs.pushSupport = false then []
  else
    match world.Pusher with
    | none => []
    | some _ =>
      match sfs.pushContent fpath with
      | none => []
      | some pushInfo => pushInfo.pushFiles.map (fun target => (target, serverPushOptions))

/-- The keys of the calls `sfs.addStaticFile(filepath.Clean(filePath))` that the
loops of `NewHandler` over `PushContent` make, in order. -/
def pushFileKeys (content : List (GoString × List GoString)) : List GoString :=
  content.flatMap (fun entry => entry.2.map (fun file => Clean (Clean file)))

/-- The entry `addStaticFile` builds for a filesystem path when both
`ioutil.ReadFile` and `os.Stat` succeed: the bytes read, the file info, and
the content type by extension or, when that is empty, by sniffing the bytes. -/
def readStaticFile (world : World) (filePath : GoString) : Option staticFile :=
  match world.ReadFile filePath, world.Stat filePath with
  | .ok bs, .ok finfo =>
    some { data := bs, finfo := finfo,
           ctype := if world.TypeByExtension (Ext filePath) = [] then world.DetectContentType bs
             else world.TypeByExtension (Ext filePath) }
  | _, _ => none

/-- One store of the construction loops: `files[key]` is set to the entry read
for the key (the map is left as it is when the file cannot be read). -/
def storeFile (rootDir : GoString) (world : World) (files : GoString → Option staticFile)
    (key : GoString) : GoString → Option staticFile :=
  match readStaticFile world (Join [rootDir, key]) with
  | some sf => mapSet files key sf
  | none => files

/-- The prefix `NewHandler` joins the push targets to:
`"/" + strings.TrimPrefix(filepath.Clean(opt.URLPathPrefix), "/")`. -/
def pushPrefix (opt : ServerOptions) : GoString :=
  '/' :: TrimPrefix (Clean opt.URLPathPrefix) ['/']

/-- The event is not an offered push. -/
def Event.notPush (e : Event) : Bool := !e.isPush

/-! ## Test configurations with push content -/

/-- The configuration of `serverpush_test.go`: index `index.html`, no
allow-list, and the same push files declared for the triggers `/` and
`/index.html`. -/
def pushTestOptions : ServerOptions :=
  { RootDir := "/srv/www".toList, Index := "index.html".toList,
    AllowedDirs := [], NotFoundHandler := none, URLPathPrefix := "/".toList,
    PushContent := [("/".toList, ["/css/app.css".toList, "/js/app.js".toList]),
                    ("/index.html".toList, ["/css/app.css".toList, "/js/app.js".toList])] }

/-- The test filesystem behind a response writer that supports push. -/
def pushWorld : World :=
  { testWorld with Pusher := some (fun _ => none) }

/-- The server `NewHandler` builds from `pushTestOptions`. -/
def pushServer : staticFileServer :=
  match NewHandler pushTestOptions (.ok testTree) testWorld with
  | .ok sfs => sfs
  | .error _ => testServer

/-- The configuration of the push scenario: the one rule `/` with the target
`/css/app.css`, index `index.html`. -/
def slashRuleOptions : ServerOptions :=
  { pushTestOptions with PushContent := [("/".toList, ["/css/app.css".toList])] }

/-- The server `NewHandler` builds from `slashRuleOptions`. -/
def slashRuleServer : staticFileServer :=
  match NewHandler slashRuleOptions (.ok testTree) testWorld with
  | .ok sfs => sfs
  | .error _ => testServer

/-! ## Further test configurations -/

/-- A root with the directories `css` and `css-private`, only `css` allowed. -/
def siblingOptions : ServerOptions :=
  { testOptions with AllowedDirs := ["css".toList] }

/-- The listing of the root of `siblingOptions`. -/
def siblingTree : DirTree :=
  .dir "css".toList (.file "app.css".toList .done)
    (.dir "css-private".toList (.file "secret.css".toList .done)
      (.file "index.html".toList .done))

/-- The filesystem of `siblingOptions`: the test files and `css-private/secret.css`. -/
def siblingWorld : World :=
  { testWorld with
    ReadFile := fun p =>
      if p = "/srv/www/css-private/secret.css".toList then .ok "secret".toList
      else testWorld.ReadFile p,
    Stat := fun p =>
      if p = "/srv/www/css-private/secret.css".toList then
        .ok { Size := 6, ModTime := "Mon, 02 Jan 2006 15:04:05 GMT".toList }
      else testWorld.Stat p }

/-- The server `NewHandler` builds from `siblingOptions`. -/
def siblingServer : staticFileServer :=
  match NewHandler siblingOptions (.ok siblingTree) siblingWorld with
  | .ok sfs => sfs
  | .error _ => testServer

/-- A configuration whose only allowed directory, joined to the root, is the
index path itself. -/
def indexAllowedOptions : ServerOptions :=
  { testOptions with RootDir := ".".toList, AllowedDirs := ["index.html".toList] }

/-- The push configuration with the dependent asset declared without a
leading `/`. -/
def relativePushOptions : ServerOptions :=
  { pushTestOptions with PushContent := [("/index.html".toList, ["css/app.css".toList])] }

/-- The server `NewHandler` builds from `relativePushOptions`. -/
def relativePushServer : staticFileServer :=
  match NewHandler relativePushOptions (.ok testTree) testWorld with
  | .ok sfs => sfs
  | .error _ => testServer

/-! ## The legacy handler (package `handler/static`) -/

namespace Legacy

/-- The struct `staticFileServer` of the legacy package (`staticFile` and
`pushOptions` are declared there with the same fields as in package `static`). -/
structure staticFileServer where
  rootDir : GoString
  pushSupport : Bool
  files : GoString → Option staticFile
  pushContent : GoString → Option pushOptions
  notFoundPaths : GoString → Option Int
  notFoundHandler : Handler

/-- The method `getStaticFile` of the legacy package. -/
def getStaticFile (sfs : staticFileServer) (fpath : GoString) : Option staticFile :=
  sfs.files fpath

/-- The method `addNotFoundPath` of the legacy package. -/
def addNotFoundPath (sfs : staticFileServer) (fpath : GoString) : staticFileServer :=
  { sfs with notFoundPaths := mapSet sfs.notFoundPaths fpath 2 }

/-- The method `addStaticFile` of the legacy package: the error it returns,
the server afterwards and the effects it performed. -/
def addStaticFile (sfs : staticFileServer) (world : World) (path : GoString) :
    Option GoError × staticFileServer × List Event :=
  let filePath := Join [sfs.rootDir, path]
  -- read file content
  match world.ReadFile filePath with
  | .error err => (some (GoError.os err), sfs, [Event.readFile filePath])
  | .ok bs =>
    -- get file stats
    match world.Stat filePath with
    | .error err => (some (GoError.os err), sfs, [Event.readFile filePath, Event.stat filePath])
    | .ok finfo =>
      -- find mime of file
      let ctype0 := world.TypeByExtension (Ext filePath)
      let ctype := if ctype0 = [] then world.DetectContentType bs else ctype0
      (none,
       { sfs with files := mapSet sfs.files path { data := bs, finfo := finfo, ctype := ctype } },
       [Event.readFile filePath, Event.stat filePath])

/-- The method `serverPush` of the legacy package. -/
def serverPush (sfs : staticFileServer) (world : World) (fpath : GoString) : List Event :=
  -- return early when push support is not enabled
  if sfs.pushSupport = false then []
  else
    match world.Pusher with
    | none => []
    | some _ =>
      match sfs.pushContent fpath with
      | none => []
      | some pushInfo => pushInfo.pushFiles.map Event.push

/-- The method `writeResponse` of the legacy package, on a writer whose
`Write` succeeds. -/
def writeResponse (sfs : staticFileServer) (name : GoString) : Response :=
  match getStaticFile sfs name with
  | none => httpError "file data does not exist".toList 500
  | some sfile =>
    { status := 200,
      headers := [("Content-Type".toList, sfile.ctype),
                  ("Content-Length".toList, FormatInt sfile.finfo.Size),
                  ("Accept-Ranges".toList, "bytes".toList),
                  ("Last-Modified".toList, sfile.finfo.ModTime)],
      body := sfile.data }

/-- The path resolution at the head of the legacy `ServeHTTP`. -/
def resolvePath (r : Request) : GoString × Request :=
  let fpath := Clean r.Path
  let (fpath, r) :=
    if HasPrefix fpath ['/'] = false then
      -- add prefix and clean
      ('/' :: fpath, { r with Path := '/' :: fpath })
    else (fpath, r)
  -- update to render index page
  if fpath = ['/'] ∨ fpath = [] then ("/index.html".toList, r) else (fpath, r)

/-- The result of one call of the legacy `ServeHTTP`. -/
structure Outcome where
  sfs : staticFileServer
  response : Response
  trace : List Event

/-- The closure `pushAndServe` of the legacy `ServeHTTP`. -/
def pushAndServe (sfs : staticFileServer) (world : World) (r : Request) (before : List Event) :
    Outcome :=
  { sfs := sfs,
    response := sfs.notFoundHandler r,
    trace := before ++ serverPush sfs world "/index.html".toList ++ [Event.notFound r] }

/-- The method `ServeHTTP` of the legacy package. -/
def ServeHTTP (sfs : staticFileServer) (world : World) (r : Request) : Outcome :=
  -- Method must be get
  if r.Method ≠ MethodGet then
    { sfs := sfs, response := httpError "METHOD_NOT_ALLOWED".toList 400, trace := [] }
  else
    let (fpath, r) := resolvePath r
    -- Check if file name exist in map
    match getStaticFile sfs fpath with
    | some _ =>
      { sfs := sfs, response := writeResponse sfs fpath, trace := serverPush sfs world fpath }
    | none =>
      -- check if the path is in notFoundPaths so that we serve index page
      match sfs.notFoundPaths fpath with
      | some _ => pushAndServe sfs world r []
      | none =>
        match addStaticFile sfs world fpath with
        | (some err, sfs1, evs) =>
          if IsNotExist err = true then
            pushAndServe (addNotFoundPath sfs1 fpath) world r evs
          else
            { sfs := sfs1, response := httpError err.Error 500, trace := evs }
        | (none, sfs1, evs) =>
          { sfs := sfs1, response := writeResponse sfs1 fpath,
            trace := evs ++ serverPush sfs1 world fpath }

/-- The inner loop of the legacy `NewHandler` over the files of one push entry. -/
def addPushFiles (urlPathPrefix : GoString) (world : World) :
    List GoString → staticFileServer → List GoString →
      Except GoError (staticFileServer × List GoString)
  | [], sfs, pushFiles => .ok (sfs, pushFiles)
  | file :: files, sfs, pushFiles =>
    let filePath := Clean file
    match addStaticFile sfs world (Clean filePath) with
    | (some err, _, _) => .error err
    | (none, sfs1, _) =>
      addPushFiles urlPathPrefix world files sfs1 (pushFiles ++ [Join [urlPathPrefix, filePath]])

/-- The loop of the legacy `NewHandler` over `pushContent`. -/
def addPushContent (urlPathPrefix : GoString) (world : World) :
    List (GoString × List GoString) → staticFileServer → Except GoError staticFileServer
  | [], sfs => .ok sfs
  | (ppath, files) :: more, sfs =>
    match addPushFiles urlPathPrefix world files sfs [] with
    | .error err => .error err
    | .ok (sfs1, pushFiles) =>
      let pushVal : pushOptions :=
        { strict := !HasSuffix ppath ['*'], path := Clean ppath, pushFiles := pushFiles }
      addPushContent urlPathPrefix world more
        { sfs1 with pushContent := mapSet sfs1.pushContent pushVal.Key pushVal }

/-- The function `NewHandler` of the legacy package; `pushContent` is the map
as the list of its entries in the order the `range` loop visits them. -/
def NewHandler (rootDir URLPathPrefix : GoString) (notFoundHandler : Option Handler)
    (pushContent : List (GoString × List GoString)) (world : World) :
    Except GoError staticFileServer :=
  -- set rootDir to current directory, clean rootDir
  let rootDir := Clean (if rootDir = [] then ['.'] else rootDir)
  -- clean and update URLPathPrefix
  let URLPathPrefix := '/' :: TrimPrefix (Clean URLPathPrefix) ['/']
  let notFoundHandler := match notFoundHandler with
    | none => NotFoundHandler
    | some h => h
  -- create the server
  let sfs : staticFileServer :=
    { rootDir := rootDir,
      files := fun _ => none, pushContent := fun _ => none, notFoundPaths := fun _ => none,
      pushSupport := decide (pushContent.length > 0),
      notFoundHandler := notFoundHandler }
  if sfs.pushSupport = true then addPushContent URLPathPrefix world pushContent sfs
  else .ok sfs

/-- The legacy server after a sequence of `ServeHTTP` calls. -/
def serveAll (sfs : staticFileServer) : List (World × Request) → staticFileServer
  | [] => sfs
  | (world, r) :: more => serveAll (ServeHTTP sfs world r).sfs more

/-- The server of package `static` that holds the fields of a legacy server,
with the index page `/index.html` and no allow-list. -/
def upgrade (old : staticFileServer) : Static.staticFileServer :=
  { rootDir := old.rootDir, indexPage := "/index.html".toList, allowedDirs := [],
    staticDirs := [], allowAll := true, pushSupport := old.pushSupport, files := old.files,
    pushContent := old.pushContent, notFoundPaths := old.notFoundPaths,
    notFoundHandler := old.notFoundHandler }

/-- The options of package `static` that carry the arguments of the legacy
`NewHandler`: `Index: "/index.html"` and no `AllowedDirs`. -/
def options (rootDir URLPathPrefix : GoString) (notFoundHandler : Option Handler)
    (pushContent : List (GoString × List GoString)) : ServerOptions :=
  { RootDir := rootDir, Index := "/index.html".toList, AllowedDirs := [],
    NotFoundHandler := notFoundHandler, URLPathPrefix := URLPathPrefix,
    PushContent := pushContent }

end Legacy

/-! ## The storage key of packages `filehandler` and `dbstorage` -/

/-- The SHA-256 digest of the empty input: the 32 bytes that `Sum` reads from
a `hash.Hash` made by `sha256.New()` to which nothing has been written. -/
def sha256Empty : List Nat :=
  [0xe3, 0xb0, 0xc4, 0x42, 0x98, 0xfc, 0x1c, 0x14, 0x9a, 0xfb, 0xf4, 0xc8, 0x99, 0x6f, 0xb9, 0x24,
   0x27, 0xae, 0x41, 0xe4, 0x64, 0x9b, 0x93, 0x4c, 0xa4, 0x95, 0x99, 0x1b, 0x78, 0x52, 0xb8, 0x55]

/-- The call `hashFn.Sum(b)`: `Sum` appends the digest of the bytes written to
the hash so far to `b`; neither package ever writes to `hashFn`. -/
def hashSum (b : GoString) : GoString :=
  b ++ sha256Empty.map Char.ofNat

/-- One digit of the verb `%x`. -/
def hexDigit (n : Nat) : Char :=
  "0123456789abcdef".toList.getD n '0'

/-- Go `fmt.Sprintf("%x", s)` on a string: two lower-case hexadecimal digits
per byte. -/
def hexString (s : GoString) : GoString :=
  s.flatMap (fun c => [hexDigit (c.toNat / 16 % 16), hexDigit (c.toNat % 16)])

/-- The head of `ServeHTTP` in both packages: the cleaned URL path `upath`
with a leading `/` and the key
`fmt.Sprintf("%x", string(hashFn.Sum([]byte(upath))))`. -/
def requestKey (path : GoString) : GoString × GoString :=
  let upath := Clean path
  -- add prefix and clean
  let upath := if HasPrefix upath ['/'] = false then '/' :: upath else upath
  -- get hash of file path
  (upath, hexString (hashSum upath))

/-! ## The handler of package `filehandler` -/

namespace FileHandler

/-- The package variables of `filehandler`. -/
structure Package where
  urlQueryKeyOwnerID : GoString
  urlQueryKeyOwnerTag : GoString
  urlQueryKeyDirectory : GoString
  urlQueryKeyFormFile : GoString
  maxUploadSize : Int
  defaultDir : GoString
  useDB : Bool
  deriving DecidableEq

/-- The initial values of the package variables. -/
def Package.init : Package :=
  { urlQueryKeyOwnerID := "oid".toList, urlQueryKeyOwnerTag := "otag".toList,
    urlQueryKeyDirectory := "dir".toList, urlQueryKeyFormFile := "file".toList,
    maxUploadSize := 8 * 1024 * 1024, defaultDir := ".".toList, useDB := true }

/-- The setter `SetURLQueryKeyDirectory`. -/
def SetURLQueryKeyDirectory (pkg : Package) (key : GoString) : Package :=
  { pkg with urlQueryKeyDirectory := key }

/-- The setter `SetMaxUploadSize`. -/
def SetMaxUploadSize (pkg : Package) (size : Int) : Package :=
  if size < 0 then { pkg with maxUploadSize := size } else pkg

/-- The setter `SetDefaultDir`. -/
def SetDefaultDir (pkg : Package) (dir : GoString) : Package :=
  { pkg with defaultDir := Clean dir }

/-- The setter `DisableDB`. -/
def DisableDB (pkg : Package) : Package :=
  { pkg with useDB := false }

/-- The part of `*http.Request` the handler reads: `r.Method`, `r.URL.Path`
and `r.URL.Query().Get(key)`. -/
structure Request where
  Method : GoString
  Path : GoString
  Query : GoString → GoString

/-- The struct `ServerOptions`; `DB` tells whether `opt.DB` is not `nil`. -/
structure ServerOptions where
  RootDir : GoString
  AllowedDirs : List GoString
  NotFoundHandler : Option (Request → Response)
  DB : Bool

/-- The struct `fsHandler` (the hash and the database connection carry no
state of their own here). -/
structure fsHandler where
  root : GoString
  allowedDirs : List GoString
  defaultDir : GoString
  notFoundHandler : Request → Response
  useDB : Bool
  maxUploadSize : Int

/-- The function `New`: the handler and the package variables afterwards.
`uuid` is the value of `uuid.New().String()`, `create` what `os.Create` gives
for the test file. -/
def New (pkg : Package) (opt : ServerOptions) (uuid : GoString)
    (create : GoString → Option OSError) : Except GoError (fsHandler × Package) :=
  -- set root to current directory if its empty, clean root
  let RootDir := Clean (if opt.RootDir = [] then ['.'] else opt.RootDir)
  let defaultDir := Join [RootDir, pkg.defaultDir]
  -- allowed directories
  let allowedDirs := defaultDir :: opt.AllowedDirs.map Clean
  let testFile := Join [defaultDir, uuid ++ ".txt".toList]
  -- create simple file in default directory to check that it exitst
  match create testFile with
  | some err => .error (GoError.os err)
  | none =>
    let notFoundHandler := match opt.NotFoundHandler with
      | none => fun _ => httpError "404 page not found".toList 404
      | some h => h
    let pkg := if opt.DB = false then { pkg with useDB := false } else pkg
    .ok ({ root := RootDir, allowedDirs := allowedDirs, defaultDir := defaultDir,
           notFoundHandler := notFoundHandler, useDB := pkg.useDB,
           maxUploadSize := pkg.maxUploadSize }, pkg)

/-- The method `isDirAllowed`. -/
def isDirAllowed (fsh : fsHandler) (dir : GoString) : Bool :=
  fsh.allowedDirs.any (fun d => d == dir)

/-- The file of a multipart form as `r.FormFile` returns it: the header's
`Filename` and `Size`, and what `ioutil.ReadAll(file)` gives. -/
structure FormFile where
  Filename : GoString
  Size : Int
  content : Except GoError GoString

/-- The platform as one call of the handler meets it: the request body
(`ParseMultipartForm`, `FormFile`), the MIME lookups, the database
transaction (the error of each step, `none` for `nil`) and the filesystem. -/
structure World where
  ParseMultipartForm : Int → Option GoError
  FormFile : GoString → Except GoError FormFile
  DetectContentType : GoString → GoString
  ExtensionsByType : GoString → Except GoError (List GoString)
  uuid : GoString
  Begin : Option GoError
  Save : GoString → Option GoError
  Delete : GoString → GoString → Option GoError
  Commit : Option GoError
  ReadFile : GoString → Except OSError GoString
  Stat : GoString → Except OSError FileInfo
  Create : GoString → Option OSError
  Write : GoString → GoString → Option OSError
  Remove : GoString → Option OSError

/-- The observable effects of the handler, in program order. -/
inductive Effect where
  /-- `fsh.db.Begin()` -/
  | begin
  /-- `tx.Unscoped().Save(fileInfo)` for the record with this id -/
  | dbSave (key : GoString)
  /-- `tx.Delete(&fs.FileInfo{}, "id=? AND owner_id=?", key, ownerID)` -/
  | dbDelete (key ownerID : GoString)
  /-- `tx.Rollback()` -/
  | rollback
  /-- `tx.Commit()` -/
  | commit
  /-- `ioutil.ReadFile(filePath)` -/
  | readFile (filePath : GoString)
  /-- `os.Stat(filePath)` -/
  | stat (filePath : GoString)
  /-- `os.Create(filePath)` -/
  | create (filePath : GoString)
  /-- `newFile.Write(bs)` -/
  | write (filePath : GoString) (bs : GoString)
  /-- `os.Remove(filePath)` -/
  | remove (filePath : GoString)
  /-- `fsh.notFoundHandler.ServeHTTP(w, r)` -/
  | notFound
  deriving DecidableEq

/-- Whether the effect reads, creates, writes or removes a file. -/
def Effect.touchesFile : Effect → Bool
  | .readFile _ => true
  | .stat _ => true
  | .create _ => true
  | .write _ _ => true
  | .remove _ => true
  | _ => false

/-- The result of one `ServeHTTP` call: what was written to `w` (`none` when
the handler panicked before writing and nothing recovered the panic) and the
effects in program order. -/
structure Outcome where
  response : Option Response
  trace : List Effect
  deriving DecidableEq

/-- The closure `rollBack` of `saveFile` and `deleteFile`. -/
def rollBack (fsh : fsHandler) : List Effect :=
  if fsh.useDB = true then [Effect.rollback] else []

/-- The method `getFile`. -/
def getFile (fsh : fsHandler) (pkg : Package) (world : World) (r : Request) (key : GoString) :
    Outcome :=
  -- if user has specified to get file from a given directory, use it
  let dir := r.Query pkg.urlQueryKeyDirectory
  if dir ≠ [] ∧ isDirAllowed fsh (Clean dir) = false then
    { response := some (httpError "NOT_ALLOWED_ACESS_TO_DIRECTORY".toList 400), trace := [] }
  else
    let dir := if dir ≠ [] then Clean dir else dir
    -- use default uploads when user has not specified what directory to retrieve file
    let dir := if dir = [] then fsh.defaultDir else dir
    let filePath := Join [dir, key]
    -- read file contents
    let read := world.ReadFile filePath
    let missing := match read with
      | .error err => IsNotExist (GoError.os err)
      | .ok _ => false
    if missing = true then
      { response := some (fsh.notFoundHandler r),
        trace := [Effect.readFile filePath, Effect.notFound] }
    else
      let bs := match read with
        | .error _ => []
        | .ok bs => bs
      -- get file stats
      match world.Stat filePath with
      | .error err =>
        { response := some (httpError (GoError.os err).Error 500),
          trace := [Effect.readFile filePath, Effect.stat filePath] }
      | .ok finfo =>
        { response := some
            { status := 200,
              headers := [("Content-Type".toList, world.DetectContentType bs),
                          ("Content-Length".toList, FormatInt finfo.Size),
                          ("Accept-Ranges".toList, "bytes".toList),
                          ("Last-Modified".toList, finfo.ModTime)],
              body := bs },
          trace := [Effect.readFile filePath, Effect.stat filePath] }

/-- The tail of `saveFile` from the directory check on; `before` holds the
effects of the database steps. -/
def saveToDir (fsh : fsHandler) (pkg : Package) (world : World) (r : Request) (key : GoString)
    (bs : GoString) (before : List Effect) : Outcome :=
  -- if user can specify which directory to save file, use it
  let dir := r.Query pkg.urlQueryKeyDirectory
  if dir ≠ [] ∧ isDirAllowed fsh (Clean dir) = false then
    { response := some (httpError "NOT_ALLOWED_ACESS_TO_DIRECTORY".toList 400),
      trace := before ++ rollBack fsh }
  else
    let dir := if dir ≠ [] then Clean dir else dir
    -- use default uploads when user has not specified which directory to save the file
    let dir := if dir = [] then fsh.defaultDir else dir
    -- path to file
    let filePath := Join [dir, key]
    -- create the file
    match world.Create filePath with
    | some _ =>
      { response := some (httpError "CANT_CREATE_FILE".toList 500),
        trace := before ++ [Effect.create filePath] ++ rollBack fsh }
    | none =>
      match world.Write filePath bs with
      | some _ =>
        { response := some (httpError "CANT_WRITE_TO_FILE".toList 500),
          trace := before ++ [Effect.create filePath, Effect.write filePath bs] ++ rollBack fsh }
      | none =>
        let written := before ++ [Effect.create filePath, Effect.write filePath bs]
        let done : Outcome :=
          { response := some
              { status := if r.Method = "POST".toList then 201 else 200, headers := [],
                body := "SUCCESS".toList },
            trace := if fsh.useDB = true then written ++ [Effect.commit] else written }
        -- commit file to database
        if fsh.useDB = true then
          match world.Commit with
          | some _ =>
            { response := some (httpError "FAILED_TO_COMMIT_FILE".toList 500),
              trace := written ++ [Effect.commit] ++ rollBack fsh }
          | none => done
        else done

/-- The method `saveFile`. -/
def saveFile (fsh : fsHandler) (pkg : Package) (world : World) (r : Request) (key : GoString) :
    Outcome :=
  -- validate size
  match world.ParseMultipartForm fsh.maxUploadSize with
  | some err => { response := some (httpError err.Error 400), trace := [] }
  | none =>
    -- get file from request
    match world.FormFile pkg.urlQueryKeyFormFile with
    | .error err => { response := some (httpError err.Error 400), trace := [] }
    | .ok file =>
      -- read content
      match file.content with
      | .error err => { response := some (httpError err.Error 400), trace := [] }
      | .ok bs =>
        -- detect content-type
        let ctype := world.DetectContentType bs
        let fileName : Option (Except GoError GoString) :=
          if file.Filename ≠ [] then some (.ok file.Filename)
          else
            match world.ExtensionsByType ctype with
            | .error _ => some (.error (GoError.new "CANT_READ_FILE_EXT_TYPE".toList))
            -- the index expression fileEndings[0] panics on an empty slice
            | .ok [] => none
            | .ok (ending :: _) => some (.ok (world.uuid ++ ending))
        match fileName with
        | none => { response := none, trace := [] }
        | some (.error err) => { response := some (httpError err.Error 500), trace := [] }
        | some (.ok _) =>
          -- Create a transaction
          if fsh.useDB = true then
            match world.Begin with
            | some _ =>
              { response := some (httpError "TRANSACTION_BEGIN_FAILED".toList 500),
                trace := [Effect.begin] }
            | none =>
              -- save file info
              match world.Save key with
              | some _ =>
                { response := some (httpError "TX_SAVE_FILE_FAILED".toList 500),
                  trace := [Effect.begin, Effect.dbSave key, Effect.rollback] }
              | none => saveToDir fsh pkg world r key bs [Effect.begin, Effect.dbSave key]
          else saveToDir fsh pkg world r key bs []

/-- The tail of `deleteFile` from the directory check on; `before` holds the
effects of the database steps. -/
def deleteFromDir (fsh : fsHandler) (pkg : Package) (world : World) (r : Request)
    (key : GoString) (before : List Effect) : Outcome :=
  -- if user can specify which directory to delete file from, use it
  let dir := r.Query pkg.urlQueryKeyDirectory
  if dir ≠ [] ∧ isDirAllowed fsh (Clean dir) = false then
    { response := some (httpError "NOT_ALLOWED_DIRECTORY".toList 400),
      trace := before ++ rollBack fsh }
  else
    let dir := if dir ≠ [] then Clean dir else dir
    -- use default uploads directory when user has not specified which directory file resides
    let dir := if dir = [] then fsh.defaultDir else dir
    -- path to file
    let filePath := Join [dir, key]
    -- delete the file in directory
    match world.Remove filePath with
    | some err =>
      { response := some
          (httpError ("DELETE_FILE_FAILED: ".toList ++ (GoError.os err).Error) 400),
        trace := before ++ [Effect.remove filePath] ++ rollBack fsh }
    | none =>
      let removed := before ++ [Effect.remove filePath]
      let done : Outcome :=
        { response := some { status := 200, headers := [], body := "SUCCESS".toList },
          trace := if fsh.useDB = true then removed ++ [Effect.commit] else removed }
      -- commit db transaction
      if fsh.useDB = true then
        match world.Commit with
        | some err =>
          { response := some
              (httpError ("FAILED_TO_COMMIT_FILE: ".toList ++ err.Error) 500),
            trace := removed ++ [Effect.commit] ++ rollBack fsh }
        | none => done
      else done

/-- The method `deleteFile`. -/
def deleteFile (fsh : fsHandler) (pkg : Package) (world : World) (r : Request)
    (key : GoString) : Outcome :=
  let ownerID := r.Query pkg.urlQueryKeyOwnerID
  -- Create a transaction
  if fsh.useDB = true then
    match world.Begin with
    | some _ =>
      -- err is still nil here: err.Error() panics and the deferred recover answers
      { response := some (httpError "RUNTIME_ERROR".toList 500), trace := [Effect.begin] }
    | none =>
      -- delete file in database
      match world.Delete key ownerID with
      | some err =>
        { response := some
            (httpError ("TX_DELETE_FILE_FAILED: ".toList ++ err.Error) 500),
          trace := [Effect.begin, Effect.dbDelete key ownerID, Effect.rollback] }
      | none => deleteFromDir fsh pkg world r key [Effect.begin, Effect.dbDelete key ownerID]
  else deleteFromDir fsh pkg world r key []

/-- The request after the head of `ServeHTTP`: `r.URL.Path` is assigned the
cleaned path with a `/` in front only when the cleaned path has no leading `/`. -/
def rewritePath (r : Request) : Request :=
  if HasPrefix (Clean r.Path) ['/'] = false then { r with Path := '/' :: Clean r.Path } else r

/-- The method `ServeHTTP`; a method outside the `switch` writes nothing, so
the server answers 200 with an empty body. -/
def ServeHTTP (fsh : fsHandler) (pkg : Package) (world : World) (r : Request) : Outcome :=
  let key := (requestKey r.Path).2
  let r := rewritePath r
  if r.Method = "GET".toList then getFile fsh pkg world r key
  else if r.Method = "POST".toList then saveFile fsh pkg world r key
  else if r.Method = "PUT".toList then saveFile fsh pkg world r key
  else if r.Method = "DELETE".toList then deleteFile fsh pkg world r key
  else { response := some { status := 200, headers := [], body := [] }, trace := [] }

end FileHandler

/-! ## The package variables of `dbstorage` -/

namespace DBStorage

/-- The package variables of `dbstorage` behind the size setters and
`NewFileHandler`. -/
structure Package where
  maxUploadSize : Int
  maxRedisFileSize : Int
  redisCaching : Bool
  deriving DecidableEq

/-- The initial values of the package variables. -/
def Package.init : Package :=
  { maxUploadSize := 8 * 1024 * 1024, maxRedisFileSize := 50 * 1024, redisCaching := true }

/-- The setter `SetMaxFileUploadSize`. -/
def SetMaxFileUploadSize (pkg : Package) (size : Int) : Package :=
  if size < 0 then { pkg with maxUploadSize := size } else pkg

/-- The setter `SetMaxRedisFileSize`. -/
def SetMaxRedisFileSize (pkg : Package) (size : Int) : Package :=
  if size < 0 then { pkg with maxRedisFileSize := size } else pkg

/-- The struct `fileDBHandler` (the connections and the hash carry no state
of their own here). -/
structure fileDBHandler where
  redisCaching : Bool
  maxUploadSize : Int
  deriving DecidableEq

/-- The function `NewFileHandler`: the handler and the package variables
afterwards; `db` and `redisClient` tell whether the argument is not `nil`. -/
def NewFileHandler (pkg : Package) (db redisClient : Bool) :
    Except GoError (fileDBHandler × Package) :=
  if db = false then .error (GoError.new "database connection is required".toList)
  else
    let pkg := if redisClient = false then { pkg with redisCaching := false } else pkg
    .ok ({ redisCaching := pkg.redisCaching, maxUploadSize := pkg.maxUploadSize }, pkg)

end DBStorage

/-! ## Fixtures of the file handler -/

/-- The package variables after the setters the test suite of `filehandler`
calls before `New`. -/
def suitePackage : FileHandler.Package :=
  FileHandler.SetURLQueryKeyDirectory
    (FileHandler.SetMaxUploadSize (FileHandler.SetDefaultDir FileHandler.Package.init
      "uploads".toList) (10 * 1024 * 1024)) "d".toList

/-- The options of a file handler over `/srv/files` with a database. -/
def fileOptions : FileHandler.ServerOptions :=
  { RootDir := "/srv/files".toList, AllowedDirs := ["uploads".toList], NotFoundHandler := none,
    DB := true }

/-- The handler `New` builds from `fileOptions` after the setters of the test suite. -/
def fileServer : FileHandler.fsHandler :=
  { root := "/srv/files".toList,
    allowedDirs := ["/srv/files/uploads".toList, "uploads".toList],
    defaultDir := "/srv/files/uploads".toList,
    notFoundHandler := fun _ => httpError "404 page not found".toList 404,
    useDB := true, maxUploadSize := 8 * 1024 * 1024 }

/-- A platform on which every step succeeds except the row deletion of the
database transaction. -/
def failingDeleteWorld : FileHandler.World :=
  { ParseMultipartForm := fun _ => none,
    FormFile := fun _ => .ok { Filename := "a.txt".toList, Size := 2, content := .ok "hi".toList },
    DetectContentType := fun _ => "text/plain; charset=utf-8".toList,
    ExtensionsByType := fun _ => .ok [".txt".toList],
    uuid := "0000".toList,
    Begin := none,
    Save := fun _ => none,
    Delete := fun _ _ => some (GoError.new "connection lost".toList),
    Commit := none,
    ReadFile := fun _ => .ok "hi".toList,
    Stat := fun _ => .ok { Size := 2, ModTime := "Mon, 02 Jan 2006 15:04:05 GMT".toList },
    Create := fun _ => none,
    Write := fun _ _ => none,
    Remove := fun _ => none }

/-- A platform on which every step succeeds. -/
def workingWorld : FileHandler.World :=
  { failingDeleteWorld with Delete := fun _ _ => none }

/-- A request for `/image1` that names the directory `/etc`. -/
def etcRequest (method : GoString) : FileHandler.Request :=
  { Method := method, Path := "/image1".toList,
    Query := fun key => if key = "d".toList then "/etc".toList else [] }

/-- The server `s` has the configuration `NewHandler` computes from the
options and the listing of the root: the cleaned root, the allowed directories
joined to it (an entry equal to the cleaned index path left out), `allowAll`
when none remains, and the directories found by the walk of the root when the
allow-list is in force. -/
def configuredBy (opt : ServerOptions) (root : Except OSError DirTree) (s : staticFileServer) :
    Prop :=
  s.rootDir = Clean (if opt.RootDir = [] then ['.'] else opt.RootDir) ∧
  s.allowedDirs = (opt.AllowedDirs.map (fun dir => Join [s.rootDir, dir])).filter
    (fun dir => dir ≠ Clean (if opt.Index = [] then "./index.html".toList else opt.Index)) ∧
  s.allowAll = (s.allowedDirs.length == 0) ∧
  (s.allowAll = true → s.staticDirs = []) ∧
  (s.allowAll = false → ∃ tree, root = .ok tree ∧
    readDir s.rootDir tree [] = .ok s.staticDirs)

/-! ## Locking: the steps of one call on the mutex and the two shared maps -/

/-- A step of one `ServeHTTP` call that concerns the shared state: an
operation on the mutex `sfs.mu`, or an access to the map `files` or to the
map `notFoundPaths`. -/
inductive Step where
  /-- `sfs.mu.RLock()` -/
  | RLock
  /-- `sfs.mu.RUnlock()` -/
  | RUnlock
  /-- `sfs.mu.Lock()` -/
  | Lock
  /-- `sfs.mu.Unlock()` -/
  | Unlock
  /-- the read `sfs.files[fpath]` -/
  | readFiles (key : GoString)
  /-- the write `sfs.files[path] = ...` -/
  | writeFiles (key : GoString)
  /-- the read `sfs.notFoundPaths[fpath]` -/
  | readNotFound (key : GoString)
  /-- the write `sfs.notFoundPaths[fpath] = 2` -/
  | writeNotFound (key : GoString)
  deriving DecidableEq

/-- The steps of the method `getStaticFile`. -/
def getStaticFileSteps (fpath : GoString) : List Step :=
  [Step.RLock, Step.readFiles fpath, Step.RUnlock]

/-- The steps of the method `addNotFoundPath`. -/
def addNotFoundPathSteps (fpath : GoString) : List Step :=
  [Step.writeNotFound fpath]

/-- The steps of the method `addStaticFile`: the map is written, between
`Lock` and `Unlock`, once the allow-list check, the read and the stat have
succeeded; every earlier return touches neither the mutex nor a map. -/
def addStaticFileSteps (sfs : staticFileServer) (world : World) (path : GoString) : List Step :=
  let filePath := Join [sfs.rootDir, path]
  if allowListPasses sfs filePath = false then []
  else
    match world.ReadFile filePath with
    | .error _ => []
    | .ok _ =>
      match world.Stat filePath with
      | .error _ => []
      | .ok _ => [Step.Lock, Step.writeFiles path, Step.Unlock]

/-- The steps of the method `writeResponse`: its call of `getStaticFile`. -/
def writeResponseSteps (name : GoString) : List Step :=
  getStaticFileSteps name

/-- The steps of the method `ServeHTTP`, in program order (`serverPush` reads
only `pushSupport` and `pushContent`, which no request writes). -/
def ServeHTTPSteps (sfs : staticFileServer) (world : World) (r : Request) : List Step :=
  -- Method must be get
  if r.Method ≠ MethodGet then []
  else
    let fpath := (resolvePath sfs r).1
    -- Check if file name exist in map
    getStaticFileSteps fpath ++
    match getStaticFile sfs fpath with
    | some _ => writeResponseSteps fpath
    | none =>
      -- check if the path is in notFoundPaths so that we serve index page
      Step.readNotFound fpath ::
      match sfs.notFoundPaths fpath with
      | some _ => []
      | none =>
        addStaticFileSteps sfs world fpath ++
        match (addStaticFile sfs world fpath).1 with
        | some err => if IsNotExist err = true then addNotFoundPathSteps fpath else []
        | none => writeResponseSteps fpath

/-- What the calling goroutine holds of the reader/writer lock `sfs.mu`. -/
inductive Held where
  /-- nothing -/
  | free
  /-- the read lock -/
  | shared
  /-- the write lock -/
  | exclusive
  deriving DecidableEq

/-- What the goroutine holds after a step. -/
def Held.next : Held → Step → Held
  | _, .RLock => .shared
  | _, .RUnlock => .free
  | _, .Lock => .exclusive
  | _, .Unlock => .free
  | h, _ => h

/-- The step is made under the lock it needs: a read of a map under the read
or the write lock, a write of a map under the write lock. -/
def Step.guarded (h : Held) : Step → Bool
  | .readFiles _ => h != Held.free
  | .readNotFound _ => h != Held.free
  | .writeFiles _ => h == Held.exclusive
  | .writeNotFound _ => h == Held.exclusive
  | _ => true

/-- The map accesses of a sequence of steps that are made without the lock
they need, the goroutine holding `h` at the start. -/
def unguarded : Held → List Step → List Step
  | _, [] => []
  | h, s :: rest =>
    if s.guarded h = true then unguarded (h.next s) rest else s :: unguarded (h.next s) rest

/-- The step accesses the map `files`. -/
def Step.onFiles : Step → Bool
  | .readFiles _ => true
  | .writeFiles _ => true
  | _ => false

/-- The step accesses the map `notFoundPaths`. -/
def Step.onNotFound : Step → Bool
  | .readNotFound _ => true
  | .writeNotFound _ => true
  | _ => false

/-- The two steps access the same map and at least one of them writes it (a
Go map tolerates no write concurrent with another access, whatever the keys). -/
def Step.conflicts : Step → Step → Bool
  | .writeFiles _, .readFiles _ => true
  | .writeFiles _, .writeFiles _ => true
  | .readFiles _, .writeFiles _ => true
  | .writeNotFound _, .readNotFound _ => true
  | .writeNotFound _, .writeNotFound _ => true
  | .readNotFound _, .writeNotFound _ => true
  | _, _ => false

/-- Two calls running in different goroutines can make conflicting accesses
at the same time: some access of one call, made without the lock it needs,
conflicts with an access of the other call. -/
def races (t1 t2 : List Step) : Bool :=
  (unguarded Held.free t1).any (fun a => t2.any (fun b => a.conflicts b)) ||
  (unguarded Held.free t2).any (fun b => t1.any (fun a => b.conflicts a))

/-! ## The function `path.Clean` -/

theorem Clean_eq (path : GoString) (h : path ≠ []) :
    Clean path = pathOf (cleanLoop (path.head? == some '/') path.length
      (cleanStart (path.head? == some '/') path)).out := by
  unfold Clean pathOf cleanStart
  simp only [h, if_false]

theorem cleanLoop_add (rooted : Bool) (a b : Nat) (s : CleanState) :
    cleanLoop rooted (a + b) s = cleanLoop rooted b (cleanLoop rooted a s) := by
  induction a generalizing s with
  | zero => simp [cleanLoop]
  | succ a ih =>
    rw [Nat.succ_add]
    simp only [cleanLoop]
    exact ih _

theorem cleanStep_nil (rooted : Bool) (s : CleanState) (h : s.rest = []) :
    cleanStep rooted s = s := by
  unfold cleanStep
  rw [h]

theorem cleanLoop_nil (rooted : Bool) (n : Nat) (s : CleanState) (h : s.rest = []) :
    cleanLoop rooted n s = s := by
  induction n with
  | zero => rfl
  | succ n ih => simp only [cleanLoop, cleanStep_nil rooted s h, ih]

theorem length_dropWhile_le (p : Char → Bool) (l : GoString) :
    (l.dropWhile p).length ≤ l.length := by
  induction l with
  | nil => simp
  | cons a l ih =>
    simp only [List.dropWhile]
    split
    · simp only [List.length_cons]; omega
    · simp

theorem cleanStep_rest_lt (rooted : Bool) (s : CleanState) (h : s.rest ≠ []) :
    (cleanStep rooted s).rest.length < s.rest.length := by
  obtain ⟨rest, out, dd⟩ := s
  cases rest with
  | nil => exact absurd rfl h
  | cons c t =>
    unfold cleanStep
    simp only
    have hd : (List.dropWhile (fun x => x != '/') (c :: t)).length ≤ t.length ∨ c = '/' := by
      by_cases hc : c = '/'
      · exact Or.inr hc
      · left
        have hc2 : (c != '/') = true := by simpa using hc
        simp only [List.dropWhile, hc2]
        exact length_dropWhile_le _ t
    split_ifs with h1 <;>
      first
        | (simp only [List.length_tail, List.length_cons]; omega)
        | (rcases hd with hd | hd
           · simp only [List.length_cons]; omega
           · exact absurd hd h1)

theorem cleanLoop_rest_nil (rooted : Bool) (n : Nat) (s : CleanState) (h : s.rest.length ≤ n) :
    (cleanLoop rooted n s).rest = [] := by
  induction n generalizing s with
  | zero =>
    simp only [cleanLoop]
    exact List.length_eq_zero.mp (Nat.le_zero.mp h)
  | succ n ih =>
    simp only [cleanLoop]
    by_cases hr : s.rest = []
    · rw [cleanStep_nil rooted s hr]
      exact ih s (by rw [hr]; simp)
    · apply ih
      have := cleanStep_rest_lt rooted s hr
      omega

/-- Once some number of iterations has consumed the input, `len(path)`
iterations give that same state. -/
theorem cleanLoop_final (rooted : Bool) (k n : Nat) (s t : CleanState)
    (hk : cleanLoop rooted k s = t) (ht : t.rest = []) (hn : s.rest.length ≤ n) :
    cleanLoop rooted n s = t := by
  have h1 : cleanLoop rooted (k + n) s = t := by
    rw [cleanLoop_add, hk, cleanLoop_nil rooted n t ht]
  have h2 : cleanLoop rooted (n + k) s = cleanLoop rooted n s := by
    rw [cleanLoop_add, cleanLoop_nil rooted k _ (cleanLoop_rest_nil rooted n s hn)]
  rw [← h2, Nat.add_comm, h1]

theorem length_addSlash_ge (rooted : Bool) (out : GoString) :
    out.length ≤ (addSlash rooted out).length := by
  unfold addSlash
  split_ifs <;> simp

theorem CleanForm.dotdot_le {rooted : Bool} {out : GoString} {dd : Nat}
    (h : CleanForm rooted out dd) : dd ≤ out.length := by
  induction h with
  | init => cases rooted <;> simp
  | dots out _ _ _ => exact Nat.le_refl _
  | name out dd n _ hn ih =>
    have := length_addSlash_ge rooted out
    simp only [List.length_append]
    omega

theorem CleanForm.rooted_dotdot {out : GoString} {dd : Nat}
    (h : CleanForm true out dd) : dd = 1 := by
  induction h with
  | init => rfl
  | dots out h0 _ _ => cases h0
  | name out dd n _ _ ih => exact ih

theorem head?_addSlash_append (rooted : Bool) (out n : GoString) (h : out ≠ []) :
    (addSlash rooted out ++ n).head? = out.head? := by
  cases out with
  | nil => exact absurd rfl h
  | cons a l =>
    unfold addSlash
    split_ifs <;> simp

theorem CleanForm.rooted_head {out : GoString} {dd : Nat}
    (h : CleanForm true out dd) : out.head? = some '/' := by
  induction h with
  | init => rfl
  | dots out h0 _ _ => cases h0
  | name out dd n _ _ ih =>
    have hne : out ≠ [] := by
      intro h0; rw [h0] at ih; cases ih
    rw [head?_addSlash_append _ _ _ hne]
    exact ih

theorem IsName.head_ne {n : GoString} (h : IsName n) : n.head? ≠ some '/' := by
  obtain ⟨h1, h2, _, _⟩ := h
  cases n with
  | nil => exact absurd rfl h1
  | cons a l =>
    simp only [List.head?_cons, ne_eq, Option.some.injEq]
    intro ha
    exact h2 (by rw [ha]; exact List.mem_cons_self _ _)

theorem CleanForm.unrooted_head {out : GoString} {dd : Nat}
    (h : CleanForm false out dd) : out.head? ≠ some '/' := by
  induction h with
  | init => simp
  | dots out h0 _ ih =>
    by_cases hne : out = []
    · subst hne; simp [addSlash]
    · rw [head?_addSlash_append _ _ _ hne]; exact ih
  | name out dd n _ hn ih =>
    by_cases hne : out = []
    · subst hne
      simp only [addSlash, List.length_nil, ne_eq, not_true_eq_false, and_false, or_false,
        Bool.false_eq_true, false_and, if_false, List.nil_append]
      exact hn.head_ne
    · rw [head?_addSlash_append _ _ _ hne]; exact ih

/-- A buffer above `dotdot` ends in a name. -/
theorem CleanForm.above_dotdot {rooted : Bool} {out : GoString} {dd : Nat}
    (h : CleanForm rooted out dd) (hlt : dd < out.length) :
    ∃ prev n, CleanForm rooted prev dd ∧ IsName n ∧ out = addSlash rooted prev ++ n := by
  cases h with
  | init => cases rooted <;> simp at hlt
  | dots out0 _ _ => exact absurd hlt (Nat.lt_irrefl _)
  | name prev n hprev hn => exact ⟨prev, _, hn, ‹IsName _›, rfl⟩

theorem getD_name_ne {n : GoString} (hn : '/' ∉ n) (k : Nat) (hk : k < n.length) :
    n.getD k '/' ≠ '/' := by
  rw [List.getD_eq_getElem n '/' hk]
  intro h
  exact hn (h ▸ List.getElem_mem hk)

theorem backtrack_slash (prev n : GoString) (dd : Nat) (hn : '/' ∉ n) (hdd : dd ≤ prev.length) :
    ∀ k, k ≤ n.length → backtrack (prev ++ '/' :: n) dd (prev.length + k) = prev.length := by
  intro k
  induction k with
  | zero =>
    intro _
    rw [Nat.add_zero]
    cases hp : prev.length with
    | zero => rfl
    | succ w =>
      have hg : (prev ++ '/' :: n).getD (w + 1) '/' = '/' := by
        rw [List.getD_append_right _ _ _ _ (by omega), ← hp, Nat.sub_self]
        rfl
      simp only [backtrack, hg, ne_eq, not_true_eq_false, and_false, if_false]
  | succ k ih =>
    intro hk
    have hg : (prev ++ '/' :: n).getD (prev.length + k + 1) '/' ≠ '/' := by
      rw [List.getD_append_right _ _ _ _ (by omega)]
      have : prev.length + k + 1 - prev.length = k + 1 := by omega
      rw [this]
      exact getD_name_ne hn k (by omega)
    rw [← Nat.add_assoc]
    simp only [backtrack]
    rw [if_pos ⟨by omega, hg⟩]
    exact ih (by omega)

theorem backtrack_noslash (prev n : GoString) (hn : '/' ∉ n) :
    ∀ k, k < n.length → backtrack (prev ++ n) prev.length (prev.length + k) = prev.length := by
  intro k
  induction k with
  | zero =>
    intro _
    rw [Nat.add_zero]
    cases hp : prev.length with
    | zero => rfl
    | succ w => simp [backtrack]
  | succ k ih =>
    intro hk
    have hg : (prev ++ n).getD (prev.length + k + 1) '/' ≠ '/' := by
      rw [List.getD_append_right _ _ _ _ (by omega)]
      have : prev.length + k + 1 - prev.length = k + 1 := by omega
      rw [this]
      exact getD_name_ne hn (k + 1) hk
    rw [← Nat.add_assoc]
    simp only [backtrack]
    rw [if_pos ⟨by omega, hg⟩]
    exact ih (by omega)

/-- The `..` case of `path.Clean` removes exactly the last name written. -/
theorem backtrack_name {rooted : Bool} {prev : GoString} {dd : Nat} {n : GoString}
    (h : CleanForm rooted prev dd) (hn : IsName n) :
    (addSlash rooted prev ++ n).take
      (backtrack (addSlash rooted prev ++ n) dd ((addSlash rooted prev ++ n).length - 1)) = prev := by
  obtain ⟨hne, hs, _, _⟩ := hn
  have hlen : 0 < n.length := List.length_pos.mpr hne
  have hdd := h.dotdot_le
  by_cases hc : (rooted = true ∧ prev.length ≠ 1) ∨ (rooted = false ∧ prev.length ≠ 0)
  · have ha : addSlash rooted prev = prev ++ ['/'] := by unfold addSlash; rw [if_pos hc]
    rw [ha, List.append_assoc]
    have hl : (prev ++ (['/'] ++ n)).length - 1 = prev.length + n.length := by
      simp only [List.length_append, List.length_cons, List.length_nil]; omega
    rw [hl]
    have := backtrack_slash prev n dd hs hdd n.length (Nat.le_refl _)
    simp only [List.singleton_append] at *
    rw [this]
    simp
  · have ha : addSlash rooted prev = prev := by unfold addSlash; rw [if_neg hc]
    rw [ha]
    have hd : dd = prev.length := by
      cases rooted with
      | true =>
        have h1 := h.rooted_dotdot
        simp only [true_and, Bool.true_eq_false, false_and, or_false, ne_eq, not_not] at hc
        omega
      | false =>
        simp only [Bool.false_eq_true, false_and, true_and, false_or, ne_eq, not_not] at hc
        omega
    have hl : (prev ++ n).length - 1 = prev.length + (n.length - 1) := by
      simp only [List.length_append]; omega
    rw [hl, hd, backtrack_noslash prev n hs (n.length - 1) (by omega)]
    simp

theorem takeWhile_name_append (n rest : GoString) (hn : '/' ∉ n) (hr : isElemEnd rest = true) :
    (n ++ rest).takeWhile (fun x => x != '/') = n ∧
      (n ++ rest).dropWhile (fun x => x != '/') = rest := by
  induction n with
  | nil =>
    cases rest with
    | nil => simp
    | cons c t =>
      have hc : c = '/' := by simpa [isElemEnd] using hr
      subst hc
      simp
  | cons a l ih =>
    have ha : (a != '/') = true := by
      simp only [bne_iff_ne, ne_eq]
      intro h; exact hn (h ▸ List.mem_cons_self _ _)
    have hl : '/' ∉ l := fun h => hn (List.mem_cons_of_mem _ h)
    obtain ⟨h1, h2⟩ := ih hl
    rw [List.cons_append, List.takeWhile_cons, List.dropWhile_cons]
    simp only [ha, if_true, h1, h2, and_self]

theorem isElemEnd_name_append (l rest : GoString) (hl : '/' ∉ l) (hne : l ≠ []) :
    isElemEnd (l ++ rest) = false := by
  cases l with
  | nil => exact absurd rfl hne
  | cons a t =>
    simp only [List.cons_append, isElemEnd, beq_eq_false_iff_ne, ne_eq]
    intro h; exact hl (h ▸ List.mem_cons_self _ _)

/-- The loop of `path.Clean` at a name: the name is copied after `addSlash`. -/
theorem cleanStep_name (rooted : Bool) (n rest out : GoString) (dd : Nat)
    (hn : IsName n) (hr : isElemEnd rest = true) :
    cleanStep rooted { rest := n ++ rest, out := out, dotdot := dd } =
      { rest := rest, out := addSlash rooted out ++ n, dotdot := dd } := by
  obtain ⟨hne, hs, hd1, hd2⟩ := hn
  obtain ⟨h1, h2⟩ := takeWhile_name_append n rest hs hr
  cases n with
  | nil => exact absurd rfl hne
  | cons c t =>
    have hc : c ≠ '/' := fun h => hs (h ▸ List.mem_cons_self _ _)
    have ht : '/' ∉ t := fun h => hs (List.mem_cons_of_mem _ h)
    have e2 : ¬ (c = '.' ∧ isElemEnd (t ++ rest) = true) := by
      rintro ⟨hc1, he⟩
      by_cases htn : t = []
      · subst htn; subst hc1; exact hd1 rfl
      · rw [isElemEnd_name_append t rest ht htn] at he; cases he
    have e3 : ¬ (c = '.' ∧ (t ++ rest).head? = some '.' ∧ isElemEnd (t ++ rest).tail = true) := by
      rintro ⟨hc1, hh, he⟩
      cases t with
      | nil => subst hc1; exact hd1 rfl
      | cons d u =>
        simp only [List.cons_append, List.head?_cons, Option.some.injEq, List.tail_cons] at hh he
        have hu : '/' ∉ u := fun h => ht (List.mem_cons_of_mem _ h)
        by_cases hun : u = []
        · subst hun; subst hc1; subst hh; exact hd2 rfl
        · rw [isElemEnd_name_append u rest hu hun] at he; cases he
    simp only [List.cons_append] at h1 h2 e2 e3 ⊢
    unfold cleanStep
    simp only [hc, if_false, e2, e3, h1, h2]

theorem cleanStep_slash (rooted : Bool) (t out : GoString) (dd : Nat) :
    cleanStep rooted { rest := '/' :: t, out := out, dotdot := dd } =
      { rest := t, out := out, dotdot := dd } := by
  simp [cleanStep]

theorem cleanStep_dot (rooted : Bool) (t out : GoString) (dd : Nat) (ht : isElemEnd t = true) :
    cleanStep rooted { rest := '.' :: t, out := out, dotdot := dd } =
      { rest := t, out := out, dotdot := dd } := by
  unfold cleanStep
  simp only [ht, and_self, if_true]
  rw [if_neg (by decide)]

theorem addSlash_unrooted (out : GoString) :
    (if out.length > 0 then out ++ ['/'] else out) = addSlash false out := by
  unfold addSlash
  by_cases h0 : out.length = 0
  · simp [h0]
  · have : out.length > 0 := Nat.pos_of_ne_zero h0
    simp [h0, this]

theorem cleanStep_dotdot_unrooted (rest out : GoString) (hr : isElemEnd rest = true) :
    cleanStep false { rest := '.' :: '.' :: rest, out := out, dotdot := out.length } =
      { rest := rest, out := addSlash false out ++ ['.', '.'],
        dotdot := (addSlash false out ++ ['.', '.']).length } := by
  have e1 : ¬ ('.' = '/') := by decide
  have e2 : isElemEnd ('.' :: rest) = false := by simp [isElemEnd]
  unfold cleanStep
  simp only [e1, if_false, e2, List.head?_cons, List.tail_cons, hr, and_self, if_true,
    Nat.lt_irrefl, addSlash_unrooted, Bool.false_eq_true, and_false, gt_iff_lt]

theorem takeWhile_nil_isElemEnd (t : GoString) (h : t.takeWhile (fun x => x != '/') = []) :
    isElemEnd t = true := by
  cases t with
  | nil => rfl
  | cons a l =>
    rw [List.takeWhile_cons] at h
    by_cases ha : (a != '/') = true
    · rw [if_pos ha] at h; cases h
    · simpa [isElemEnd] using ha

/-- The element the default case of `path.Clean` copies is a name. -/
theorem isName_takeWhile (c : Char) (t : GoString) (h1 : ¬ c = '/')
    (h2 : ¬ (c = '.' ∧ isElemEnd t = true))
    (h3 : ¬ (c = '.' ∧ t.head? = some '.' ∧ isElemEnd t.tail = true)) :
    IsName ((c :: t).takeWhile (fun x => x != '/')) := by
  have hc : (c != '/') = true := by simpa using h1
  rw [List.takeWhile_cons, if_pos hc]
  refine ⟨by simp, ?_, ?_, ?_⟩
  · intro hm
    rcases List.mem_cons.mp hm with hm | hm
    · exact h1 hm.symm
    · have := List.mem_takeWhile_imp hm
      simp at this
  · intro he
    simp only [List.cons.injEq] at he
    exact h2 ⟨he.1, takeWhile_nil_isElemEnd t he.2⟩
  · intro he
    simp only [List.cons.injEq] at he
    obtain ⟨hc1, ht⟩ := he
    cases t with
    | nil => simp at ht
    | cons d u =>
      rw [List.takeWhile_cons] at ht
      by_cases hd : (d != '/') = true
      · rw [if_pos hd] at ht
        simp only [List.cons.injEq] at ht
        exact h3 ⟨hc1, by simp [ht.1], by simpa using takeWhile_nil_isElemEnd u ht.2⟩
      · rw [if_neg hd] at ht; cases ht

/-- Every iteration of the loop of `path.Clean` keeps the buffer in clean form. -/
theorem cleanStep_form (rooted : Bool) (s : CleanState)
    (h : CleanForm rooted s.out s.dotdot) :
    CleanForm rooted (cleanStep rooted s).out (cleanStep rooted s).dotdot := by
  obtain ⟨rest, out, dd⟩ := s
  simp only at h
  cases rest with
  | nil => rw [cleanStep_nil _ _ rfl]; exact h
  | cons c t =>
    unfold cleanStep
    simp only [addSlash_unrooted]
    split_ifs with h1 h2 h3 h4 h5
    · exact h
    · exact h
    · obtain ⟨prev, n, hp, hn, he⟩ := h.above_dotdot h4
      simp only
      rw [he, backtrack_name hp hn]
      exact hp
    · simp only
      have hd : dd = out.length := Nat.le_antisymm h.dotdot_le (Nat.le_of_not_lt h4)
      rw [hd] at h
      subst h5
      exact CleanForm.dots out rfl h
    · exact h
    · simp only
      exact CleanForm.name out dd _ h (isName_takeWhile c t h1 h2 h3)

theorem cleanLoop_form (rooted : Bool) (n : Nat) (s : CleanState)
    (h : CleanForm rooted s.out s.dotdot) :
    CleanForm rooted (cleanLoop rooted n s).out (cleanLoop rooted n s).dotdot := by
  induction n generalizing s with
  | zero => exact h
  | succ n ih => exact ih _ (cleanStep_form rooted s h)

theorem cleanStart_form (rooted : Bool) (path : GoString) :
    CleanForm rooted (cleanStart rooted path).out (cleanStart rooted path).dotdot := by
  have := @CleanForm.init rooted
  cases rooted <;> exact this

theorem cleanStart_rest_le (rooted : Bool) (path : GoString) :
    (cleanStart rooted path).rest.length ≤ path.length := by
  cases rooted <;> simp [cleanStart]

/-- The value of `path.Clean` is a buffer in clean form (or `.` for the empty one). -/
theorem Clean_form (path : GoString) (h : path ≠ []) :
    ∃ out dd, CleanForm (path.head? == some '/') out dd ∧ Clean path = pathOf out :=
  ⟨_, _, cleanLoop_form _ _ _ (cleanStart_form _ _), Clean_eq path h⟩

theorem addSlash_cases {rooted : Bool} {out : GoString} {dd : Nat} (h : CleanForm rooted out dd) :
    addSlash rooted out = out ++ ['/'] ∨
      (addSlash rooted out = out ∧ (out = [] ∨ out = ['/'])) := by
  by_cases hc : (rooted = true ∧ out.length ≠ 1) ∨ (rooted = false ∧ out.length ≠ 0)
  · left; unfold addSlash; rw [if_pos hc]
  · right
    refine ⟨by unfold addSlash; rw [if_neg hc], ?_⟩
    cases rooted with
    | true =>
      right
      simp only [true_and, Bool.true_eq_false, false_and, or_false, ne_eq, not_not] at hc
      have hh := h.rooted_head
      cases out with
      | nil => cases hh
      | cons a l =>
        simp only [List.head?_cons, Option.some.injEq] at hh
        simp only [List.length_cons, Nat.add_left_eq_self, List.length_eq_zero] at hc
        rw [hh, hc]
    | false =>
      left
      simp only [Bool.false_eq_true, false_and, true_and, false_or, ne_eq, not_not] at hc
      exact List.length_eq_zero.mp hc

theorem cleanLoop_one (rooted : Bool) (s : CleanState) :
    cleanLoop rooted 1 s = cleanStep rooted s := rfl

theorem cleanLoop_two (rooted : Bool) (s : CleanState) :
    cleanLoop rooted 2 s = cleanStep rooted (cleanStep rooted s) := rfl

theorem cleanLoop_three (rooted : Bool) (s : CleanState) :
    cleanLoop rooted 3 s = cleanStep rooted (cleanStep rooted (cleanStep rooted s)) := rfl

/-- Running the loop of `path.Clean` over a buffer in clean form, followed by
input that starts a new element, rebuilds that buffer. -/
theorem CleanForm.replay {rooted : Bool} {out : GoString} {dd : Nat}
    (h : CleanForm rooted out dd) :
    ∀ rest : GoString, (out = [] ∨ out = ['/'] ∨ isElemEnd rest = true) →
      ∃ k, cleanLoop rooted k (cleanStart rooted (out ++ rest)) =
        { rest := rest, out := out, dotdot := dd } := by
  induction h with
  | init =>
    intro rest _
    refine ⟨0, ?_⟩
    cases rooted <;> simp [cleanLoop, cleanStart]
  | dots out h0 hprev ih =>
    intro rest hb
    subst h0
    have hr : isElemEnd rest = true := by
      rcases hb with hb | hb | hb
      · simp at hb
      · have := congrArg List.length hb
        simp only [List.length_append, List.length_cons, List.length_nil] at this
        omega
      · exact hb
    rcases addSlash_cases hprev with ha | ⟨ha, hout⟩
    · obtain ⟨k, hk⟩ := ih ('/' :: '.' :: '.' :: rest) (Or.inr (Or.inr rfl))
      refine ⟨k + 2, ?_⟩
      have e : addSlash false out ++ ['.', '.'] ++ rest = out ++ '/' :: '.' :: '.' :: rest := by
        rw [ha]; simp
      rw [e, cleanLoop_add, hk, cleanLoop_two, cleanStep_slash, cleanStep_dotdot_unrooted _ _ hr]
    · obtain ⟨k, hk⟩ := ih ('.' :: '.' :: rest) (by tauto)
      refine ⟨k + 1, ?_⟩
      have e : addSlash false out ++ ['.', '.'] ++ rest = out ++ '.' :: '.' :: rest := by
        rw [ha]; simp
      rw [e, cleanLoop_add, hk, cleanLoop_one, cleanStep_dotdot_unrooted _ _ hr]
  | name out dd n hprev hn ih =>
    intro rest hb
    have hnlen : 0 < n.length := List.length_pos.mpr hn.1
    have hr : isElemEnd rest = true := by
      rcases hb with hb | hb | hb
      · have := congrArg List.length hb
        simp only [List.length_append, List.length_nil] at this
        omega
      · have := congrArg List.length hb
        simp only [List.length_append, List.length_cons, List.length_nil] at this
        have hz : (addSlash rooted out).length = 0 := by omega
        rw [List.length_eq_zero.mp hz, List.nil_append] at hb
        exact absurd (hb ▸ List.mem_cons_self _ _ : '/' ∈ n) hn.2.1
      · exact hb
    rcases addSlash_cases hprev with ha | ⟨ha, hout⟩
    · obtain ⟨k, hk⟩ := ih ('/' :: (n ++ rest)) (Or.inr (Or.inr rfl))
      refine ⟨k + 2, ?_⟩
      have e : addSlash rooted out ++ n ++ rest = out ++ '/' :: (n ++ rest) := by
        rw [ha]; simp
      rw [e, cleanLoop_add, hk, cleanLoop_two, cleanStep_slash, cleanStep_name _ _ _ _ _ hn hr]
    · obtain ⟨k, hk⟩ := ih (n ++ rest) (by tauto)
      refine ⟨k + 1, ?_⟩
      have e : addSlash rooted out ++ n ++ rest = out ++ (n ++ rest) := by
        rw [ha]; simp
      rw [e, cleanLoop_add, hk, cleanLoop_one, cleanStep_name _ _ _ _ _ hn hr]

theorem CleanForm.head_eq {rooted : Bool} {out : GoString} {dd : Nat}
    (h : CleanForm rooted out dd) (hne : out ≠ []) (rest : GoString) :
    ((out ++ rest).head? == some '/') = rooted := by
  have hh : (out ++ rest).head? = out.head? := by
    cases out with
    | nil => exact absurd rfl hne
    | cons a l => rfl
  rw [hh]
  cases rooted with
  | true => rw [h.rooted_head]; rfl
  | false =>
    have := h.unrooted_head
    cases hq : out.head? with
    | none => rfl
    | some a =>
      rw [hq] at this
      simp only [ne_eq, Option.some.injEq] at this
      simp [this]

theorem pathOf_ne_nil (out : GoString) : pathOf out ≠ [] := by
  unfold pathOf
  split_ifs with h
  · simp
  · exact fun h0 => h (by rw [h0]; rfl)

theorem pathOf_of_ne_nil {out : GoString} (h : out ≠ []) : pathOf out = out := by
  unfold pathOf
  rw [if_neg (fun h0 => h (List.length_eq_zero.mp h0))]

/-- Cleaning a buffer in clean form, followed by input that starts a new
element, ends in the state the loop reaches from that buffer. -/
theorem Clean_of_form {rooted : Bool} {out : GoString} {dd : Nat}
    (h : CleanForm rooted out dd) (hne : out ≠ []) (rest : GoString)
    (hr : isElemEnd rest = true) (fin : CleanState) (m : Nat)
    (hm : cleanLoop rooted m { rest := rest, out := out, dotdot := dd } = fin)
    (hf : fin.rest = []) :
    Clean (out ++ rest) = pathOf fin.out := by
  have hp : out ++ rest ≠ [] := by simp [hne]
  rw [Clean_eq _ hp, h.head_eq hne rest]
  obtain ⟨k, hk⟩ := h.replay rest (Or.inr (Or.inr hr))
  have := cleanLoop_final rooted (k + m) (out ++ rest).length _ fin
    (by rw [cleanLoop_add, hk, hm]) hf (cleanStart_rest_le _ _)
  rw [this]

theorem Clean_dot : Clean ['.'] = ['.'] := by decide

/-- The function `path.Clean` is idempotent. -/
theorem Clean_idem (path : GoString) : Clean (Clean path) = Clean path := by
  by_cases hp : path = []
  · subst hp; decide
  · obtain ⟨out, dd, hform, he⟩ := Clean_form path hp
    rw [he]
    by_cases hne : out = []
    · subst hne; decide
    · rw [pathOf_of_ne_nil hne]
      have := Clean_of_form hform hne [] rfl { rest := [], out := out, dotdot := dd } 0 rfl rfl
      rw [List.append_nil] at this
      rw [this, pathOf_of_ne_nil hne]

/-- Joining a name onto a cleaned path: `Clean(p + "/" + name)` is the buffer
of `p` with the name written after `addSlash`. -/
theorem Clean_join_name {rooted : Bool} {out : GoString} {dd : Nat}
    (h : CleanForm rooted out dd) (hroot : out = [] → rooted = false)
    (n : GoString) (hn : IsName n) :
    Clean (pathOf out ++ '/' :: n) = addSlash rooted out ++ n := by
  have hnn : addSlash rooted out ++ n ≠ [] := by
    have := hn.1
    simp [this]
  by_cases hne : out = []
  · have hr := hroot hne
    subst hne; subst hr
    have hp : pathOf [] ++ '/' :: n ≠ [] := by simp [pathOf]
    rw [Clean_eq _ hp]
    have hs : cleanLoop false 3 (cleanStart false (pathOf [] ++ '/' :: n)) =
        { rest := [], out := addSlash false [] ++ n, dotdot := 0 } := by
      have : cleanStart false (pathOf [] ++ '/' :: n) =
          { rest := '.' :: '/' :: n, out := [], dotdot := 0 } := rfl
      rw [cleanLoop_three, this, cleanStep_dot false ('/' :: n) [] 0 rfl, cleanStep_slash]
      have := cleanStep_name false n [] [] 0 hn rfl
      rw [List.append_nil] at this
      exact this
    have hh : ((pathOf [] ++ '/' :: n).head? == some '/') = false := rfl
    rw [hh, cleanLoop_final false 3 _ _ _ hs rfl (cleanStart_rest_le _ _)]
    exact pathOf_of_ne_nil hnn
  · rw [pathOf_of_ne_nil hne]
    have hs : cleanLoop rooted 2 { rest := '/' :: n, out := out, dotdot := dd } =
        { rest := [], out := addSlash rooted out ++ n, dotdot := dd } := by
      rw [cleanLoop_two, cleanStep_slash]
      have := cleanStep_name rooted n [] out dd hn rfl
      rw [List.append_nil] at this
      exact this
    rw [Clean_of_form h hne ('/' :: n) rfl _ 2 hs rfl]
    exact pathOf_of_ne_nil hnn

/-! ## The handler: case lemmas -/

theorem addStaticFile_denied (sfs : staticFileServer) (world : World) (path : GoString)
    (h : allowListPasses sfs (Join [sfs.rootDir, path]) = false) :
    addStaticFile sfs world path =
      (some (GoError.new "directory access not allowed".toList), sfs,
        if sfs.allowAll = false then [Event.allowCheck (Join [sfs.rootDir, path])] else []) := by
  unfold addStaticFile
  simp only [h, if_true]

theorem addStaticFile_readError (sfs : staticFileServer) (world : World) (path : GoString)
    (err : OSError) (h : allowListPasses sfs (Join [sfs.rootDir, path]) = true)
    (hr : world.ReadFile (Join [sfs.rootDir, path]) = .error err) :
    addStaticFile sfs world path =
      (some (GoError.os err), sfs,
        (if sfs.allowAll = false then [Event.allowCheck (Join [sfs.rootDir, path])] else []) ++
          [Event.readFile (Join [sfs.rootDir, path])]) := by
  unfold addStaticFile
  simp only [h, hr, Bool.true_eq_false, if_false]

theorem addStaticFile_statError (sfs : staticFileServer) (world : World) (path : GoString)
    (bs : GoString) (err : OSError) (h : allowListPasses sfs (Join [sfs.rootDir, path]) = true)
    (hr : world.ReadFile (Join [sfs.rootDir, path]) = .ok bs)
    (hs : world.Stat (Join [sfs.rootDir, path]) = .error err) :
    addStaticFile sfs world path =
      (some (GoError.os err), sfs,
        (if sfs.allowAll = false then [Event.allowCheck (Join [sfs.rootDir, path])] else []) ++
          [Event.readFile (Join [sfs.rootDir, path]), Event.stat (Join [sfs.rootDir, path])]) := by
  unfold addStaticFile
  simp only [h, hr, hs, Bool.true_eq_false, if_false]

theorem addStaticFile_ok (sfs : staticFileServer) (world : World) (path : GoString)
    (bs : GoString) (finfo : FileInfo)
    (h : allowListPasses sfs (Join [sfs.rootDir, path]) = true)
    (hr : world.ReadFile (Join [sfs.rootDir, path]) = .ok bs)
    (hs : world.Stat (Join [sfs.rootDir, path]) = .ok finfo) :
    addStaticFile sfs world path =
      (none,
        { sfs with
          files := mapSet sfs.files path (staticFile.mk bs finfo
            (if world.TypeByExtension (Ext (Join [sfs.rootDir, path])) = []
              then world.DetectContentType bs
              else world.TypeByExtension (Ext (Join [sfs.rootDir, path])))) },
        (if sfs.allowAll = false then [Event.allowCheck (Join [sfs.rootDir, path])] else []) ++
          [Event.readFile (Join [sfs.rootDir, path]), Event.stat (Join [sfs.rootDir, path])]) := by
  unfold addStaticFile
  simp only [h, hr, hs, Bool.true_eq_false, if_false]

theorem ServeHTTP_notGet (sfs : staticFileServer) (world : World) (r : Request)
    (h : r.Method ≠ MethodGet) :
    ServeHTTP sfs world r =
      { sfs := sfs, response := httpError "METHOD_NOT_ALLOWED".toList 400, trace := [] } := by
  unfold ServeHTTP
  rw [if_pos h]

theorem ServeHTTP_hit (sfs : staticFileServer) (world : World) (r : Request)
    (hget : r.Method = MethodGet) (sf : staticFile) (hf : sfs.files (cacheKey sfs r) = some sf) :
    ServeHTTP sfs world r =
      { sfs := sfs, response := writeResponse sfs (cacheKey sfs r),
        trace := serverPush sfs world (cacheKey sfs r) } := by
  unfold ServeHTTP cacheKey at *
  rw [if_neg (by simpa using hget)]
  rcases hres : resolvePath sfs r with ⟨k, r1⟩
  rw [hres] at hf
  simp only [getStaticFile, hf]

theorem ServeHTTP_known (sfs : staticFileServer) (world : World) (r : Request)
    (hget : r.Method = MethodGet) (hf : sfs.files (cacheKey sfs r) = none) (v : Int)
    (hn : sfs.notFoundPaths (cacheKey sfs r) = some v) :
    ServeHTTP sfs world r = pushAndServe sfs world (resolvePath sfs r).2 [] := by
  unfold ServeHTTP cacheKey at *
  rw [if_neg (by simpa using hget)]
  rcases hres : resolvePath sfs r with ⟨k, r1⟩
  rw [hres] at hf hn
  simp only [getStaticFile, hf, hn]

theorem ServeHTTP_miss (sfs : staticFileServer) (world : World) (r : Request)
    (hget : r.Method = MethodGet) (hf : sfs.files (cacheKey sfs r) = none)
    (hn : sfs.notFoundPaths (cacheKey sfs r) = none) :
    ServeHTTP sfs world r =
      match addStaticFile sfs world (cacheKey sfs r) with
      | (some err, sfs1, evs) =>
        if IsNotExist err = true then
          pushAndServe (addNotFoundPath sfs1 (cacheKey sfs r)) world (resolvePath sfs r).2 evs
        else
          { sfs := sfs1, response := httpError err.Error 500, trace := evs }
      | (none, sfs1, evs) =>
        { sfs := sfs1, response := writeResponse sfs1 (cacheKey sfs r),
          trace := evs ++ serverPush sfs1 world (cacheKey sfs r) } := by
  unfold ServeHTTP cacheKey at *
  rw [if_neg (by simpa using hget)]
  rcases hres : resolvePath sfs r with ⟨k, r1⟩
  rw [hres] at hf hn
  simp only [getStaticFile, hf, hn]

/-! ## The handler: what one call changes -/

theorem sameConfig_refl (a : staticFileServer) : sameConfig a a :=
  ⟨rfl, rfl, rfl, rfl, rfl, rfl, rfl⟩

theorem sameConfig_trans {a b c : staticFileServer} (h1 : sameConfig a b) (h2 : sameConfig b c) :
    sameConfig a c := by
  obtain ⟨a1, a2, a3, a4, a5, a6, a7⟩ := h1
  obtain ⟨b1, b2, b3, b4, b5, b6, b7⟩ := h2
  exact ⟨a1.trans b1, a2.trans b2, a3.trans b3, a4.trans b4, a5.trans b5, a6.trans b6,
    a7.trans b7⟩

theorem sameConfig_allowListPasses {a b : staticFileServer} (h : sameConfig a b)
    (filePath : GoString) : allowListPasses a filePath = allowListPasses b filePath := by
  obtain ⟨_, _, h3, h4, h5, _, _⟩ := h
  unfold allowListPasses
  rw [h3, h4, h5]

theorem sameConfig_fileOf {a b : staticFileServer} (h : sameConfig a b) (key : GoString) :
    fileOf a key = fileOf b key := by
  unfold fileOf
  rw [h.1]

theorem sameConfig_resolvePath {a b : staticFileServer} (h : sameConfig a b) (r : Request) :
    resolvePath a r = resolvePath b r := by
  unfold resolvePath
  rw [h.2.1]

theorem sameConfig_cacheKey {a b : staticFileServer} (h : sameConfig a b) (r : Request) :
    cacheKey a r = cacheKey b r := by
  unfold cacheKey
  rw [sameConfig_resolvePath h]

/-- What `addStaticFile` does to the server: nothing, or (the allow-list check
passed and the file was read) one entry of `files` is set. -/
theorem addStaticFile_sfs (sfs : staticFileServer) (world : World) (path : GoString) :
    ((addStaticFile sfs world path).1 ≠ none ∧ (addStaticFile sfs world path).2.1 = sfs) ∨
    (allowListPasses sfs (fileOf sfs path) = true ∧ world.hasFile (fileOf sfs path) = true ∧
      (addStaticFile sfs world path).1 = none ∧
      ∃ sf, (addStaticFile sfs world path).2.1 = { sfs with files := mapSet sfs.files path sf }) := by
  unfold fileOf
  cases hp : allowListPasses sfs (Join [sfs.rootDir, path]) with
  | false => left; rw [addStaticFile_denied _ _ _ hp]; simp
  | true =>
    cases hr : world.ReadFile (Join [sfs.rootDir, path]) with
    | error err => left; rw [addStaticFile_readError _ _ _ err hp hr]; simp
    | ok bs =>
      cases hs : world.Stat (Join [sfs.rootDir, path]) with
      | error err => left; rw [addStaticFile_statError _ _ _ bs err hp hr hs]; simp
      | ok finfo =>
        right
        rw [addStaticFile_ok _ _ _ bs finfo hp hr hs]
        refine ⟨rfl, ?_, rfl, _, rfl⟩
        unfold World.hasFile
        rw [hr, hs]

/-- What one `ServeHTTP` call does to the server: nothing; or, for a key in
neither map that passes the allow-list check, the file is cached (it exists)
or the key is recorded as not found (it does not). -/
theorem ServeHTTP_sfs (sfs : staticFileServer) (world : World) (r : Request) :
    (ServeHTTP sfs world r).sfs = sfs ∨
    (sfs.files (cacheKey sfs r) = none ∧ sfs.notFoundPaths (cacheKey sfs r) = none ∧
      allowListPasses sfs (fileOf sfs (cacheKey sfs r)) = true ∧
      world.hasFile (fileOf sfs (cacheKey sfs r)) = true ∧
      ∃ sf, (ServeHTTP sfs world r).sfs =
        { sfs with files := mapSet sfs.files (cacheKey sfs r) sf }) ∨
    (sfs.files (cacheKey sfs r) = none ∧ sfs.notFoundPaths (cacheKey sfs r) = none ∧
      allowListPasses sfs (fileOf sfs (cacheKey sfs r)) = true ∧
      world.hasFile (fileOf sfs (cacheKey sfs r)) = false ∧
      (ServeHTTP sfs world r).sfs =
        { sfs with notFoundPaths := mapSet sfs.notFoundPaths (cacheKey sfs r) 2 }) := by
  by_cases hget : r.Method = MethodGet
  swap
  · left; rw [ServeHTTP_notGet _ _ _ hget]
  cases hf : sfs.files (cacheKey sfs r) with
  | some sf => left; rw [ServeHTTP_hit _ _ _ hget sf hf]
  | none =>
    cases hn : sfs.notFoundPaths (cacheKey sfs r) with
    | some v => left; rw [ServeHTTP_known _ _ _ hget hf v hn]; rfl
    | none =>
      rw [ServeHTTP_miss _ _ _ hget hf hn]
      unfold fileOf
      cases hp : allowListPasses sfs (Join [sfs.rootDir, cacheKey sfs r]) with
      | false => left; rw [addStaticFile_denied _ _ _ hp]; rfl
      | true =>
        cases hr : world.ReadFile (Join [sfs.rootDir, cacheKey sfs r]) with
        | error err =>
          rw [addStaticFile_readError _ _ _ err hp hr]
          cases err with
          | notExist msg =>
            right; right
            refine ⟨rfl, rfl, rfl, ?_, rfl⟩
            unfold World.hasFile
            rw [hr]
          | other msg => left; rfl
        | ok bs =>
          cases hs : world.Stat (Join [sfs.rootDir, cacheKey sfs r]) with
          | error err =>
            rw [addStaticFile_statError _ _ _ bs err hp hr hs]
            cases err with
            | notExist msg =>
              right; right
              refine ⟨rfl, rfl, rfl, ?_, rfl⟩
              unfold World.hasFile
              rw [hr, hs]
            | other msg => left; rfl
          | ok finfo =>
            right; left
            rw [addStaticFile_ok _ _ _ bs finfo hp hr hs]
            refine ⟨rfl, rfl, rfl, ?_, _, rfl⟩
            unfold World.hasFile
            rw [hr, hs]

theorem ServeHTTP_sameConfig (sfs : staticFileServer) (world : World) (r : Request) :
    sameConfig (ServeHTTP sfs world r).sfs sfs := by
  rcases ServeHTTP_sfs sfs world r with h | ⟨_, _, _, _, sf, h⟩ | ⟨_, _, _, _, h⟩ <;>
    rw [h] <;> exact sameConfig_refl _

theorem serveAll_sameConfig (sfs : staticFileServer) (reqs : List (World × Request)) :
    sameConfig (serveAll sfs reqs) sfs := by
  induction reqs generalizing sfs with
  | nil => exact sameConfig_refl _
  | cons a more ih =>
    obtain ⟨world, r⟩ := a
    exact sameConfig_trans (ih _) (ServeHTTP_sameConfig sfs world r)

/-! ## Invariants of construction and of request sequences -/

theorem Admitted_of_files {a b : staticFileServer} (hc : sameConfig b a) (key : GoString)
    (sf : staticFile) (hp : allowListPasses a (fileOf a key) = true)
    (hf : b.files = mapSet a.files key sf) (hn : b.notFoundPaths = a.notFoundPaths)
    (h : Admitted a) : Admitted b := by
  intro k hk
  rw [sameConfig_allowListPasses hc, sameConfig_fileOf hc]
  by_cases hkk : k = key
  · rw [hkk]; exact hp
  · apply h k
    rw [hf, hn] at hk
    simpa [mapSet, hkk] using hk

theorem Admitted_of_notFound {a b : staticFileServer} (hc : sameConfig b a) (key : GoString)
    (v : Int) (hp : allowListPasses a (fileOf a key) = true)
    (hf : b.files = a.files) (hn : b.notFoundPaths = mapSet a.notFoundPaths key v)
    (h : Admitted a) : Admitted b := by
  intro k hk
  rw [sameConfig_allowListPasses hc, sameConfig_fileOf hc]
  by_cases hkk : k = key
  · rw [hkk]; exact hp
  · apply h k
    rw [hf, hn] at hk
    simpa [mapSet, hkk] using hk

theorem addStaticFile_inv (sfs : staticFileServer) (world : World) (path : GoString) :
    sameConfig (addStaticFile sfs world path).2.1 sfs ∧
      (addStaticFile sfs world path).2.1.notFoundPaths = sfs.notFoundPaths ∧
      (addStaticFile sfs world path).2.1.pushContent = sfs.pushContent ∧
      (Admitted sfs → Admitted (addStaticFile sfs world path).2.1) := by
  rcases addStaticFile_sfs sfs world path with ⟨_, h⟩ | ⟨hp, _, _, sf, h⟩
  · rw [h]; exact ⟨sameConfig_refl _, rfl, rfl, id⟩
  · rw [h]
    exact ⟨sameConfig_refl _, rfl, rfl,
      Admitted_of_files (sameConfig_refl _) path sf hp rfl rfl⟩

theorem addPushFiles_inv (urlPathPrefix : GoString) (world : World) (files : List GoString) :
    ∀ (sfs : staticFileServer) (pushFiles : List GoString) (res : staticFileServer × List GoString),
      addPushFiles urlPathPrefix world files sfs pushFiles = .ok res →
      sameConfig res.1 sfs ∧ res.1.notFoundPaths = sfs.notFoundPaths ∧
        res.1.pushContent = sfs.pushContent ∧ (Admitted sfs → Admitted res.1) := by
  induction files with
  | nil =>
    intro sfs pushFiles res h
    simp only [addPushFiles, Except.ok.injEq] at h
    subst h
    exact ⟨sameConfig_refl _, rfl, rfl, id⟩
  | cons file files ih =>
    intro sfs pushFiles res h
    obtain ⟨h1, h2, h3, h4⟩ := addStaticFile_inv sfs world (Clean (Clean file))
    unfold addPushFiles at h
    dsimp only at h
    rcases hadd : addStaticFile sfs world (Clean (Clean file)) with ⟨err, sfs1, evs⟩
    rw [hadd] at h h1 h2 h3 h4
    cases err with
    | some e => simp at h
    | none =>
      simp only at h h1 h2 h3 h4
      obtain ⟨i1, i2, i3, i4⟩ := ih _ _ _ h
      exact ⟨sameConfig_trans i1 h1, i2.trans h2, i3.trans h3, fun ha => i4 (h4 ha)⟩

theorem addPushContent_inv (urlPathPrefix : GoString) (world : World)
    (content : List (GoString × List GoString)) :
    ∀ (sfs res : staticFileServer),
      addPushContent urlPathPrefix world content sfs = .ok res →
      sameConfig res sfs ∧ res.notFoundPaths = sfs.notFoundPaths ∧
        (Admitted sfs → Admitted res) := by
  induction content with
  | nil =>
    intro sfs res h
    simp only [addPushContent, Except.ok.injEq] at h
    subst h
    exact ⟨sameConfig_refl _, rfl, id⟩
  | cons entry more ih =>
    intro sfs res h
    obtain ⟨ppath, files⟩ := entry
    unfold addPushContent at h
    cases hfiles : addPushFiles urlPathPrefix world files sfs [] with
    | error e => rw [hfiles] at h; simp at h
    | ok pr =>
      obtain ⟨sfs1, pushFiles⟩ := pr
      rw [hfiles] at h
      simp only at h
      obtain ⟨h1, h2, _, h4⟩ := addPushFiles_inv urlPathPrefix world files sfs [] _ hfiles
      obtain ⟨i1, i2, i4⟩ := ih _ _ h
      refine ⟨sameConfig_trans i1 h1, i2.trans h2, fun ha => i4 ?_⟩
      exact h4 ha

theorem NewHandler_aux (sfs base : staticFileServer) (hc : sameConfig sfs base)
    (hn : sfs.notFoundPaths = base.notFoundPaths) (ha : Admitted base → Admitted sfs)
    (hf : base.files = fun _ => none) (hb : base.notFoundPaths = fun _ => none) :
    sfs.rootDir = base.rootDir ∧ sfs.indexPage = base.indexPage ∧
      sfs.allowedDirs = base.allowedDirs ∧ sfs.allowAll = base.allowAll ∧
      sfs.staticDirs = base.staticDirs ∧ sfs.notFoundHandler = base.notFoundHandler ∧
      sfs.notFoundPaths = (fun _ => none) ∧ Admitted sfs := by
  obtain ⟨c1, c2, c3, c4, c5, _, c7⟩ := hc
  refine ⟨c1, c2, c3, c5, c4, c7, hn.trans hb, ha ?_⟩
  intro k hk
  rw [hf, hb] at hk
  simp at hk

/-- The configuration `NewHandler` stores in the server it returns. -/
theorem NewHandler_ok (opt : ServerOptions) (root : Except OSError DirTree) (world : World)
    (sfs : staticFileServer) (h : NewHandler opt root world = .ok sfs) :
    sfs.rootDir = Clean (if opt.RootDir = [] then ['.'] else opt.RootDir) ∧
    sfs.indexPage = Clean (if opt.Index = [] then "./index.html".toList else opt.Index) ∧
    sfs.allowedDirs = (opt.AllowedDirs.map (fun dir => Join [sfs.rootDir, dir])).filter
      (fun dir => dir ≠ sfs.indexPage) ∧
    sfs.allowAll = (sfs.allowedDirs.length == 0) ∧
    sfs.notFoundHandler = (match opt.NotFoundHandler with
      | none => NotFoundHandler
      | some h => h) ∧
    sfs.notFoundPaths = (fun _ => none) ∧
    (sfs.allowAll = true → sfs.staticDirs = []) ∧
    (sfs.allowAll = false → ∃ tree, root = .ok tree ∧
      readDir sfs.rootDir tree [] = .ok sfs.staticDirs) ∧
    Admitted sfs := by
  unfold NewHandler at h
  simp only at h
  split at h
  · simp at h
  · rename_i staticDirs hwalk
    have hfin : ∃ base : staticFileServer,
        base.rootDir = Clean (if opt.RootDir = [] then ['.'] else opt.RootDir) ∧
        base.indexPage = Clean (if opt.Index = [] then "./index.html".toList else opt.Index) ∧
        base.allowedDirs = (opt.AllowedDirs.map (fun dir => Join [base.rootDir, dir])).filter
          (fun dir => dir ≠ base.indexPage) ∧
        base.allowAll = (base.allowedDirs.length == 0) ∧
        base.staticDirs = staticDirs ∧
        base.notFoundHandler = (match opt.NotFoundHandler with
          | none => NotFoundHandler
          | some h => h) ∧
        sfs.rootDir = base.rootDir ∧ sfs.indexPage = base.indexPage ∧
        sfs.allowedDirs = base.allowedDirs ∧ sfs.allowAll = base.allowAll ∧
        sfs.staticDirs = base.staticDirs ∧ sfs.notFoundHandler = base.notFoundHandler ∧
        sfs.notFoundPaths = (fun _ => none) ∧ Admitted sfs := by
      split at h
      · obtain ⟨i1, i2, i4⟩ := addPushContent_inv _ _ _ _ _ h
        exact ⟨_, rfl, rfl, rfl, rfl, rfl, rfl, NewHandler_aux _ _ i1 i2 i4 rfl rfl⟩
      · simp only [Except.ok.injEq] at h
        subst h
        exact ⟨_, rfl, rfl, rfl, rfl, rfl, rfl,
          NewHandler_aux _ _ (sameConfig_refl _) rfl id rfl rfl⟩
    obtain ⟨base, b1, b2, b3, b4, b5, b6, f1, f2, f3, f4, f5, f6, f7, f8⟩ := hfin
    have hallow : sfs.allowAll =
        (((opt.AllowedDirs.map (fun dir =>
            Join [Clean (if opt.RootDir = [] then ['.'] else opt.RootDir), dir])).filter
          (fun dir => decide (dir ≠
            Clean (if opt.Index = [] then "./index.html".toList else opt.Index)))).length == 0) := by
      rw [f4, b4, b3, b1, b2]
    refine ⟨f1.trans b1, f2.trans b2, ?_, ?_, f6.trans b6, f7, ?_, ?_, f8⟩
    · rw [f3, f1, f2]; exact b3
    · rw [f4, f3]; exact b4
    · intro hall
      rw [f5, b5]
      rw [hallow] at hall
      rw [hall] at hwalk
      simpa using hwalk.symm
    · intro hall
      rw [hallow] at hall
      rw [hall] at hwalk
      simp only [if_true] at hwalk
      cases root with
      | error e => simp at hwalk
      | ok tree =>
        refine ⟨tree, rfl, ?_⟩
        rw [f1, b1, f5, b5]
        simpa using hwalk

theorem ServeHTTP_admitted (sfs : staticFileServer) (world : World) (r : Request)
    (h : Admitted sfs) : Admitted (ServeHTTP sfs world r).sfs := by
  rcases ServeHTTP_sfs sfs world r with e | ⟨_, _, hp, _, sf, e⟩ | ⟨_, _, hp, _, e⟩
  · rw [e]; exact h
  · rw [e]; exact @Admitted_of_files sfs _ (sameConfig_refl _) _ sf hp rfl rfl h
  · rw [e]; exact @Admitted_of_notFound sfs _ (sameConfig_refl _) _ 2 hp rfl rfl h

theorem serveAll_admitted (sfs : staticFileServer) (reqs : List (World × Request))
    (h : Admitted sfs) : Admitted (serveAll sfs reqs) := by
  induction reqs generalizing sfs with
  | nil => exact h
  | cons a more ih =>
    obtain ⟨world, r⟩ := a
    exact ih _ (ServeHTTP_admitted sfs world r h)

theorem testServer_new : NewHandler testOptions (.ok testTree) testWorld = .ok testServer := by
  rfl

theorem Join_two (dir name : GoString) (h : dir ≠ []) :
    Join [dir, name] = Clean (dir ++ '/' :: name) := by
  simp only [Join, h, ne_eq, not_false_eq_true, if_true, joinSep]

theorem BelowForm.ne_root {rooted : Bool} {out t : GoString}
    (ht : BelowForm rooted out.length t) : t ≠ pathOf out := by
  obtain ⟨prev, dd', n, _, hn, hL, rfl⟩ := ht
  have hnlen : 0 < n.length := List.length_pos.mpr hn.1
  have hge := length_addSlash_ge rooted prev
  intro he
  have hlen := congrArg List.length he
  simp only [List.length_append] at hlen
  by_cases hout : out = []
  · subst hout
    have hp : pathOf [] = ['.'] := rfl
    rw [hp] at he hlen
    simp only [List.length_cons, List.length_nil] at hlen
    have hz : (addSlash rooted prev).length = 0 := by omega
    rw [List.length_eq_zero.mp hz, List.nil_append] at he
    exact hn.2.2.1 he
  · rw [pathOf_of_ne_nil hout] at hlen
    omega

/-- Every directory the walk of `NewHandler` adds lies strictly below the
directory the walk started from. -/
theorem readDir_below (rooted : Bool) (L : Nat) (tree : DirTree) :
    ∀ (dir out : GoString) (dd : Nat) (acc res : List GoString),
      tree.wellNamed = true → CleanForm rooted out dd → (out = [] → rooted = false) →
      dir = pathOf out → L ≤ out.length → (∀ t ∈ acc, BelowForm rooted L t) →
      readDir dir tree acc = .ok res → ∀ t ∈ res, BelowForm rooted L t := by
  induction tree with
  | done =>
    intro dir out dd acc res _ _ _ _ _ hacc h
    simp only [readDir, Except.ok.injEq] at h
    subst h
    exact hacc
  | file name rest ih =>
    intro dir out dd acc res hw hform hroot hdir hL hacc h
    simp only [DirTree.wellNamed, Bool.and_eq_true] at hw
    simp only [readDir] at h
    exact ih dir out dd acc res hw.2 hform hroot hdir hL hacc h
  | dir name sub rest ihsub ihrest =>
    intro dir out dd acc res hw hform hroot hdir hL hacc h
    simp only [DirTree.wellNamed, Bool.and_eq_true, decide_eq_true_eq] at hw
    obtain ⟨⟨hname, hwsub⟩, hwrest⟩ := hw
    have hj : Join [dir, name] = addSlash rooted out ++ name := by
      rw [Join_two _ _ (hdir ▸ pathOf_ne_nil out), hdir]
      exact Clean_join_name hform hroot name hname
    have hnlen : 0 < name.length := List.length_pos.mpr hname.1
    have hne : addSlash rooted out ++ name ≠ [] := by
      intro h0
      have := congrArg List.length h0
      simp only [List.length_append, List.length_nil] at this
      omega
    have hge := length_addSlash_ge rooted out
    simp only [readDir] at h
    rw [hj] at h
    cases hsub : readDir (addSlash rooted out ++ name) sub ((addSlash rooted out ++ name) :: acc) with
    | error e => rw [hsub] at h; simp at h
    | ok res1 =>
      rw [hsub] at h
      simp only at h
      have h1 : ∀ t ∈ res1, BelowForm rooted L t := by
        apply ihsub (addSlash rooted out ++ name) (addSlash rooted out ++ name) dd _ res1 hwsub
          (CleanForm.name out dd name hform hname) (fun h0 => absurd h0 hne)
          (pathOf_of_ne_nil hne).symm
          (by simp only [List.length_append]; omega) _ hsub
        intro t ht
        rcases List.mem_cons.mp ht with ht | ht
        · exact ⟨out, dd, name, hform, hname, hL, ht⟩
        · exact hacc t ht
      exact ihrest dir out dd res1 res hwrest hform hroot hdir hL h1 h
  | badDir name err rest _ =>
    intro dir out dd acc res _ _ _ _ _ _ h
    simp [readDir] at h

/-- The root directory is never among the tracked directories `NewHandler` builds. -/
theorem rootDir_not_tracked (opt : ServerOptions) (root : Except OSError DirTree)
    (world0 : World) (sfs0 : staticFileServer) (hnew : NewHandler opt root world0 = .ok sfs0)
    (hnames : ∀ tree, root = .ok tree → tree.wellNamed = true) :
    sfs0.rootDir ∉ sfs0.staticDirs := by
  obtain ⟨h1, _, _, _, _, _, h7, h8, _⟩ := NewHandler_ok opt root world0 sfs0 hnew
  cases hall : sfs0.allowAll with
  | true => rw [h7 hall]; simp
  | false =>
    obtain ⟨tree, hroot, hwalk⟩ := h8 hall
    have hne : (if opt.RootDir = [] then ['.'] else opt.RootDir) ≠ [] := by
      split_ifs with h0
      · simp
      · exact h0
    obtain ⟨out, dd, hform, hclean⟩ := Clean_form _ hne
    rw [hclean] at h1
    have hr : out = [] →
        ((if opt.RootDir = [] then ['.'] else opt.RootDir).head? == some '/') = false := by
      intro h0
      cases hq : ((if opt.RootDir = [] then ['.'] else opt.RootDir).head? == some '/') with
      | false => rfl
      | true =>
        rw [hq] at hform
        have := hform.rooted_head
        rw [h0] at this
        cases this
    have hall := readDir_below _ out.length tree sfs0.rootDir out dd [] sfs0.staticDirs
      (hnames tree hroot) hform hr h1 (Nat.le_refl _) (by simp) hwalk
    intro hmem
    exact (hall _ hmem).ne_root h1

/-! ## Persistence of the two maps over request sequences -/

theorem mapSet_self {V : Type} (m : GoString → Option V) (k : GoString) (v : V) :
    mapSet m k v k = some v := by
  simp [mapSet]

theorem writeResponse_some (sfs : staticFileServer) (key : GoString) (sf : staticFile)
    (h : sfs.files key = some sf) :
    writeResponse sfs key =
      { status := 200,
        headers := [("Content-Type".toList, sf.ctype),
                    ("Content-Length".toList, FormatInt sf.finfo.Size),
                    ("Accept-Ranges".toList, "bytes".toList),
                    ("Last-Modified".toList, sf.finfo.ModTime)],
        body := sf.data } := by
  unfold writeResponse getStaticFile
  rw [h]

theorem serverPush_isPush (sfs : staticFileServer) (world : World) (fpath : GoString) :
    ∀ e ∈ serverPush sfs world fpath, e.isPush = true := by
  intro e he
  unfold serverPush at he
  split_ifs at he with h1
  · simp at he
  · split at he
    · simp at he
    · split at he
      · simp at he
      · simp only [List.mem_map] at he
        obtain ⟨t, _, rfl⟩ := he
        rfl

/-- An entry of the file cache is never overwritten or removed by a request. -/
theorem ServeHTTP_files_some (sfs : staticFileServer) (world : World) (r : Request)
    (key : GoString) (sf : staticFile) (h : sfs.files key = some sf) :
    (ServeHTTP sfs world r).sfs.files key = some sf := by
  rcases ServeHTTP_sfs sfs world r with e | ⟨hf, _, _, _, sf1, e⟩ | ⟨_, _, _, _, e⟩
  · rw [e]; exact h
  · rw [e]
    have hne : key ≠ cacheKey sfs r := by
      intro h0; rw [h0, hf] at h; cases h
    simp only [mapSet, hne, if_false]
    exact h
  · rw [e]; exact h

theorem serveAll_files_some (sfs : staticFileServer) (reqs : List (World × Request))
    (key : GoString) (sf : staticFile) (h : sfs.files key = some sf) :
    (serveAll sfs reqs).files key = some sf := by
  induction reqs generalizing sfs with
  | nil => exact h
  | cons a more ih =>
    obtain ⟨world, r⟩ := a
    exact ih _ (ServeHTTP_files_some sfs world r key sf h)

/-- A key recorded as not found and absent from the file cache stays so. -/
theorem ServeHTTP_notFound_some (sfs : staticFileServer) (world : World) (r : Request)
    (key : GoString) (hf : sfs.files key = none) (hn : sfs.notFoundPaths key ≠ none) :
    (ServeHTTP sfs world r).sfs.files key = none ∧
      (ServeHTTP sfs world r).sfs.notFoundPaths key ≠ none := by
  rcases ServeHTTP_sfs sfs world r with e | ⟨_, hn1, _, _, sf1, e⟩ | ⟨_, _, _, _, e⟩
  · rw [e]; exact ⟨hf, hn⟩
  · rw [e]
    have hne : key ≠ cacheKey sfs r := by
      intro h0; rw [h0] at hn; exact hn hn1
    simp only [mapSet, hne, if_false]
    exact ⟨hf, hn⟩
  · rw [e]
    refine ⟨hf, ?_⟩
    simp only [mapSet]
    split_ifs
    · simp
    · exact hn

theorem serveAll_notFound_some (sfs : staticFileServer) (reqs : List (World × Request))
    (key : GoString) (hf : sfs.files key = none) (hn : sfs.notFoundPaths key ≠ none) :
    (serveAll sfs reqs).files key = none ∧ (serveAll sfs reqs).notFoundPaths key ≠ none := by
  induction reqs generalizing sfs with
  | nil => exact ⟨hf, hn⟩
  | cons a more ih =>
    obtain ⟨world, r⟩ := a
    obtain ⟨h1, h2⟩ := ServeHTTP_notFound_some sfs world r key hf hn
    exact ih _ h1 h2

/-- A key whose file exists whenever a request is served is never recorded as
not found. -/
theorem serveAll_notFound_none (sfs : staticFileServer) (reqs : List (World × Request))
    (key : GoString) (hn : sfs.notFoundPaths key = none)
    (hex : ∀ w ∈ reqs.map Prod.fst, w.hasFile (fileOf sfs key) = true) :
    (serveAll sfs reqs).notFoundPaths key = none := by
  induction reqs generalizing sfs with
  | nil => exact hn
  | cons a more ih =>
    obtain ⟨world, r⟩ := a
    have hw : world.hasFile (fileOf sfs key) = true := hex world (by simp)
    have hc := ServeHTTP_sameConfig sfs world r
    apply ih
    · rcases ServeHTTP_sfs sfs world r with e | ⟨_, _, _, _, sf1, e⟩ | ⟨_, _, _, hno, e⟩
      · rw [e]; exact hn
      · rw [e]; exact hn
      · rw [e]
        have hne : key ≠ cacheKey sfs r := by
          intro h0; rw [← h0, hw] at hno; cases hno
        simp only [mapSet, hne, if_false]
        exact hn
    · intro w hwm
      rw [sameConfig_fileOf hc]
      exact hex w (by simp only [List.map_cons, List.mem_cons]; exact Or.inr hwm)

theorem World.hasFile_ok (world : World) (filePath : GoString)
    (h : world.hasFile filePath = true) :
    ∃ bs finfo, world.ReadFile filePath = .ok bs ∧ world.Stat filePath = .ok finfo := by
  unfold World.hasFile at h
  cases hr : world.ReadFile filePath with
  | error e => rw [hr] at h; cases h
  | ok bs =>
    cases hs : world.Stat filePath with
    | error e => rw [hr, hs] at h; cases h
    | ok finfo => exact ⟨bs, finfo, rfl, rfl⟩

/-- A GET for a key that is not recorded as not found, passes the allow-list
check and whose file exists is answered with status 200. -/
theorem ServeHTTP_status_200 (sfs : staticFileServer) (world : World) (r : Request)
    (hget : r.Method = MethodGet) (hn : sfs.notFoundPaths (cacheKey sfs r) = none)
    (hp : allowListPasses sfs (fileOf sfs (cacheKey sfs r)) = true)
    (hex : world.hasFile (fileOf sfs (cacheKey sfs r)) = true) :
    (ServeHTTP sfs world r).response.status = 200 := by
  cases hf : sfs.files (cacheKey sfs r) with
  | some sf => rw [ServeHTTP_hit _ _ _ hget sf hf, writeResponse_some _ _ sf hf]
  | none =>
    obtain ⟨bs, finfo, hr, hs⟩ := World.hasFile_ok world _ hex
    rw [ServeHTTP_miss _ _ _ hget hf hn, addStaticFile_ok _ _ _ bs finfo hp hr hs]
    simp only
    rw [writeResponse_some _ _ _ (mapSet_self _ _ _)]

/-! ## The claims -/

theorem allowListPasses_eq_false (sfs : staticFileServer) (filePath : GoString) :
    allowListPasses sfs filePath = false ↔
      (sfs.allowAll = false ∧ Dir filePath ∈ sfs.staticDirs ∧
        ∀ d ∈ sfs.allowedDirs, HasPrefix filePath d = false) := by
  unfold allowListPasses
  by_cases h1 : sfs.allowAll = false
  · by_cases h2 : Dir filePath ∈ sfs.staticDirs
    · simp [h1, h2]
    · simp [h1, h2]
  · simp [h1]

/-- C1 (the code at the failing input): a request whose path has no leading
`/`, here `../../etc/passwd` on the root `/srv/www`, makes `addStaticFile`
read `/etc/passwd`, a path that does not lie inside the root directory, and
the handler serves that file with status 200. -/
theorem traversal_reads_outside_root :
    cacheKey testServer ⟨MethodGet, "../../etc/passwd".toList⟩ = "/../../etc/passwd".toList ∧
    fileOf testServer "/../../etc/passwd".toList = "/etc/passwd".toList ∧
    liesInside testServer.rootDir "/etc/passwd".toList = false ∧
    (ServeHTTP testServer testWorld ⟨MethodGet, "../../etc/passwd".toList⟩).trace =
      [Event.allowCheck "/etc/passwd".toList, Event.readFile "/etc/passwd".toList,
       Event.stat "/etc/passwd".toList] ∧
    (ServeHTTP testServer testWorld ⟨MethodGet, "../../etc/passwd".toList⟩).response.status = 200 ∧
    (ServeHTTP testServer testWorld ⟨MethodGet, "../../etc/passwd".toList⟩).response.body =
      "root:x:0:0".toList := by
  decide

/-- C2: `addStaticFile` returns the error `directory access not allowed`
exactly when the allow-list is in force, the parent directory of the joined
path is a tracked directory and no allowed directory is a prefix of the joined
path; the file is read exactly in the other cases, in particular always when
`allowAll` holds, and `NewHandler` sets `allowAll` when no allow-list is
configured. -/
theorem addStaticFile_rejects_iff (sfs : staticFileServer) (world : World) (path : GoString) :
    ((addStaticFile sfs world path).1 = some (GoError.new "directory access not allowed".toList) ↔
      (sfs.allowAll = false ∧ Dir (Join [sfs.rootDir, path]) ∈ sfs.staticDirs ∧
        ∀ d ∈ sfs.allowedDirs, HasPrefix (Join [sfs.rootDir, path]) d = false)) ∧
    (Event.readFile (Join [sfs.rootDir, path]) ∈ (addStaticFile sfs world path).2.2 ↔
      ¬ (sfs.allowAll = false ∧ Dir (Join [sfs.rootDir, path]) ∈ sfs.staticDirs ∧
        ∀ d ∈ sfs.allowedDirs, HasPrefix (Join [sfs.rootDir, path]) d = false)) ∧
    (sfs.allowAll = true →
      Event.readFile (Join [sfs.rootDir, path]) ∈ (addStaticFile sfs world path).2.2) ∧
    (∀ (opt : ServerOptions) (root : Except OSError DirTree) (world0 : World)
      (sfs0 : staticFileServer), opt.AllowedDirs = [] →
      NewHandler opt root world0 = .ok sfs0 → sfs0.allowAll = true) := by
  have key : (addStaticFile sfs world path).1 =
        some (GoError.new "directory access not allowed".toList) ∧
        Event.readFile (Join [sfs.rootDir, path]) ∉ (addStaticFile sfs world path).2.2 ∧
        allowListPasses sfs (Join [sfs.rootDir, path]) = false ∨
      (addStaticFile sfs world path).1 ≠
        some (GoError.new "directory access not allowed".toList) ∧
        Event.readFile (Join [sfs.rootDir, path]) ∈ (addStaticFile sfs world path).2.2 ∧
        allowListPasses sfs (Join [sfs.rootDir, path]) = true := by
    cases hp : allowListPasses sfs (Join [sfs.rootDir, path]) with
    | false =>
      left
      rw [addStaticFile_denied _ _ _ hp]
      refine ⟨rfl, ?_, rfl⟩
      by_cases ha : sfs.allowAll = false <;> simp [ha]
    | true =>
      right
      cases hr : world.ReadFile (Join [sfs.rootDir, path]) with
      | error err => rw [addStaticFile_readError _ _ _ err hp hr]; simp
      | ok bs =>
        cases hs : world.Stat (Join [sfs.rootDir, path]) with
        | error err => rw [addStaticFile_statError _ _ _ bs err hp hr hs]; simp
        | ok finfo => rw [addStaticFile_ok _ _ _ bs finfo hp hr hs]; simp
  have hiff := allowListPasses_eq_false sfs (Join [sfs.rootDir, path])
  refine ⟨?_, ?_, ?_, ?_⟩
  · rcases key with ⟨h1, _, h3⟩ | ⟨h1, _, h3⟩
    · exact ⟨fun _ => hiff.mp h3, fun _ => h1⟩
    · constructor
      · intro h; exact absurd h h1
      · intro h; rw [hiff.mpr h] at h3; cases h3
  · rcases key with ⟨_, h2, h3⟩ | ⟨_, h2, h3⟩
    · constructor
      · intro h; exact absurd h h2
      · intro h; exact absurd (hiff.mp h3) h
    · constructor
      · intro _ hc; rw [hiff.mpr hc] at h3; cases h3
      · intro _; exact h2
  · intro hall
    rcases key with ⟨_, _, h3⟩ | ⟨_, h2, _⟩
    · have := (hiff.mp h3).1
      rw [hall] at this; cases this
    · exact h2
  · intro opt root world0 sfs0 hnil hnew
    obtain ⟨_, _, h3, h4, _⟩ := NewHandler_ok opt root world0 sfs0 hnew
    rw [h4, h3, hnil]
    rfl

/-- C2, at the test server: `/js/app.js` is rejected without a read and
`/css/app.css` is read. -/
theorem addStaticFile_rejects_iff_witness :
    (addStaticFile testServer testWorld "/js/app.js".toList).1 =
        some (GoError.new "directory access not allowed".toList) ∧
      Event.readFile "/srv/www/css/app.css".toList ∈
        (addStaticFile testServer testWorld "/css/app.css".toList).2.2 :=
  ⟨(addStaticFile_rejects_iff testServer testWorld "/js/app.js".toList).1.mpr (by decide),
   (addStaticFile_rejects_iff testServer testWorld "/css/app.css".toList).2.1.mpr (by decide)⟩

/-- C3 (counterexample): with the allow-list `css`, `img` and the tracked
directories `css`, `img`, `js`, the GET for `/js/app.js` is answered with
status 500, which is not a 4xx client error. -/
theorem denied_not_client_error :
    NewHandler testOptions (.ok testTree) testWorld = .ok testServer ∧
    Dir (fileOf testServer (cacheKey testServer ⟨MethodGet, "/js/app.js".toList⟩)) ∈
      testServer.staticDirs ∧
    (∀ d ∈ testServer.allowedDirs,
      HasPrefix (fileOf testServer (cacheKey testServer ⟨MethodGet, "/js/app.js".toList⟩)) d
        = false) ∧
    (ServeHTTP testServer testWorld ⟨MethodGet, "/js/app.js".toList⟩).response.status = 500 ∧
    ¬ (400 ≤ (ServeHTTP testServer testWorld ⟨MethodGet, "/js/app.js".toList⟩).response.status ∧
       (ServeHTTP testServer testWorld ⟨MethodGet, "/js/app.js".toList⟩).response.status < 500) :=
  ⟨testServer_new, by decide, by decide, by decide, by decide⟩

/-- C3 (amended): a GET for a file in a tracked static subdirectory that no
allowed directory covers, when its key is in neither map, is answered with the
server error 500 (Internal Server Error), not a 4xx status, and the key is
cached neither positively nor negatively. -/
theorem denied_is_server_error (sfs : staticFileServer) (world : World) (r : Request)
    (hget : r.Method = MethodGet)
    (hf : sfs.files (cacheKey sfs r) = none) (hn : sfs.notFoundPaths (cacheKey sfs r) = none)
    (hall : sfs.allowAll = false)
    (hdir : Dir (fileOf sfs (cacheKey sfs r)) ∈ sfs.staticDirs)
    (hpre : ∀ d ∈ sfs.allowedDirs, HasPrefix (fileOf sfs (cacheKey sfs r)) d = false) :
    (ServeHTTP sfs world r).response.status = 500 ∧
      ¬ ((ServeHTTP sfs world r).response.status < 500) ∧
      (ServeHTTP sfs world r).sfs = sfs := by
  have hp : allowListPasses sfs (Join [sfs.rootDir, cacheKey sfs r]) = false :=
    (allowListPasses_eq_false sfs _).mpr ⟨hall, hdir, hpre⟩
  rw [ServeHTTP_miss _ _ _ hget hf hn, addStaticFile_denied _ _ _ hp]
  exact ⟨rfl, Nat.lt_irrefl 500, rfl⟩

/-- C3 (amended), at the test server and `/js/app.js`. -/
theorem denied_is_server_error_witness :
    (ServeHTTP testServer testWorld ⟨MethodGet, "/js/app.js".toList⟩).response.status = 500 :=
  (denied_is_server_error testServer testWorld ⟨MethodGet, "/js/app.js".toList⟩ rfl rfl rfl rfl
    (by decide) (by decide)).1

/-- C4: in every state reached from `NewHandler` by any sequence of requests,
a GET for a path the allow-list denies is answered with status 500 and the
message `directory access not allowed`, whatever the filesystem holds, and the
file is not read. -/
theorem denied_responds_500 (opt : ServerOptions) (root : Except OSError DirTree)
    (world0 : World) (sfs0 : staticFileServer) (hnew : NewHandler opt root world0 = .ok sfs0)
    (reqs : List (World × Request)) (world : World) (r : Request)
    (hget : r.Method = MethodGet)
    (hden : allowListPasses sfs0 (fileOf sfs0 (cacheKey sfs0 r)) = false) :
    (ServeHTTP (serveAll sfs0 reqs) world r).response =
        httpError "directory access not allowed".toList 500 ∧
      (ServeHTTP (serveAll sfs0 reqs) world r).response.status = 500 ∧
      Event.readFile (fileOf sfs0 (cacheKey sfs0 r)) ∉
        (ServeHTTP (serveAll sfs0 reqs) world r).trace := by
  have hadm : Admitted (serveAll sfs0 reqs) :=
    serveAll_admitted sfs0 reqs (NewHandler_ok opt root world0 sfs0 hnew).2.2.2.2.2.2.2.2
  have hc := serveAll_sameConfig sfs0 reqs
  have hk := sameConfig_cacheKey hc r
  have hp : allowListPasses (serveAll sfs0 reqs)
      (fileOf (serveAll sfs0 reqs) (cacheKey (serveAll sfs0 reqs) r)) = false := by
    rw [sameConfig_allowListPasses hc, sameConfig_fileOf hc, hk]; exact hden
  have hf : (serveAll sfs0 reqs).files (cacheKey (serveAll sfs0 reqs) r) = none := by
    by_contra hne
    have := hadm _ (Or.inl hne)
    rw [hp] at this; cases this
  have hn : (serveAll sfs0 reqs).notFoundPaths (cacheKey (serveAll sfs0 reqs) r) = none := by
    by_contra hne
    have := hadm _ (Or.inr hne)
    rw [hp] at this; cases this
  rw [ServeHTTP_miss _ _ _ hget hf hn, addStaticFile_denied _ _ _ hp]
  refine ⟨rfl, rfl, ?_⟩
  show _ ∉ (if (serveAll sfs0 reqs).allowAll = false then _ else _)
  by_cases ha : (serveAll sfs0 reqs).allowAll = false <;> simp [ha]

/-- C4, at the test server: after a request that cached `/css/app.css`, the
GET for the existing file `/js/app.js` is answered with status 500. -/
theorem denied_responds_500_witness :
    (ServeHTTP (serveAll testServer [(testWorld, ⟨MethodGet, "/css/app.css".toList⟩)]) testWorld
      ⟨MethodGet, "/js/app.js".toList⟩).response.status = 500 :=
  (denied_responds_500 testOptions (.ok testTree) testWorld testServer testServer_new
    [(testWorld, ⟨MethodGet, "/css/app.css".toList⟩)] testWorld
    ⟨MethodGet, "/js/app.js".toList⟩ rfl (by decide)).2.1

/-- C6 (the code at the failing input): the empty request path resolves to
the cache key `/.`, not to the index path, whatever the server; only `/`
resolves to `indexPage`.  At the test server the GET for the empty path reads
the root directory itself and is answered with status 500. -/
theorem emptyPath_key (sfs : staticFileServer) (method : GoString) :
    cacheKey sfs ⟨method, []⟩ = ['/', '.'] ∧
    cacheKey sfs ⟨method, ['/']⟩ = sfs.indexPage ∧
    cacheKey testServer ⟨MethodGet, []⟩ ≠ testServer.indexPage ∧
    (ServeHTTP testServer testWorld ⟨MethodGet, []⟩).trace =
      [Event.allowCheck "/srv/www".toList, Event.readFile "/srv/www".toList] ∧
    (ServeHTTP testServer testWorld ⟨MethodGet, []⟩).response.status = 500 := by
  refine ⟨rfl, rfl, by decide, by decide, by decide⟩

/-- C7 (counterexample): with `Index: "index.html"`, as in the tests, GET `/`
resolves to the key `index.html` and GET `/index.html` to the key
`/index.html`; after `/` has been served with status 200 the request for
`/index.html` is no cache hit, it reads the file again. -/
theorem index_key_differs :
    NewHandler testOptions (.ok testTree) testWorld = .ok testServer ∧
    testOptions.Index = "index.html".toList ∧
    cacheKey testServer ⟨MethodGet, "/".toList⟩ = "index.html".toList ∧
    cacheKey testServer ⟨MethodGet, "/index.html".toList⟩ = "/index.html".toList ∧
    cacheKey testServer ⟨MethodGet, "/".toList⟩ ≠
      cacheKey testServer ⟨MethodGet, "/index.html".toList⟩ ∧
    (ServeHTTP testServer testWorld ⟨MethodGet, "/".toList⟩).response.status = 200 ∧
    (ServeHTTP testServer testWorld ⟨MethodGet, "/".toList⟩).sfs.files "/index.html".toList
      = none ∧
    (ServeHTTP (ServeHTTP testServer testWorld ⟨MethodGet, "/".toList⟩).sfs testWorld
      ⟨MethodGet, "/index.html".toList⟩).trace =
      [Event.allowCheck "/srv/www/index.html".toList, Event.readFile "/srv/www/index.html".toList,
       Event.stat "/srv/www/index.html".toList] :=
  ⟨testServer_new, rfl, by decide, by decide, by decide, by decide, by decide, by decide⟩

theorem HasPrefix_slash (p : GoString) (h : HasPrefix p ['/'] = true) : p.head? = some '/' := by
  cases p with
  | nil => simp [HasPrefix] at h
  | cons c t =>
    simp only [HasPrefix, Bool.and_true, beq_iff_eq] at h
    rw [h]; rfl

/-- C7 (amended): when the cleaned index path begins with `/`, GET `/` and a
GET for the index path resolve to the same cache key, the index path itself;
once that key is cached both requests are the same cache hit, with no
filesystem read. -/
theorem index_key_rooted (opt : ServerOptions) (root : Except OSError DirTree)
    (world0 : World) (sfs0 : staticFileServer) (hnew : NewHandler opt root world0 = .ok sfs0)
    (hrooted : HasPrefix sfs0.indexPage ['/'] = true) (method : GoString) :
    cacheKey sfs0 ⟨method, ['/']⟩ = sfs0.indexPage ∧
    cacheKey sfs0 ⟨method, sfs0.indexPage⟩ = sfs0.indexPage ∧
    ∀ (reqs : List (World × Request)) (world : World) (sf : staticFile),
      (serveAll sfs0 reqs).files sfs0.indexPage = some sf →
      ServeHTTP (serveAll sfs0 reqs) world ⟨MethodGet, ['/']⟩ =
        ServeHTTP (serveAll sfs0 reqs) world ⟨MethodGet, sfs0.indexPage⟩ ∧
      (ServeHTTP (serveAll sfs0 reqs) world ⟨MethodGet, ['/']⟩).response.body = sf.data ∧
      ∀ e ∈ (ServeHTTP (serveAll sfs0 reqs) world ⟨MethodGet, ['/']⟩).trace, e.isPush = true := by
  have hidx : Clean sfs0.indexPage = sfs0.indexPage := by
    rw [(NewHandler_ok opt root world0 sfs0 hnew).2.1]
    exact Clean_idem _
  have hk : ∀ (s : staticFileServer) (m : GoString), s.indexPage = sfs0.indexPage →
      cacheKey s ⟨m, ['/']⟩ = sfs0.indexPage ∧ cacheKey s ⟨m, sfs0.indexPage⟩ = sfs0.indexPage := by
    intro s m hs
    constructor
    · rw [← hs]; rfl
    · unfold cacheKey resolvePath
      simp only [hidx, hrooted, Bool.true_eq_false, if_false]
      split_ifs with h0
      · exact hs
      · rfl
  refine ⟨(hk sfs0 method rfl).1, (hk sfs0 method rfl).2, ?_⟩
  intro reqs world sf hf
  have hc := serveAll_sameConfig sfs0 reqs
  obtain ⟨k1, k2⟩ := hk (serveAll sfs0 reqs) MethodGet hc.2.1
  have h1 := ServeHTTP_hit (serveAll sfs0 reqs) world ⟨MethodGet, ['/']⟩ rfl sf (by rw [k1]; exact hf)
  have h2 := ServeHTTP_hit (serveAll sfs0 reqs) world ⟨MethodGet, sfs0.indexPage⟩ rfl sf
    (by rw [k2]; exact hf)
  rw [k1] at h1
  rw [k2] at h2
  refine ⟨h1.trans h2.symm, ?_, ?_⟩
  · rw [h1, writeResponse_some _ _ sf hf]
  · rw [h1]
    exact serverPush_isPush _ _ _

/-- C7 (amended), at the test server with `Index: "/index.html"`. -/
theorem index_key_rooted_witness :
    cacheKey rootedIndexServer ⟨MethodGet, "/".toList⟩ = "/index.html".toList ∧
    cacheKey rootedIndexServer ⟨MethodGet, "/index.html".toList⟩ = "/index.html".toList :=
  have h := index_key_rooted { testOptions with Index := "/index.html".toList } (.ok testTree)
    testWorld rootedIndexServer rfl (by decide) MethodGet
  ⟨h.1, h.2.1⟩

/-- C8: if the file cache holds an entry for the resolved path, `ServeHTTP`
leaves the server unchanged, performs nothing but pushes (no filesystem read,
no allow-list check) and writes status 200 with the entry's bytes and content
type; after any later sequence of requests, with any filesystem, a GET that
resolves to the same path gets the very same response, again without a read. -/
theorem cache_hit (sfs : staticFileServer) (world : World) (r : Request)
    (hget : r.Method = MethodGet) (sf : staticFile)
    (hf : sfs.files (cacheKey sfs r) = some sf) :
    (ServeHTTP sfs world r).sfs = sfs ∧
    (∀ e ∈ (ServeHTTP sfs world r).trace, e.isPush = true) ∧
    (ServeHTTP sfs world r).response =
      { status := 200,
        headers := [("Content-Type".toList, sf.ctype),
                    ("Content-Length".toList, FormatInt sf.finfo.Size),
                    ("Accept-Ranges".toList, "bytes".toList),
                    ("Last-Modified".toList, sf.finfo.ModTime)],
        body := sf.data } ∧
    ∀ (reqs : List (World × Request)) (world1 : World) (r1 : Request),
      r1.Method = MethodGet → cacheKey sfs r1 = cacheKey sfs r →
      (ServeHTTP (serveAll sfs reqs) world1 r1).response = (ServeHTTP sfs world r).response ∧
      (∀ e ∈ (ServeHTTP (serveAll sfs reqs) world1 r1).trace, e.isPush = true) ∧
      (ServeHTTP (serveAll sfs reqs) world1 r1).sfs = serveAll sfs reqs := by
  have h0 := ServeHTTP_hit sfs world r hget sf hf
  refine ⟨by rw [h0], ?_, by rw [h0, writeResponse_some _ _ sf hf], ?_⟩
  · rw [h0]; exact serverPush_isPush _ _ _
  · intro reqs world1 r1 hget1 hkey
    have hc := serveAll_sameConfig sfs reqs
    have hk : cacheKey (serveAll sfs reqs) r1 = cacheKey sfs r :=
      (sameConfig_cacheKey hc r1).trans hkey
    have hf1 : (serveAll sfs reqs).files (cacheKey (serveAll sfs reqs) r1) = some sf := by
      rw [hk]; exact serveAll_files_some sfs reqs _ sf hf
    have h1 := ServeHTTP_hit (serveAll sfs reqs) world1 r1 hget1 sf hf1
    refine ⟨?_, ?_, by rw [h1]⟩
    · rw [h1, h0, writeResponse_some _ _ sf hf1, writeResponse_some _ _ sf hf]
    · rw [h1]; exact serverPush_isPush _ _ _

/-- C8, at the test server once `/css/app.css` has been served: the entry is
served again although the file has gone from the filesystem. -/
theorem cache_hit_witness :
    (ServeHTTP (ServeHTTP testServer testWorld ⟨MethodGet, "/css/app.css".toList⟩).sfs
      { testWorld with ReadFile := fun _ => .error (.notExist []) }
      ⟨MethodGet, "/css/app.css".toList⟩).response.body = "body {}".toList :=
  (congrArg Response.body
    (cache_hit (ServeHTTP testServer testWorld ⟨MethodGet, "/css/app.css".toList⟩).sfs
      { testWorld with ReadFile := fun _ => .error (.notExist []) }
      ⟨MethodGet, "/css/app.css".toList⟩ rfl
      { data := "body {}".toList,
        finfo := { Size := 7, ModTime := "Mon, 02 Jan 2006 15:04:05 GMT".toList },
        ctype := "text/css; charset=utf-8".toList }
      (by decide)).2.2.1)

theorem notFound_not_mem_push (sfs : staticFileServer) (world : World) (fpath : GoString)
    (r0 : Request) : Event.notFound r0 ∉ serverPush sfs world fpath := by
  intro h
  have := serverPush_isPush sfs world fpath _ h
  cases this

/-- A GET answered through the not-found handler leaves its key recorded in
the not-found set and absent from the file cache. -/
theorem notFound_trace_state (sfs : staticFileServer) (world : World) (r : Request)
    (hget : r.Method = MethodGet) (r0 : Request)
    (h : Event.notFound r0 ∈ (ServeHTTP sfs world r).trace) :
    (ServeHTTP sfs world r).sfs.files (cacheKey sfs r) = none ∧
      (ServeHTTP sfs world r).sfs.notFoundPaths (cacheKey sfs r) ≠ none := by
  cases hf : sfs.files (cacheKey sfs r) with
  | some sf =>
    rw [ServeHTTP_hit _ _ _ hget sf hf] at h
    exact absurd h (notFound_not_mem_push _ _ _ _)
  | none =>
    cases hn : sfs.notFoundPaths (cacheKey sfs r) with
    | some v =>
      rw [ServeHTTP_known _ _ _ hget hf v hn]
      exact ⟨hf, by simp [pushAndServe, hn]⟩
    | none =>
      rw [ServeHTTP_miss _ _ _ hget hf hn] at h ⊢
      have hchk : ∀ p : GoString, Event.notFound r0 ∉
          (if sfs.allowAll = false then [Event.allowCheck p] else []) := by
        intro p; by_cases ha : sfs.allowAll = false <;> simp [ha]
      cases hp : allowListPasses sfs (Join [sfs.rootDir, cacheKey sfs r]) with
      | false =>
        rw [addStaticFile_denied _ _ _ hp] at h
        exact absurd h (hchk _)
      | true =>
        cases hr : world.ReadFile (Join [sfs.rootDir, cacheKey sfs r]) with
        | error err =>
          rw [addStaticFile_readError _ _ _ err hp hr] at h ⊢
          cases err with
          | notExist msg => exact ⟨hf, by simp [IsNotExist, pushAndServe, addNotFoundPath, mapSet]⟩
          | other msg =>
            simp only [IsNotExist, Bool.false_eq_true, if_false, List.mem_append,
              List.mem_singleton] at h
            rcases h with h | h
            · exact absurd h (hchk _)
            · cases h
        | ok bs =>
          cases hs : world.Stat (Join [sfs.rootDir, cacheKey sfs r]) with
          | error err =>
            rw [addStaticFile_statError _ _ _ bs err hp hr hs] at h ⊢
            cases err with
            | notExist msg =>
              exact ⟨hf, by simp [IsNotExist, pushAndServe, addNotFoundPath, mapSet]⟩
            | other msg =>
              simp only [IsNotExist, Bool.false_eq_true, if_false, List.mem_append,
                List.mem_cons, List.mem_singleton, List.not_mem_nil, or_false] at h
              rcases h with h | h | h
              · exact absurd h (hchk _)
              · cases h
              · cases h
          | ok finfo =>
            rw [addStaticFile_ok _ _ _ bs finfo hp hr hs] at h
            simp only [List.mem_append, List.mem_cons, List.mem_singleton, List.not_mem_nil,
              or_false] at h
            rcases h with (h | h | h) | h
            · exact absurd h (hchk _)
            · cases h
            · cases h
            · exact absurd h (notFound_not_mem_push _ _ _ _)

/-- C9: once a GET for a path has been answered through the not-found handler,
the path stays recorded in the not-found set after every later sequence of
requests, and every later GET that resolves to it is delegated to the
not-found handler, after the index page's pushes, without a filesystem read
and without a change of either map, whatever the filesystem then holds. -/
theorem notFound_sticky (sfs : staticFileServer) (world : World) (r : Request)
    (hget : r.Method = MethodGet) (r0 : Request)
    (hnf : Event.notFound r0 ∈ (ServeHTTP sfs world r).trace) :
    (ServeHTTP sfs world r).sfs.notFoundPaths (cacheKey sfs r) ≠ none ∧
    ∀ (reqs : List (World × Request)) (world1 : World) (r1 : Request),
      r1.Method = MethodGet → cacheKey sfs r1 = cacheKey sfs r →
      (serveAll (ServeHTTP sfs world r).sfs reqs).notFoundPaths (cacheKey sfs r) ≠ none ∧
      (ServeHTTP (serveAll (ServeHTTP sfs world r).sfs reqs) world1 r1).sfs =
        serveAll (ServeHTTP sfs world r).sfs reqs ∧
      (ServeHTTP (serveAll (ServeHTTP sfs world r).sfs reqs) world1 r1).response =
        sfs.notFoundHandler (resolvePath sfs r1).2 ∧
      (ServeHTTP (serveAll (ServeHTTP sfs world r).sfs reqs) world1 r1).trace =
        serverPush (serveAll (ServeHTTP sfs world r).sfs reqs) world1 sfs.indexPage ++
          [Event.notFound (resolvePath sfs r1).2] := by
  obtain ⟨h1, h2⟩ := notFound_trace_state sfs world r hget r0 hnf
  refine ⟨h2, ?_⟩
  intro reqs world1 r1 hget1 hkey
  obtain ⟨g1, g2⟩ := serveAll_notFound_some _ reqs _ h1 h2
  have hc := sameConfig_trans (serveAll_sameConfig (ServeHTTP sfs world r).sfs reqs)
    (ServeHTTP_sameConfig sfs world r)
  have hk : cacheKey (serveAll (ServeHTTP sfs world r).sfs reqs) r1 = cacheKey sfs r :=
    (sameConfig_cacheKey hc r1).trans hkey
  refine ⟨g2, ?_⟩
  cases hv : (serveAll (ServeHTTP sfs world r).sfs reqs).notFoundPaths (cacheKey sfs r) with
  | none => exact absurd hv g2
  | some v =>
    rw [ServeHTTP_known _ _ _ hget1 (by rw [hk]; exact g1) v (by rw [hk]; exact hv)]
    rw [sameConfig_resolvePath hc]
    refine ⟨rfl, ?_, ?_⟩
    · show (serveAll (ServeHTTP sfs world r).sfs reqs).notFoundHandler _ = _
      rw [hc.2.2.2.2.2.2]
    · show [] ++ serverPush _ world1 (serveAll (ServeHTTP sfs world r).sfs reqs).indexPage ++ _ = _
      rw [hc.2.1]
      rfl

/-- C9, at the test server: `/missing` is answered by the not-found handler,
and again after the file has appeared and other requests were served. -/
theorem notFound_sticky_witness :
    (ServeHTTP (serveAll (ServeHTTP testServer testWorld ⟨MethodGet, "/missing".toList⟩).sfs
        [(testWorld, ⟨MethodGet, "/css/app.css".toList⟩)])
      { testWorld with ReadFile := fun _ => .ok "now here".toList }
      ⟨MethodGet, "/missing".toList⟩).response.status = 404 :=
  (congrArg Response.status
    ((notFound_sticky testServer testWorld ⟨MethodGet, "/missing".toList⟩ rfl
      ⟨MethodGet, "/missing".toList⟩ (by decide)).2
      [(testWorld, ⟨MethodGet, "/css/app.css".toList⟩)]
      { testWorld with ReadFile := fun _ => .ok "now here".toList }
      ⟨MethodGet, "/missing".toList⟩ rfl rfl).2.2.1)

/-- C10 (counterexample): at the test server the file of `/js/missing.js` does
not exist and its key is in neither map, yet the path is denied by the
allow-list before the file is looked for: the key is not recorded, the
not-found handler is not invoked and the core itself writes status 500. -/
theorem missing_but_denied :
    testServer.files (cacheKey testServer ⟨MethodGet, "/js/missing.js".toList⟩) = none ∧
    testServer.notFoundPaths (cacheKey testServer ⟨MethodGet, "/js/missing.js".toList⟩) = none ∧
    testWorld.ReadFile (fileOf testServer
        (cacheKey testServer ⟨MethodGet, "/js/missing.js".toList⟩)) =
      .error (.notExist "no such file or directory".toList) ∧
    (ServeHTTP testServer testWorld ⟨MethodGet, "/js/missing.js".toList⟩).sfs.notFoundPaths
        (cacheKey testServer ⟨MethodGet, "/js/missing.js".toList⟩) = none ∧
    (ServeHTTP testServer testWorld ⟨MethodGet, "/js/missing.js".toList⟩).trace =
      [Event.allowCheck "/srv/www/js/missing.js".toList] ∧
    (ServeHTTP testServer testWorld ⟨MethodGet, "/js/missing.js".toList⟩).response =
      httpError "directory access not allowed".toList 500 :=
  ⟨rfl, rfl, rfl, rfl, by decide, by decide⟩

/-- C10 (amended): for a GET whose resolved path is in neither map, passes the
allow-list check and whose file does not exist, `ServeHTTP` records the path
in the not-found set, leaves the file cache unchanged, attempts the index
page's pushes and then invokes the not-found handler exactly once; the
response is the handler's, status 404 for the default `http.NotFoundHandler`,
which `NewHandler` installs when none is configured. -/
theorem miss_unknown_recorded (sfs : staticFileServer) (world : World) (r : Request)
    (hget : r.Method = MethodGet)
    (hf : sfs.files (cacheKey sfs r) = none) (hn : sfs.notFoundPaths (cacheKey sfs r) = none)
    (hp : allowListPasses sfs (fileOf sfs (cacheKey sfs r)) = true)
    (msg : GoString)
    (hread : world.ReadFile (fileOf sfs (cacheKey sfs r)) = .error (.notExist msg)) :
    (ServeHTTP sfs world r).sfs =
      { sfs with notFoundPaths := mapSet sfs.notFoundPaths (cacheKey sfs r) 2 } ∧
    (ServeHTTP sfs world r).sfs.notFoundPaths (cacheKey sfs r) = some 2 ∧
    (ServeHTTP sfs world r).sfs.files = sfs.files ∧
    (ServeHTTP sfs world r).trace =
      (if sfs.allowAll = false then [Event.allowCheck (fileOf sfs (cacheKey sfs r))] else []) ++
        [Event.readFile (fileOf sfs (cacheKey sfs r))] ++
        serverPush sfs world sfs.indexPage ++ [Event.notFound (resolvePath sfs r).2] ∧
    (ServeHTTP sfs world r).trace.filter Event.isNotFound =
      [Event.notFound (resolvePath sfs r).2] ∧
    (ServeHTTP sfs world r).response = sfs.notFoundHandler (resolvePath sfs r).2 ∧
    (sfs.notFoundHandler = NotFoundHandler → (ServeHTTP sfs world r).response.status = 404) ∧
    (∀ (opt : ServerOptions) (root : Except OSError DirTree) (world0 : World)
      (sfs0 : staticFileServer), opt.NotFoundHandler = none →
      NewHandler opt root world0 = .ok sfs0 → sfs0.notFoundHandler = NotFoundHandler) := by
  have h0 : ServeHTTP sfs world r =
      pushAndServe (addNotFoundPath sfs (cacheKey sfs r)) world (resolvePath sfs r).2
        ((if sfs.allowAll = false then [Event.allowCheck (fileOf sfs (cacheKey sfs r))] else [])
          ++ [Event.readFile (fileOf sfs (cacheKey sfs r))]) := by
    rw [ServeHTTP_miss _ _ _ hget hf hn, addStaticFile_readError _ _ _ _ hp hread]
    rfl
  have hfilter : ∀ evs : List Event, (∀ e ∈ evs, e.isNotFound = false) →
      evs.filter Event.isNotFound = [] := by
    intro evs h
    exact List.filter_eq_nil_iff.mpr (fun e he => by simp [h e he])
  refine ⟨by rw [h0]; rfl, by rw [h0]; exact mapSet_self _ _ _, by rw [h0]; rfl,
    by rw [h0]; rfl, ?_, by rw [h0]; rfl, ?_, ?_⟩
  · rw [h0]
    show List.filter Event.isNotFound (_ ++ serverPush _ world sfs.indexPage ++ _) = _
    rw [List.filter_append, List.filter_append, hfilter, hfilter]
    · rfl
    · intro e he
      have := serverPush_isPush _ _ _ e he
      cases e <;> simp_all [Event.isPush, Event.isNotFound]
    · intro e he
      by_cases ha : sfs.allowAll = false <;> simp [ha] at he <;>
        rcases he with rfl | rfl <;> rfl
  · intro hh
    rw [h0]
    show (sfs.notFoundHandler _).status = 404
    rw [hh]
    rfl
  · intro opt root world0 sfs0 hnone hnew
    have := (NewHandler_ok opt root world0 sfs0 hnew).2.2.2.2.1
    rw [hnone] at this
    exact this

/-- C10 (amended), at the test server and the missing top-level file `/missing`. -/
theorem miss_unknown_recorded_witness :
    (ServeHTTP testServer testWorld ⟨MethodGet, "/missing".toList⟩).sfs.notFoundPaths
        (cacheKey testServer ⟨MethodGet, "/missing".toList⟩) = some 2 ∧
      (ServeHTTP testServer testWorld ⟨MethodGet, "/missing".toList⟩).response.status = 404 :=
  have h := miss_unknown_recorded testServer testWorld ⟨MethodGet, "/missing".toList⟩ rfl rfl rfl
    (by decide) "no such file or directory".toList rfl
  ⟨h.2.1, h.2.2.2.2.2.2.1 rfl⟩

theorem pushServer_new : NewHandler pushTestOptions (.ok testTree) testWorld = .ok pushServer := by
  rfl

theorem slashRuleServer_new :
    NewHandler slashRuleOptions (.ok testTree) testWorld = .ok slashRuleServer := by
  rfl

/-! ## Method check, disjointness of the maps, stability of entries -/

/-- C11: for every request whose method is not GET, `ServeHTTP` responds with
status 400 and the body `METHOD_NOT_ALLOWED`, whatever the path and the maps
hold; it performs no effect (no filesystem read) and leaves the server as it is. -/
theorem nonGet_rejected (sfs : staticFileServer) (world : World) (r : Request)
    (h : r.Method ≠ MethodGet) :
    (ServeHTTP sfs world r).response = httpError "METHOD_NOT_ALLOWED".toList 400 ∧
    (ServeHTTP sfs world r).response.status = 400 ∧
    (ServeHTTP sfs world r).response.body = "METHOD_NOT_ALLOWED\n".toList ∧
    (ServeHTTP sfs world r).trace = [] ∧
    (ServeHTTP sfs world r).sfs = sfs := by
  rw [ServeHTTP_notGet sfs world r h]
  exact ⟨rfl, rfl, rfl, rfl, rfl⟩

/-- C11, at the test server: a POST for the existing `/index.html`. -/
theorem nonGet_rejected_witness :
    (ServeHTTP testServer testWorld ⟨"POST".toList, "/index.html".toList⟩).response.status = 400 ∧
    (ServeHTTP testServer testWorld ⟨"POST".toList, "/index.html".toList⟩).trace = [] :=
  have h := nonGet_rejected testServer testWorld ⟨"POST".toList, "/index.html".toList⟩
    (by decide)
  ⟨h.2.1, h.2.2.2.1⟩

theorem ServeHTTP_disjoint (sfs : staticFileServer) (world : World) (r : Request)
    (h : ∀ key, sfs.files key = none ∨ sfs.notFoundPaths key = none) :
    ∀ key, (ServeHTTP sfs world r).sfs.files key = none ∨
      (ServeHTTP sfs world r).sfs.notFoundPaths key = none := by
  intro key
  rcases ServeHTTP_sfs sfs world r with e | ⟨_, hn, _, _, sf, e⟩ | ⟨hf, _, _, _, e⟩
  · rw [e]; exact h key
  · rw [e]
    by_cases hk : key = cacheKey sfs r
    · right; rw [hk]; exact hn
    · rcases h key with h1 | h1
      · left; simp only [mapSet, hk, if_false]; exact h1
      · right; exact h1
  · rw [e]
    by_cases hk : key = cacheKey sfs r
    · left; rw [hk]; exact hf
    · rcases h key with h1 | h1
      · left; exact h1
      · right; simp only [mapSet, hk, if_false]; exact h1

theorem serveAll_disjoint (sfs : staticFileServer) (reqs : List (World × Request))
    (h : ∀ key, sfs.files key = none ∨ sfs.notFoundPaths key = none) :
    ∀ key, (serveAll sfs reqs).files key = none ∨ (serveAll sfs reqs).notFoundPaths key = none := by
  induction reqs generalizing sfs with
  | nil => exact h
  | cons a more ih =>
    obtain ⟨world, r⟩ := a
    exact ih _ (ServeHTTP_disjoint sfs world r h)

/-- C12: starting from the server `NewHandler` returns, after every finite
sequence of `ServeHTTP` calls, each with any filesystem, no path is present in
both the file cache and the not-found set. -/
theorem maps_disjoint (opt : ServerOptions) (root : Except OSError DirTree) (world0 : World)
    (sfs0 : staticFileServer) (hnew : NewHandler opt root world0 = .ok sfs0)
    (reqs : List (World × Request)) (key : GoString) :
    ¬ ((serveAll sfs0 reqs).files key ≠ none ∧ (serveAll sfs0 reqs).notFoundPaths key ≠ none) := by
  have h0 : ∀ key, sfs0.files key = none ∨ sfs0.notFoundPaths key = none := by
    intro k
    right
    rw [(NewHandler_ok opt root world0 sfs0 hnew).2.2.2.2.2.1]
  rcases serveAll_disjoint sfs0 reqs h0 key with h | h
  · exact fun hh => hh.1 h
  · exact fun hh => hh.2 h

/-- C12, at the push test server after a hit, a miss and a population. -/
theorem maps_disjoint_witness :
    ¬ ((serveAll pushServer [(testWorld, ⟨MethodGet, "/css/app.css".toList⟩),
          (testWorld, ⟨MethodGet, "/missing".toList⟩),
          (testWorld, ⟨MethodGet, "/robots.txt".toList⟩)]).files "/missing".toList ≠ none ∧
        (serveAll pushServer [(testWorld, ⟨MethodGet, "/css/app.css".toList⟩),
          (testWorld, ⟨MethodGet, "/missing".toList⟩),
          (testWorld, ⟨MethodGet, "/robots.txt".toList⟩)]).notFoundPaths "/missing".toList
          ≠ none) :=
  maps_disjoint pushTestOptions (.ok testTree) testWorld pushServer pushServer_new _ _

/-! ## What the construction loops store -/

/-- A successful `addStaticFile` sets `files[path]` to the entry read for the path. -/
theorem addStaticFile_none (sfs : staticFileServer) (world : World) (path : GoString)
    (h : (addStaticFile sfs world path).1 = none) :
    allowListPasses sfs (Join [sfs.rootDir, path]) = true ∧
    ∃ sf, readStaticFile world (Join [sfs.rootDir, path]) = some sf ∧
      (addStaticFile sfs world path).2.1 = { sfs with files := mapSet sfs.files path sf } := by
  cases hp : allowListPasses sfs (Join [sfs.rootDir, path]) with
  | false => rw [addStaticFile_denied _ _ _ hp] at h; cases h
  | true =>
    refine ⟨rfl, ?_⟩
    cases hr : world.ReadFile (Join [sfs.rootDir, path]) with
    | error err => rw [addStaticFile_readError _ _ _ err hp hr] at h; cases h
    | ok bs =>
      cases hs : world.Stat (Join [sfs.rootDir, path]) with
      | error err => rw [addStaticFile_statError _ _ _ bs err hp hr hs] at h; cases h
      | ok finfo =>
        rw [addStaticFile_ok _ _ _ bs finfo hp hr hs]
        refine ⟨_, ?_, rfl⟩
        unfold readStaticFile
        rw [hr, hs]

theorem addPushFiles_stores (urlPathPrefix : GoString) (world : World) (files : List GoString) :
    ∀ (sfs : staticFileServer) (pushFiles : List GoString) (res : staticFileServer × List GoString),
      addPushFiles urlPathPrefix world files sfs pushFiles = .ok res →
      res.1.files = (files.map (fun file => Clean (Clean file))).foldl
          (storeFile sfs.rootDir world) sfs.files ∧
        res.2 = pushFiles ++ files.map (fun file => Join [urlPathPrefix, Clean file]) ∧
        (∀ key ∈ files.map (fun file => Clean (Clean file)),
          readStaticFile world (Join [sfs.rootDir, key]) ≠ none ∧
          allowListPasses sfs (Join [sfs.rootDir, key]) = true) := by
  induction files with
  | nil =>
    intro sfs pushFiles res h
    simp only [addPushFiles, Except.ok.injEq] at h
    subst h
    simp
  | cons file files ih =>
    intro sfs pushFiles res h
    unfold addPushFiles at h
    dsimp only at h
    have hnone := addStaticFile_none sfs world (Clean (Clean file))
    have hinv := addStaticFile_inv sfs world (Clean (Clean file))
    rcases hadd : addStaticFile sfs world (Clean (Clean file)) with ⟨err, sfs1, evs⟩
    rw [hadd] at h hnone hinv
    cases err with
    | some e => simp at h
    | none =>
      simp only at h hnone hinv
      obtain ⟨hp, sf, hread, hs1⟩ := hnone trivial
      obtain ⟨i1, i2, i3⟩ := ih _ _ _ h
      have hroot : sfs1.rootDir = sfs.rootDir := hinv.1.1
      refine ⟨?_, ?_, ?_⟩
      · rw [i1, hroot, hs1]
        simp only [List.map_cons, List.foldl_cons]
        congr 1
        unfold storeFile
        rw [hread]
      · rw [i2]; simp
      · intro key hkey
        simp only [List.map_cons, List.mem_cons] at hkey
        rcases hkey with hkey | hkey
        · rw [hkey, hread]; exact ⟨by simp, hp⟩
        · have := i3 key hkey
          rw [hroot, sameConfig_allowListPasses hinv.1] at this
          exact this

theorem foldl_storeFile_append (rootDir : GoString) (world : World)
    (files : GoString → Option staticFile) (a b : List GoString) :
    (a ++ b).foldl (storeFile rootDir world) files =
      b.foldl (storeFile rootDir world) (a.foldl (storeFile rootDir world) files) :=
  List.foldl_append _ _ _ _

/-- The loops of `NewHandler` over the push content make one store per
declared file, in order, a later store under a key replacing an earlier one;
every push rule kept in `pushContent` comes from a declared entry, its targets
the cleaned files joined to the prefix in declaration order. -/
theorem addPushContent_stores (urlPathPrefix : GoString) (world : World)
    (content : List (GoString × List GoString)) :
    ∀ (sfs res : staticFileServer),
      addPushContent urlPathPrefix world content sfs = .ok res →
      res.files = (pushFileKeys content).foldl (storeFile sfs.rootDir world) sfs.files ∧
      (∀ key ∈ pushFileKeys content, readStaticFile world (Join [sfs.rootDir, key]) ≠ none ∧
        allowListPasses sfs (Join [sfs.rootDir, key]) = true) ∧
      (∀ P po, res.pushContent P = some po → sfs.pushContent P = some po ∨
        ∃ ppath files, (ppath, files) ∈ content ∧ Clean ppath = P ∧ po.path = P ∧
          po.pushFiles = files.map (fun file => Join [urlPathPrefix, Clean file])) ∧
      (∀ ppath files, (ppath, files) ∈ content → res.pushContent (Clean ppath) ≠ none) := by
  induction content with
  | nil =>
    intro sfs res h
    simp only [addPushContent, Except.ok.injEq] at h
    subst h
    refine ⟨rfl, by simp [pushFileKeys], fun P po hpo => Or.inl hpo, by simp⟩
  | cons entry more ih =>
    intro sfs res h
    obtain ⟨ppath, files⟩ := entry
    unfold addPushContent at h
    cases hfiles : addPushFiles urlPathPrefix world files sfs [] with
    | error e => rw [hfiles] at h; simp at h
    | ok pr =>
      obtain ⟨sfs1, pushFiles⟩ := pr
      rw [hfiles] at h
      simp only at h
      obtain ⟨a1, a2, a3⟩ := addPushFiles_stores urlPathPrefix world files sfs [] _ hfiles
      obtain ⟨c1, _, c3, _⟩ := addPushFiles_inv urlPathPrefix world files sfs [] _ hfiles
      obtain ⟨i1, i2, i3, i4⟩ := ih _ _ h
      simp only at a1 a2 a3 c1 c3 i1 i2 i3 i4
      have hroot : sfs1.rootDir = sfs.rootDir := c1.1
      refine ⟨?_, ?_, ?_, ?_⟩
      · rw [i1, hroot, a1]
        simp only [pushFileKeys, List.flatMap_cons]
        rw [foldl_storeFile_append]
      · intro key hkey
        simp only [pushFileKeys, List.flatMap_cons, List.mem_append] at hkey
        rcases hkey with hkey | hkey
        · exact a3 key hkey
        · have := i2 key hkey
          rw [hroot] at this
          refine ⟨this.1, ?_⟩
          have h2 := this.2
          rw [← sameConfig_allowListPasses c1]
          exact h2
      · intro P po hpo
        rcases i3 P po hpo with hprev | ⟨pp, fs, hmem, hP, hpath, hfs⟩
        · simp only [mapSet, pushOptions.Key] at hprev
          split_ifs at hprev with hk
          · right
            simp only [Option.some.injEq] at hprev
            refine ⟨ppath, files, List.mem_cons_self _ _, hk.symm, ?_, ?_⟩
            · rw [← hprev]; exact hk.symm
            · rw [← hprev, a2]; rfl
          · left; rw [← c3]; exact hprev
        · exact Or.inr ⟨pp, fs, List.mem_cons_of_mem _ hmem, hP, hpath, hfs⟩
      · intro pp fs hmem
        rcases List.mem_cons.mp hmem with heq | hmem
        · simp only [Prod.mk.injEq] at heq
          rw [heq.1]
          by_contra hnone
          have hz : ∀ (content : List (GoString × List GoString)) (s r : staticFileServer),
              addPushContent urlPathPrefix world content s = .ok r →
              ∀ P, s.pushContent P ≠ none → r.pushContent P ≠ none := by
            intro content
            induction content with
            | nil =>
              intro s r hh P hP
              simp only [addPushContent, Except.ok.injEq] at hh
              subst hh; exact hP
            | cons e m ihm =>
              intro s r hh P hP
              obtain ⟨p1, f1⟩ := e
              unfold addPushContent at hh
              cases hf1 : addPushFiles urlPathPrefix world f1 s [] with
              | error e => rw [hf1] at hh; simp at hh
              | ok pr1 =>
                obtain ⟨s1, pf1⟩ := pr1
                rw [hf1] at hh
                simp only at hh
                apply ihm _ _ hh P
                obtain ⟨_, _, d3, _⟩ := addPushFiles_inv urlPathPrefix world f1 s [] _ hf1
                simp only at d3
                simp only [mapSet]
                split_ifs
                · simp
                · rw [d3]; exact hP
          exact hz more _ res h (Clean ppath) (by simp [mapSet, pushOptions.Key]) hnone
        · exact i4 pp fs hmem

/-- What `NewHandler` leaves in the file cache and in the push rules. -/
theorem NewHandler_push (opt : ServerOptions) (root : Except OSError DirTree) (world : World)
    (sfs : staticFileServer) (h : NewHandler opt root world = .ok sfs) :
    sfs.files = (pushFileKeys opt.PushContent).foldl (storeFile sfs.rootDir world)
      (fun _ => none) ∧
    (∀ key ∈ pushFileKeys opt.PushContent,
      readStaticFile world (Join [sfs.rootDir, key]) ≠ none ∧
      allowListPasses sfs (Join [sfs.rootDir, key]) = true) ∧
    (∀ P po, sfs.pushContent P = some po →
      ∃ ppath files, (ppath, files) ∈ opt.PushContent ∧ Clean ppath = P ∧ po.path = P ∧
        po.pushFiles = files.map (fun file => Join [pushPrefix opt, Clean file])) ∧
    (∀ ppath files, (ppath, files) ∈ opt.PushContent → sfs.pushContent (Clean ppath) ≠ none) ∧
    sfs.pushSupport = decide (opt.PushContent.length > 0) := by
  unfold NewHandler at h
  simp only at h
  split at h
  · simp at h
  · split at h
    · rename_i hsupp
      obtain ⟨a1, a2, a3, a4⟩ := addPushContent_stores _ _ _ _ _ h
      obtain ⟨c1, _, _⟩ := addPushContent_inv _ _ _ _ _ h
      simp only at a1 a2 a3 a4
      have hroot := c1.1
      simp only at hroot
      refine ⟨?_, ?_, ?_, a4, ?_⟩
      · rw [a1, hroot]
      · intro key hkey
        have := a2 key hkey
        rw [hroot]
        refine ⟨this.1, ?_⟩
        rw [sameConfig_allowListPasses c1]
        exact this.2
      · intro P po hpo
        rcases a3 P po hpo with h0 | h1
        · cases h0
        · exact h1
      · exact c1.2.2.2.2.2.1
    · rename_i hsupp
      simp only [Except.ok.injEq] at h
      subst h
      have hnil : opt.PushContent = [] := by
        simp only [decide_eq_true_eq, not_lt, Nat.le_zero, List.length_eq_zero] at hsupp
        exact hsupp
      rw [hnil]
      refine ⟨rfl, by simp [pushFileKeys], ?_, by simp, rfl⟩
      intro P po hpo
      cases hpo

/-- C13 (counterexample): `NewHandler` succeeds on the configuration of
`serverpush_test.go`, which declares `/css/app.css` under two triggers, and
its loops call `addStaticFile` for the key `/css/app.css` twice; the second
call stores again over the entry the first one stored (with the bytes the
file has at that moment, here changed in between). -/
theorem entry_stored_twice :
    NewHandler pushTestOptions (.ok testTree) testWorld = .ok pushServer ∧
    (pushFileKeys pushTestOptions.PushContent).count "/css/app.css".toList = 2 ∧
    ((addStaticFile testServer testWorld "/css/app.css".toList).2.1.files
        "/css/app.css".toList).map staticFile.data = some "body {}".toList ∧
    (addStaticFile (addStaticFile testServer testWorld "/css/app.css".toList).2.1
        { testWorld with ReadFile := fun _ => .ok "p {}".toList } "/css/app.css".toList).1 = none ∧
    ((addStaticFile (addStaticFile testServer testWorld "/css/app.css".toList).2.1
        { testWorld with ReadFile := fun _ => .ok "p {}".toList } "/css/app.css".toList).2.1.files
        "/css/app.css".toList).map staticFile.data = some "p {}".toList :=
  ⟨pushServer_new, by decide, by decide, by decide, by decide⟩

/-- C13 (amended): over any sequence of requests an entry of the file cache is
never overwritten or replaced: once `files` holds an entry for a key, every
later lookup returns that same entry, and a request stores only under a key
that holds no entry.  During construction `NewHandler` stores once per file
declared in `PushContent`, in order, a later store under the same key
replacing the earlier one. -/
theorem entry_kept_by_requests (opt : ServerOptions) (root : Except OSError DirTree)
    (world0 : World) (sfs0 : staticFileServer) (hnew : NewHandler opt root world0 = .ok sfs0) :
    sfs0.files = (pushFileKeys opt.PushContent).foldl (storeFile sfs0.rootDir world0)
      (fun _ => none) ∧
    (∀ (reqs more : List (World × Request)) (key : GoString) (sf : staticFile),
      (serveAll sfs0 reqs).files key = some sf →
      (serveAll (serveAll sfs0 reqs) more).files key = some sf ∧
      getStaticFile (serveAll (serveAll sfs0 reqs) more) key = some sf) ∧
    (∀ (reqs : List (World × Request)) (world : World) (r : Request) (key : GoString),
      (ServeHTTP (serveAll sfs0 reqs) world r).sfs.files key ≠ (serveAll sfs0 reqs).files key →
      (serveAll sfs0 reqs).files key = none) := by
  refine ⟨(NewHandler_push opt root world0 sfs0 hnew).1, ?_, ?_⟩
  · intro reqs more key sf h
    exact ⟨serveAll_files_some _ more key sf h, serveAll_files_some _ more key sf h⟩
  · intro reqs world r key hne
    cases hf : (serveAll sfs0 reqs).files key with
    | none => rfl
    | some sf =>
      exact absurd ((ServeHTTP_files_some _ world r key sf hf).trans hf.symm) hne

/-- C13 (amended), at the push test server: the preloaded `/css/app.css` is
still the same entry after requests on a filesystem without the file. -/
theorem entry_kept_by_requests_witness :
    ((serveAll (serveAll pushServer []) [({ testWorld with
        ReadFile := fun _ => .error (.notExist []) }, ⟨MethodGet, "/css/app.css".toList⟩)]).files
      "/css/app.css".toList) =
      some { data := "body {}".toList,
             finfo := { Size := 7, ModTime := "Mon, 02 Jan 2006 15:04:05 GMT".toList },
             ctype := "text/css; charset=utf-8".toList } :=
  ((entry_kept_by_requests pushTestOptions (.ok testTree) testWorld pushServer pushServer_new).2.1
    [] [({ testWorld with ReadFile := fun _ => .error (.notExist []) },
      ⟨MethodGet, "/css/app.css".toList⟩)] "/css/app.css".toList _ (by decide)).1

/-! ## Errors of population, and the response headers -/

/-- C14: when populating the path fails with an error other than
file-not-exist (the directory is denied, or the read or the stat fails
otherwise), `ServeHTTP` answers with status 500 and leaves the server, so both
maps, exactly as it was; a later request for the path therefore runs
`addStaticFile` again. -/
theorem populate_error_not_cached (sfs : staticFileServer) (world : World) (r : Request)
    (hget : r.Method = MethodGet)
    (hf : sfs.files (cacheKey sfs r) = none) (hn : sfs.notFoundPaths (cacheKey sfs r) = none)
    (err : GoError) (herr : (addStaticFile sfs world (cacheKey sfs r)).1 = some err)
    (hne : IsNotExist err = false) :
    (ServeHTTP sfs world r).response = httpError err.Error 500 ∧
    (ServeHTTP sfs world r).response.status = 500 ∧
    (ServeHTTP sfs world r).sfs = sfs ∧
    (err = GoError.new "directory access not allowed".toList ∨ ∃ msg, err = .os (.other msg)) ∧
    ∀ world2 : World,
      ServeHTTP (ServeHTTP sfs world r).sfs world2 r = ServeHTTP sfs world2 r ∧
      ∃ rest, (ServeHTTP (ServeHTTP sfs world r).sfs world2 r).trace =
        (addStaticFile sfs world2 (cacheKey sfs r)).2.2 ++ rest := by
  have hmiss := ServeHTTP_miss sfs world r hget hf hn
  have hs : (addStaticFile sfs world (cacheKey sfs r)).2.1 = sfs := by
    rcases addStaticFile_sfs sfs world (cacheKey sfs r) with ⟨_, h⟩ | ⟨_, _, h, _⟩
    · exact h
    · rw [h] at herr; cases herr
  have hkind : err = GoError.new "directory access not allowed".toList ∨
      ∃ msg, err = .os (.other msg) := by
    cases hp : allowListPasses sfs (Join [sfs.rootDir, cacheKey sfs r]) with
    | false =>
      rw [addStaticFile_denied _ _ _ hp] at herr
      left; simp only [Option.some.injEq] at herr; exact herr.symm
    | true =>
      right
      cases hr : world.ReadFile (Join [sfs.rootDir, cacheKey sfs r]) with
      | error e =>
        rw [addStaticFile_readError _ _ _ e hp hr] at herr
        simp only [Option.some.injEq] at herr
        subst herr
        cases e with
        | notExist msg => simp [IsNotExist] at hne
        | other msg => exact ⟨msg, rfl⟩
      | ok bs =>
        cases hst : world.Stat (Join [sfs.rootDir, cacheKey sfs r]) with
        | error e =>
          rw [addStaticFile_statError _ _ _ bs e hp hr hst] at herr
          simp only [Option.some.injEq] at herr
          subst herr
          cases e with
          | notExist msg => simp [IsNotExist] at hne
          | other msg => exact ⟨msg, rfl⟩
        | ok finfo => rw [addStaticFile_ok _ _ _ bs finfo hp hr hst] at herr; cases herr
  have h0 : ServeHTTP sfs world r =
      { sfs := sfs, response := httpError err.Error 500,
        trace := (addStaticFile sfs world (cacheKey sfs r)).2.2 } := by
    rw [hmiss]
    rcases hadd : addStaticFile sfs world (cacheKey sfs r) with ⟨e, s1, evs⟩
    rw [hadd] at herr hs
    simp only at herr hs
    subst herr
    subst hs
    simp only [hne, Bool.false_eq_true, if_false]
  refine ⟨by rw [h0], by rw [h0]; rfl, by rw [h0], hkind, ?_⟩
  intro world2
  have hsfs : (ServeHTTP sfs world r).sfs = sfs := by rw [h0]
  rw [hsfs]
  refine ⟨rfl, ?_⟩
  rw [ServeHTTP_miss sfs world2 r hget hf hn]
  rcases addStaticFile sfs world2 (cacheKey sfs r) with ⟨e, s1, evs⟩
  cases e with
  | none => exact ⟨_, rfl⟩
  | some e2 =>
    simp only
    split_ifs
    · exact ⟨_, by simp only [pushAndServe, List.append_assoc]; rfl⟩
    · exact ⟨[], by simp⟩

/-- C14, at the test server: the empty request path makes `addStaticFile` read
`/srv/www` itself, which fails with "is a directory"; the answer is 500 and
nothing is cached. -/
theorem populate_error_not_cached_witness :
    (ServeHTTP testServer testWorld ⟨MethodGet, []⟩).response.status = 500 ∧
    (ServeHTTP testServer testWorld ⟨MethodGet, []⟩).sfs = testServer :=
  have h := populate_error_not_cached testServer testWorld ⟨MethodGet, []⟩
    rfl rfl rfl (.os (.other "is a directory".toList)) (by decide) rfl
  ⟨h.2.1, h.2.2.1⟩

/-- C15 (counterexample): at the test server the read of `/gone.txt` succeeds
and the stat then fails with a not-exist error (the file was removed in
between): `ServeHTTP` does not answer 500, it records the path in the
not-found set and hands the request to the not-found handler (status 404). -/
theorem stat_notExist_recorded :
    ({ testWorld with ReadFile := fun _ => .ok "data".toList,
                      Stat := fun _ => .error (.notExist "no such file".toList) } : World).ReadFile
      (fileOf testServer (cacheKey testServer ⟨MethodGet, "/gone.txt".toList⟩)) =
        .ok "data".toList ∧
    (ServeHTTP testServer
      { testWorld with ReadFile := fun _ => .ok "data".toList,
                       Stat := fun _ => .error (.notExist "no such file".toList) }
      ⟨MethodGet, "/gone.txt".toList⟩).response.status = 404 ∧
    (ServeHTTP testServer
      { testWorld with ReadFile := fun _ => .ok "data".toList,
                       Stat := fun _ => .error (.notExist "no such file".toList) }
      ⟨MethodGet, "/gone.txt".toList⟩).sfs.notFoundPaths "/gone.txt".toList = some 2 ∧
    (ServeHTTP testServer
      { testWorld with ReadFile := fun _ => .ok "data".toList,
                       Stat := fun _ => .error (.notExist "no such file".toList) }
      ⟨MethodGet, "/gone.txt".toList⟩).trace =
      [Event.allowCheck "/srv/www/gone.txt".toList, Event.readFile "/srv/www/gone.txt".toList,
       Event.stat "/srv/www/gone.txt".toList,
       Event.notFound ⟨MethodGet, "/gone.txt".toList⟩] :=
  ⟨rfl, by decide, by decide, by decide⟩

/-- C15 (amended): if reading the file's bytes succeeds and the stat then
fails with an error other than file-not-exist, `ServeHTTP` responds with
status 500 and the error's text, and the path is recorded in neither map; a
stat error that is a not-exist error is instead treated as a missing file: the
path is recorded in the not-found set and the not-found handler answers. -/
theorem stat_error_500 (sfs : staticFileServer) (world : World) (r : Request)
    (hget : r.Method = MethodGet)
    (hf : sfs.files (cacheKey sfs r) = none) (hn : sfs.notFoundPaths (cacheKey sfs r) = none)
    (hp : allowListPasses sfs (fileOf sfs (cacheKey sfs r)) = true)
    (bs : GoString) (hread : world.ReadFile (fileOf sfs (cacheKey sfs r)) = .ok bs)
    (e : OSError) (hstat : world.Stat (fileOf sfs (cacheKey sfs r)) = .error e) :
    (IsNotExist (.os e) = false →
      (ServeHTTP sfs world r).response = httpError (GoError.os e).Error 500 ∧
      (ServeHTTP sfs world r).response.status = 500 ∧
      (ServeHTTP sfs world r).sfs = sfs ∧
      (ServeHTTP sfs world r).sfs.notFoundPaths (cacheKey sfs r) = none) ∧
    (IsNotExist (.os e) = true →
      (ServeHTTP sfs world r).response = sfs.notFoundHandler (resolvePath sfs r).2 ∧
      (ServeHTTP sfs world r).sfs.notFoundPaths (cacheKey sfs r) = some 2) := by
  rw [ServeHTTP_miss _ _ _ hget hf hn, addStaticFile_statError _ _ _ bs e hp hread hstat]
  cases e with
  | notExist msg =>
    exact ⟨fun hne => Bool.noConfusion hne, fun _ => ⟨rfl, mapSet_self _ _ _⟩⟩
  | other msg =>
    exact ⟨fun _ => ⟨rfl, rfl, rfl, hn⟩, fun hne => Bool.noConfusion hne⟩

/-- C15 (amended), at the test server: a stat that fails with "permission
denied" after a successful read gives status 500. -/
theorem stat_error_500_witness :
    (ServeHTTP testServer
      { testWorld with ReadFile := fun _ => .ok "data".toList,
                       Stat := fun _ => .error (.other "permission denied".toList) }
      ⟨MethodGet, "/locked.txt".toList⟩).response.status = 500 :=
  ((stat_error_500 testServer
      { testWorld with ReadFile := fun _ => .ok "data".toList,
                       Stat := fun _ => .error (.other "permission denied".toList) }
      ⟨MethodGet, "/locked.txt".toList⟩ rfl rfl rfl (by decide) "data".toList rfl
      (.other "permission denied".toList) rfl).1 rfl).2.1

/-- C16 (the code at the failing input): the file holds 3 bytes when
`ioutil.ReadFile` reads it and 5 bytes when `os.Stat` looks at it afterwards;
the response has the 3 bytes as its body and `Content-Length: 5`, the size
from the file info, not the length of the body, on the populating request and
on every later hit. -/
theorem content_length_from_stat :
    (ServeHTTP pushServer
      { testWorld with ReadFile := fun _ => .ok "abc".toList,
                       Stat := fun _ => .ok { Size := 5, ModTime := [] } }
      ⟨MethodGet, "/grow.log".toList⟩).response.status = 200 ∧
    (ServeHTTP pushServer
      { testWorld with ReadFile := fun _ => .ok "abc".toList,
                       Stat := fun _ => .ok { Size := 5, ModTime := [] } }
      ⟨MethodGet, "/grow.log".toList⟩).response.body = "abc".toList ∧
    (ServeHTTP pushServer
      { testWorld with ReadFile := fun _ => .ok "abc".toList,
                       Stat := fun _ => .ok { Size := 5, ModTime := [] } }
      ⟨MethodGet, "/grow.log".toList⟩).response.headers.lookup "Content-Length".toList =
        some "5".toList ∧
    (ServeHTTP (ServeHTTP pushServer
      { testWorld with ReadFile := fun _ => .ok "abc".toList,
                       Stat := fun _ => .ok { Size := 5, ModTime := [] } }
      ⟨MethodGet, "/grow.log".toList⟩).sfs testWorld ⟨MethodGet, "/grow.log".toList⟩).trace = [] ∧
    (ServeHTTP (ServeHTTP pushServer
      { testWorld with ReadFile := fun _ => .ok "abc".toList,
                       Stat := fun _ => .ok { Size := 5, ModTime := [] } }
      ⟨MethodGet, "/grow.log".toList⟩).sfs testWorld
      ⟨MethodGet, "/grow.log".toList⟩).response.body = "abc".toList ∧
    (ServeHTTP (ServeHTTP pushServer
      { testWorld with ReadFile := fun _ => .ok "abc".toList,
                       Stat := fun _ => .ok { Size := 5, ModTime := [] } }
      ⟨MethodGet, "/grow.log".toList⟩).sfs testWorld
      ⟨MethodGet, "/grow.log".toList⟩).response.headers.lookup "Content-Length".toList =
        some "5".toList ∧
    FormatInt ("abc".toList.length) = "3".toList := by
  decide

/-- C17: whenever `addStaticFile` stores an entry, its content type is the
MIME type by the extension of the filesystem path when that is non-empty and
otherwise the type sniffed from the bytes read; every response that serves an
entry, on the populating request or on a hit, carries exactly the stored
content type as its `Content-Type` header. -/
theorem content_type_rule (sfs : staticFileServer) (world : World) (path : GoString)
    (h : (addStaticFile sfs world path).1 = none) :
    (∃ bs finfo, world.ReadFile (Join [sfs.rootDir, path]) = .ok bs ∧
      world.Stat (Join [sfs.rootDir, path]) = .ok finfo ∧
      (addStaticFile sfs world path).2.1.files path =
        some { data := bs, finfo := finfo,
               ctype := if world.TypeByExtension (Ext (Join [sfs.rootDir, path])) = []
                 then world.DetectContentType bs
                 else world.TypeByExtension (Ext (Join [sfs.rootDir, path])) }) ∧
    (∀ (r : Request), r.Method = MethodGet → cacheKey sfs r = path →
      sfs.files path = none → sfs.notFoundPaths path = none →
      ((ServeHTTP sfs world r).sfs.files path).map staticFile.ctype =
        (ServeHTTP sfs world r).response.headers.lookup "Content-Type".toList) ∧
    (∀ (s : staticFileServer) (w : World) (r : Request) (sf : staticFile),
      r.Method = MethodGet → s.files (cacheKey s r) = some sf →
      (ServeHTTP s w r).response.headers.lookup "Content-Type".toList = some sf.ctype) := by
  obtain ⟨hp, sf, hread, hs1⟩ := addStaticFile_none sfs world path h
  refine ⟨?_, ?_, ?_⟩
  · cases hr : world.ReadFile (Join [sfs.rootDir, path]) with
    | error err => rw [addStaticFile_readError _ _ _ err hp hr] at h; cases h
    | ok bs =>
      cases hs : world.Stat (Join [sfs.rootDir, path]) with
      | error err => rw [addStaticFile_statError _ _ _ bs err hp hr hs] at h; cases h
      | ok finfo =>
        refine ⟨bs, finfo, rfl, rfl, ?_⟩
        rw [addStaticFile_ok _ _ _ bs finfo hp hr hs]
        exact mapSet_self _ _ _
  · intro r hget hkey hf hn
    subst hkey
    rw [ServeHTTP_miss _ _ _ hget hf hn]
    rcases hadd : addStaticFile sfs world (cacheKey sfs r) with ⟨e, s1, evs⟩
    rw [hadd] at h hs1
    simp only at h hs1
    subst h
    subst hs1
    simp only
    rw [writeResponse_some _ _ sf (mapSet_self _ _ _)]
    simp [mapSet, List.lookup]
  · intro s w r sf0 hget hf
    rw [ServeHTTP_hit _ _ _ hget sf0 hf, writeResponse_some _ _ sf0 hf]
    simp [List.lookup]

/-- C17, at the push test server: `/js/app.js` is stored and served as
`application/javascript`, the type of its extension. -/
theorem content_type_rule_witness :
    (ServeHTTP pushServer testWorld ⟨MethodGet, "/js/app.js".toList⟩).response.headers.lookup
      "Content-Type".toList = some "application/javascript".toList :=
  ((content_type_rule pushServer testWorld "/js/app.js".toList (by decide)).2.2
    pushServer testWorld ⟨MethodGet, "/js/app.js".toList⟩
    { data := "main()".toList,
      finfo := { Size := 6, ModTime := "Mon, 02 Jan 2006 15:04:05 GMT".toList },
      ctype := "application/javascript".toList } rfl (by decide))

/-! ## Server push -/

/-- C18 (the code at the failing input): with the one push rule `/` and index
`index.html`, the rule is stored under the key `/`, but a GET for `/` on a
writer that supports push is served under the key `index.html` and
`serverPush` looks the rule up under that key: the response is 200 and
nothing is pushed.  The same happens with the configuration of
`serverpush_test.go`, where only a GET for `/index.html` pushes. -/
theorem slash_rule_not_pushed :
    NewHandler slashRuleOptions (.ok testTree) testWorld = .ok slashRuleServer ∧
    (slashRuleServer.pushContent "/".toList).map pushOptions.pushFiles =
      some ["/css/app.css".toList] ∧
    pushWorld.Pusher.isSome = true ∧
    cacheKey slashRuleServer ⟨MethodGet, "/".toList⟩ = "index.html".toList ∧
    (ServeHTTP slashRuleServer pushWorld ⟨MethodGet, "/".toList⟩).response.status = 200 ∧
    (ServeHTTP slashRuleServer pushWorld ⟨MethodGet, "/".toList⟩).trace =
      [Event.readFile "/srv/www/index.html".toList, Event.stat "/srv/www/index.html".toList] ∧
    (ServeHTTP pushServer pushWorld ⟨MethodGet, "/".toList⟩).trace =
      [Event.readFile "/srv/www/index.html".toList, Event.stat "/srv/www/index.html".toList] ∧
    (ServeHTTP pushServer pushWorld ⟨MethodGet, "/index.html".toList⟩).trace =
      [Event.readFile "/srv/www/index.html".toList, Event.stat "/srv/www/index.html".toList,
       Event.push "/css/app.css".toList, Event.push "/js/app.js".toList] :=
  ⟨slashRuleServer_new, by decide, by decide, by decide, by decide, by decide, by decide,
    by decide⟩

theorem serverPush_eq_calls (sfs : staticFileServer) (world : World) (fpath : GoString) :
    serverPush sfs world fpath =
      (serverPushCalls sfs world fpath).map (fun call => Event.push call.1) := by
  unfold serverPush serverPushCalls
  split_ifs
  · rfl
  · cases world.Pusher with
    | none => rfl
    | some p =>
      cases sfs.pushContent fpath with
      | none => rfl
      | some po => simp [List.map_map, Function.comp_def]

theorem ServeHTTP_pushContent (sfs : staticFileServer) (world : World) (r : Request) :
    (ServeHTTP sfs world r).sfs.pushContent = sfs.pushContent := by
  rcases ServeHTTP_sfs sfs world r with h | ⟨_, _, _, _, sf, h⟩ | ⟨_, _, _, _, h⟩ <;> rw [h]

theorem serveAll_pushContent (sfs : staticFileServer) (reqs : List (World × Request)) :
    (serveAll sfs reqs).pushContent = sfs.pushContent := by
  induction reqs generalizing sfs with
  | nil => rfl
  | cons a more ih =>
    obtain ⟨world, r⟩ := a
    exact (ih _).trans (ServeHTTP_pushContent sfs world r)

/-- C19: in every state reached from `NewHandler`, when the response writer
supports push and a rule is stored for the path, `serverPush` offers exactly
the rule's targets, each once and in order, with the options `Method: GET`,
`pushed-from: api`; the rule comes from a declared trigger that cleans to the
path and its targets are the declared files, cleaned and joined to the
normalised prefix, in declaration order.  When no push content was configured,
the writer is no pusher or the path has no rule, nothing is pushed. -/
theorem push_targets (opt : ServerOptions) (root : Except OSError DirTree) (world0 : World)
    (sfs0 : staticFileServer) (hnew : NewHandler opt root world0 = .ok sfs0)
    (reqs : List (World × Request)) (world : World) (P : GoString) :
    (∀ po push, world.Pusher = some push → (serveAll sfs0 reqs).pushContent P = some po →
      serverPush (serveAll sfs0 reqs) world P = po.pushFiles.map Event.push ∧
      serverPushCalls (serveAll sfs0 reqs) world P =
        po.pushFiles.map (fun target => (target, serverPushOptions)) ∧
      serverPushOptions.Method = MethodGet ∧
      serverPushOptions.Header = [("pushed-from".toList, ["api".toList])] ∧
      ∃ ppath files, (ppath, files) ∈ opt.PushContent ∧ Clean ppath = P ∧
        po.pushFiles = files.map (fun file => Join [pushPrefix opt, Clean file])) ∧
    ((opt.PushContent = [] ∨ world.Pusher = none ∨ (serveAll sfs0 reqs).pushContent P = none) →
      serverPush (serveAll sfs0 reqs) world P = [] ∧
      serverPushCalls (serveAll sfs0 reqs) world P = []) := by
  obtain ⟨_, _, h3, _, h5⟩ := NewHandler_push opt root world0 sfs0 hnew
  have hc := serveAll_sameConfig sfs0 reqs
  have hpc := serveAll_pushContent sfs0 reqs
  have hsup : (serveAll sfs0 reqs).pushSupport = decide (opt.PushContent.length > 0) :=
    hc.2.2.2.2.2.1.trans h5
  constructor
  · intro po push hpush hpo
    have hex := h3 P po (hpc ▸ hpo)
    obtain ⟨ppath, files, hmem, hP, _, hfiles⟩ := hex
    have hpos : opt.PushContent.length > 0 := List.length_pos_of_mem hmem
    have hs : (serveAll sfs0 reqs).pushSupport = true := by
      rw [hsup]; exact decide_eq_true hpos
    have hcalls : serverPushCalls (serveAll sfs0 reqs) world P =
        po.pushFiles.map (fun target => (target, serverPushOptions)) := by
      unfold serverPushCalls
      rw [hs, hpush, hpo]
      rfl
    refine ⟨?_, hcalls, rfl, rfl, ppath, files, hmem, hP, hfiles⟩
    rw [serverPush_eq_calls, hcalls, List.map_map]
    rfl
  · intro hnone
    have hcalls : serverPushCalls (serveAll sfs0 reqs) world P = [] := by
      unfold serverPushCalls
      rcases hnone with h | h | h
      · rw [hsup, h]; rfl
      · rw [h]; split_ifs <;> rfl
      · rw [h]
        split_ifs
        · rfl
        · cases world.Pusher <;> rfl
    refine ⟨?_, hcalls⟩
    rw [serverPush_eq_calls, hcalls]
    rfl

/-- C19, at the push test server: on a writer that supports push the rule of
`/index.html` offers `/css/app.css` and then `/js/app.js`. -/
theorem push_targets_witness :
    serverPush (serveAll pushServer []) pushWorld "/index.html".toList =
      [Event.push "/css/app.css".toList, Event.push "/js/app.js".toList] :=
  ((push_targets pushTestOptions (.ok testTree) testWorld pushServer pushServer_new []
    pushWorld "/index.html".toList).1
    { path := "/index.html".toList, strict := true,
      pushFiles := ["/css/app.css".toList, "/js/app.js".toList] }
    (fun _ => none) rfl (by decide)).1

theorem serverPush_filter_notPush (sfs : staticFileServer) (world : World) (fpath : GoString) :
    (serverPush sfs world fpath).filter Event.notPush = [] := by
  apply List.filter_eq_nil_iff.mpr
  intro e he
  have := serverPush_isPush sfs world fpath e he
  simp [Event.notPush, this]

theorem addStaticFile_pusher (sfs : staticFileServer) (world : World)
    (push : Option (GoString → Option GoError)) (path : GoString) :
    addStaticFile sfs { world with Pusher := push } path = addStaticFile sfs world path := rfl

theorem ServeHTTP_pusher (sfs : staticFileServer) (world : World)
    (push : Option (GoString → Option GoError)) (r : Request) :
    (ServeHTTP sfs { world with Pusher := push } r).response = (ServeHTTP sfs world r).response ∧
    (ServeHTTP sfs { world with Pusher := push } r).sfs = (ServeHTTP sfs world r).sfs ∧
    (ServeHTTP sfs { world with Pusher := push } r).trace.filter Event.notPush =
      (ServeHTTP sfs world r).trace.filter Event.notPush := by
  by_cases hget : r.Method = MethodGet
  swap
  · rw [ServeHTTP_notGet _ _ _ hget, ServeHTTP_notGet _ _ _ hget]
    exact ⟨rfl, rfl, rfl⟩
  cases hf : sfs.files (cacheKey sfs r) with
  | some sf =>
    rw [ServeHTTP_hit _ _ _ hget sf hf, ServeHTTP_hit _ _ _ hget sf hf]
    refine ⟨rfl, rfl, ?_⟩
    simp only [serverPush_filter_notPush]
  | none =>
    cases hn : sfs.notFoundPaths (cacheKey sfs r) with
    | some v =>
      rw [ServeHTTP_known _ _ _ hget hf v hn, ServeHTTP_known _ _ _ hget hf v hn]
      refine ⟨rfl, rfl, ?_⟩
      simp only [pushAndServe, List.filter_append, serverPush_filter_notPush]
    | none =>
      rw [ServeHTTP_miss _ _ _ hget hf hn, ServeHTTP_miss _ _ _ hget hf hn, addStaticFile_pusher]
      rcases addStaticFile sfs world (cacheKey sfs r) with ⟨e, s1, evs⟩
      cases e with
      | none =>
        refine ⟨rfl, rfl, ?_⟩
        simp only [List.filter_append, serverPush_filter_notPush]
      | some err =>
        simp only
        split_ifs
        · refine ⟨rfl, rfl, ?_⟩
          simp only [pushAndServe, List.filter_append, serverPush_filter_notPush]
        · exact ⟨rfl, rfl, rfl⟩

/-- C20: the response `ServeHTTP` writes, the server it leaves and every
effect other than the pushes themselves are the same for any two runs that
differ only in the writer's push capability and in which `Push` calls fail
(`none`: no pusher; otherwise the error each call returns). -/
theorem push_outcome_irrelevant (sfs : staticFileServer) (world : World) (r : Request)
    (push1 push2 : Option (GoString → Option GoError)) :
    (ServeHTTP sfs { world with Pusher := push1 } r).response =
      (ServeHTTP sfs { world with Pusher := push2 } r).response ∧
    (ServeHTTP sfs { world with Pusher := push1 } r).sfs =
      (ServeHTTP sfs { world with Pusher := push2 } r).sfs ∧
    (ServeHTTP sfs { world with Pusher := push1 } r).trace.filter Event.notPush =
      (ServeHTTP sfs { world with Pusher := push2 } r).trace.filter Event.notPush := by
  obtain ⟨a1, a2, a3⟩ := ServeHTTP_pusher sfs world push1 r
  obtain ⟨b1, b2, b3⟩ := ServeHTTP_pusher sfs world push2 r
  exact ⟨a1.trans b1.symm, a2.trans b2.symm, a3.trans b3.symm⟩

theorem siblingServer_new :
    NewHandler siblingOptions (.ok siblingTree) siblingWorld = .ok siblingServer := by
  rfl

theorem relativePushServer_new :
    NewHandler relativePushOptions (.ok testTree) testWorld = .ok relativePushServer := by
  rfl

/-! ## The allow-list: which directories it covers, when it is in force -/

theorem allowListPasses_eq_true (sfs : staticFileServer) (filePath : GoString) :
    allowListPasses sfs filePath = true ↔
      (sfs.allowAll = true ∨ Dir filePath ∉ sfs.staticDirs ∨
        ∃ d ∈ sfs.allowedDirs, HasPrefix filePath d = true) := by
  unfold allowListPasses
  by_cases h1 : sfs.allowAll = false
  · by_cases h2 : Dir filePath ∈ sfs.staticDirs
    · simp [h1, h2]
    · simp [h1, h2]
  · simp at h1
    simp [h1]

/-- C27 (the code at the failing input): with `css` allowed and the tracked
directories `css` and `css-private`, the file `/css-private/secret.css` has a
tracked parent that is neither the allowed directory nor below it, yet
`addStaticFile` admits it, because the string `/srv/www/css` is a prefix of
the string `/srv/www/css-private/secret.css`; the file is served with 200. -/
theorem sibling_directory_admitted :
    NewHandler siblingOptions (.ok siblingTree) siblingWorld = .ok siblingServer ∧
    siblingServer.allowAll = false ∧
    siblingServer.allowedDirs = ["/srv/www/css".toList] ∧
    Dir (fileOf siblingServer "/css-private/secret.css".toList) = "/srv/www/css-private".toList ∧
    "/srv/www/css-private".toList ∈ siblingServer.staticDirs ∧
    liesInside "/srv/www/css".toList "/srv/www/css-private".toList = false ∧
    HasPrefix (fileOf siblingServer "/css-private/secret.css".toList) "/srv/www/css".toList
      = true ∧
    (addStaticFile siblingServer siblingWorld "/css-private/secret.css".toList).1 = none ∧
    (ServeHTTP siblingServer siblingWorld
      ⟨MethodGet, "/css-private/secret.css".toList⟩).response.status = 200 ∧
    (ServeHTTP siblingServer siblingWorld
      ⟨MethodGet, "/css-private/secret.css".toList⟩).response.body = "secret".toList :=
  ⟨siblingServer_new, by decide, by decide, by decide, by decide, by decide, by decide,
    by decide, by decide, by decide⟩

/-- C28 (counterexample): with `RootDir: "."`, `Index: "index.html"` and the
non-empty `AllowedDirs: ["index.html"]`, the only entry joined to the root is
the index path, `NewHandler` skips it, and `allowAll` is true. -/
theorem allowAll_with_allowedDirs :
    indexAllowedOptions.AllowedDirs ≠ [] ∧
    (NewHandler indexAllowedOptions (.ok testTree) testWorld).toOption.map
      staticFileServer.allowAll = some true ∧
    (NewHandler indexAllowedOptions (.ok testTree) testWorld).toOption.map
      staticFileServer.allowedDirs = some [] := by
  decide

/-- C28 (amended): `allowAll` is true if and only if every entry of
`AllowedDirs`, joined to the cleaned root, equals the cleaned index path (which
`NewHandler` skips), in particular when `AllowedDirs` is empty; whenever some
entry joined to the root differs from the index path the allow-list is in force. -/
theorem allowAll_iff (opt : ServerOptions) (root : Except OSError DirTree) (world : World)
    (sfs : staticFileServer) (hnew : NewHandler opt root world = .ok sfs) :
    (sfs.allowAll = true ↔ ∀ d ∈ opt.AllowedDirs, Join [sfs.rootDir, d] = sfs.indexPage) ∧
    (opt.AllowedDirs = [] → sfs.allowAll = true) ∧
    ((∃ d ∈ opt.AllowedDirs, Join [sfs.rootDir, d] ≠ sfs.indexPage) → sfs.allowAll = false) := by
  obtain ⟨_, _, h3, h4, _⟩ := NewHandler_ok opt root world sfs hnew
  have hiff : sfs.allowAll = true ↔
      ∀ d ∈ opt.AllowedDirs, Join [sfs.rootDir, d] = sfs.indexPage := by
    rw [h4, h3]
    simp only [beq_iff_eq, List.length_eq_zero, List.filter_eq_nil_iff, List.mem_map,
      decide_eq_true_eq, forall_exists_index, and_imp, forall_apply_eq_imp_iff₂, ne_eq,
      not_not]
  refine ⟨hiff, ?_, ?_⟩
  · intro hnil
    apply hiff.mpr
    intro d hd
    rw [hnil] at hd
    cases hd
  · rintro ⟨d, hd, hne⟩
    cases hall : sfs.allowAll with
    | false => rfl
    | true => exact absurd (hiff.mp hall d hd) hne

/-- C28 (amended), at the test configuration: `css` and `img` differ from the
index path, so the allow-list is in force. -/
theorem allowAll_iff_witness : testServer.allowAll = false :=
  (allowAll_iff testOptions (.ok testTree) testWorld testServer testServer_new).2.2
    ⟨"css".toList, by decide, by decide⟩

/-- C29: in every state reached from `NewHandler` by any sequence of requests,
every key of the file cache, the preloaded push files included, passed the
allow-list check: `allowAll` holds, or the parent of the joined path is not a
tracked directory, or some allowed directory is a prefix of the joined path;
so every response served from the cache is for a key the check admits. -/
theorem cached_keys_admitted (opt : ServerOptions) (root : Except OSError DirTree)
    (world0 : World) (sfs0 : staticFileServer) (hnew : NewHandler opt root world0 = .ok sfs0)
    (reqs : List (World × Request)) :
    (∀ key, (serveAll sfs0 reqs).files key ≠ none →
      (sfs0.allowAll = true ∨ Dir (Join [sfs0.rootDir, key]) ∉ sfs0.staticDirs ∨
        ∃ d ∈ sfs0.allowedDirs, HasPrefix (Join [sfs0.rootDir, key]) d = true)) ∧
    (∀ (world : World) (r : Request) (sf : staticFile), r.Method = MethodGet →
      (serveAll sfs0 reqs).files (cacheKey (serveAll sfs0 reqs) r) = some sf →
      (ServeHTTP (serveAll sfs0 reqs) world r).response.body = sf.data ∧
      allowListPasses sfs0 (fileOf sfs0 (cacheKey sfs0 r)) = true) := by
  have hadm : Admitted (serveAll sfs0 reqs) :=
    serveAll_admitted sfs0 reqs (NewHandler_ok opt root world0 sfs0 hnew).2.2.2.2.2.2.2.2
  have hc := serveAll_sameConfig sfs0 reqs
  have hpass : ∀ key, (serveAll sfs0 reqs).files key ≠ none →
      allowListPasses sfs0 (fileOf sfs0 key) = true := by
    intro key hkey
    have := hadm key (Or.inl hkey)
    rw [sameConfig_allowListPasses hc, sameConfig_fileOf hc] at this
    exact this
  constructor
  · intro key hkey
    exact (allowListPasses_eq_true sfs0 _).mp (hpass key hkey)
  · intro world r sf hget hf
    refine ⟨?_, ?_⟩
    · rw [ServeHTTP_hit _ _ _ hget sf hf, writeResponse_some _ _ sf hf]
    · have := hpass _ (by rw [hf]; simp)
      rw [sameConfig_cacheKey hc] at this
      exact this

/-- C29, at the test server after a request for the allowed `/css/app.css`. -/
theorem cached_keys_admitted_witness :
    testServer.allowAll = true ∨
      Dir (Join [testServer.rootDir, "/css/app.css".toList]) ∉ testServer.staticDirs ∨
      ∃ d ∈ testServer.allowedDirs,
        HasPrefix (Join [testServer.rootDir, "/css/app.css".toList]) d = true :=
  (cached_keys_admitted testOptions (.ok testTree) testWorld testServer testServer_new
    [(testWorld, ⟨MethodGet, "/css/app.css".toList⟩)]).1 "/css/app.css".toList (by decide)

/-! ## The shape of cache keys -/

theorem CleanForm.rooted_second {out : GoString} {dd : Nat} (h : CleanForm true out dd) :
    ∃ rest, out = '/' :: rest ∧ rest.head? ≠ some '/' := by
  induction h with
  | init => exact ⟨[], rfl, by simp⟩
  | dots out h0 _ _ => cases h0
  | name out dd n hprev hn ih =>
    obtain ⟨rest, hout, hrest⟩ := ih
    subst hout
    cases rest with
    | nil =>
      have ha : addSlash true ['/'] = ['/'] := by simp [addSlash]
      rw [ha]
      exact ⟨n, rfl, hn.head_ne⟩
    | cons c t =>
      have ha : addSlash true ('/' :: c :: t) = '/' :: c :: t ++ ['/'] := by simp [addSlash]
      rw [ha]
      exact ⟨c :: (t ++ '/' :: n), by simp, by simpa using hrest⟩

/-- The cleaned form of a path that begins with `/` begins with exactly one
`/` and is a fixed point of `path.Clean`. -/
theorem Clean_rooted (path : GoString) (h : HasPrefix path ['/'] = true) :
    ∃ rest, Clean path = '/' :: rest ∧ rest.head? ≠ some '/' := by
  have hhead := HasPrefix_slash path h
  have hne : path ≠ [] := by
    intro h0; rw [h0] at hhead; cases hhead
  obtain ⟨out, dd, hform, he⟩ := Clean_form path hne
  have hr : (path.head? == some '/') = true := by rw [hhead]; rfl
  rw [hr] at hform
  obtain ⟨rest, hout, hrest⟩ := hform.rooted_second
  refine ⟨rest, ?_, hrest⟩
  rw [he, pathOf_of_ne_nil (by rw [hout]; simp), hout]

/-- A request path that begins with `/` and does not clean to `/` resolves to
its cleaned form. -/
theorem cacheKey_rooted (sfs : staticFileServer) (r : Request)
    (hrooted : HasPrefix r.Path ['/'] = true) (hne : Clean r.Path ≠ ['/']) :
    cacheKey sfs r = Clean r.Path := by
  obtain ⟨rest, hc, _⟩ := Clean_rooted r.Path hrooted
  have hpre : HasPrefix (Clean r.Path) ['/'] = true := by
    rw [hc]; simp [HasPrefix]
  unfold cacheKey resolvePath
  simp only [hpre, Bool.true_eq_false, if_false]
  rw [if_neg]
  intro h
  rcases h with h | h
  · exact hne h
  · rw [hc] at h; cases h

/-- C22 (counterexample): with `Index: "index.html"` the request path `/`
resolves to the cache key `index.html`, which does not begin with `/`. -/
theorem index_key_not_rooted :
    NewHandler testOptions (.ok testTree) testWorld = .ok testServer ∧
    cacheKey testServer ⟨MethodGet, "/".toList⟩ = "index.html".toList ∧
    HasPrefix (cacheKey testServer ⟨MethodGet, "/".toList⟩) ['/'] = false :=
  ⟨testServer_new, by decide, by decide⟩

/-- C22 (amended): a request path that begins with `/` and does not clean to
`/` resolves to its cleaned form, a key that begins with exactly one `/` and
is a fixed point of `path.Clean`; a request path `/` resolves to the index
path, which for a server built by `NewHandler` is a fixed point of
`path.Clean` as well (it begins with `/` only if the configured index does). -/
theorem rooted_key_clean (opt : ServerOptions) (root : Except OSError DirTree) (world0 : World)
    (sfs : staticFileServer) (hnew : NewHandler opt root world0 = .ok sfs) (r : Request)
    (hrooted : HasPrefix r.Path ['/'] = true) :
    (Clean r.Path ≠ ['/'] →
      cacheKey sfs r = Clean r.Path ∧
      Clean (cacheKey sfs r) = cacheKey sfs r ∧
      ∃ rest, cacheKey sfs r = '/' :: rest ∧ rest.head? ≠ some '/') ∧
    (Clean r.Path = ['/'] → cacheKey sfs r = sfs.indexPage) ∧
    Clean sfs.indexPage = sfs.indexPage := by
  obtain ⟨rest, hc, hrest⟩ := Clean_rooted r.Path hrooted
  refine ⟨?_, ?_, ?_⟩
  · intro hne
    have hkey : cacheKey sfs r = Clean r.Path := cacheKey_rooted sfs r hrooted hne
    refine ⟨hkey, ?_, ?_⟩
    · rw [hkey]; exact Clean_idem _
    · rw [hkey]; exact ⟨rest, hc, hrest⟩
  · intro heq
    unfold cacheKey resolvePath
    simp only [heq]
    rfl
  · rw [(NewHandler_ok opt root world0 sfs hnew).2.1]
    exact Clean_idem _

/-- C22 (amended), at the test server: `/css//./x/../app.css` resolves to
`/css/app.css`. -/
theorem rooted_key_clean_witness :
    cacheKey testServer ⟨MethodGet, "/css//./x/../app.css".toList⟩ = "/css/app.css".toList :=
  ((rooted_key_clean testOptions (.ok testTree) testWorld testServer testServer_new
    ⟨MethodGet, "/css//./x/../app.css".toList⟩ (by decide)).1 (by decide)).1.trans (by decide)

/-! ## The preloaded push files -/

theorem storeFile_keep (rootDir : GoString) (world : World)
    (files : GoString → Option staticFile) (key k : GoString) (h : files k ≠ none) :
    storeFile rootDir world files key k ≠ none := by
  unfold storeFile
  cases readStaticFile world (Join [rootDir, key]) with
  | none => exact h
  | some sf =>
    simp only [mapSet]
    split_ifs
    · simp
    · exact h

theorem foldl_storeFile_keep (rootDir : GoString) (world : World) (keys : List GoString) :
    ∀ (files : GoString → Option staticFile) (k : GoString), files k ≠ none →
      (keys.foldl (storeFile rootDir world) files) k ≠ none := by
  induction keys with
  | nil => intro files k h; exact h
  | cons key more ih =>
    intro files k h
    exact ih _ k (storeFile_keep rootDir world files key k h)

theorem foldl_storeFile_mem (rootDir : GoString) (world : World) (keys : List GoString) :
    ∀ (files : GoString → Option staticFile),
      (∀ k ∈ keys, readStaticFile world (Join [rootDir, k]) ≠ none) →
      ∀ k ∈ keys, (keys.foldl (storeFile rootDir world) files) k ≠ none := by
  induction keys with
  | nil => intro files _ k hk; cases hk
  | cons key more ih =>
    intro files hread k hk
    simp only [List.foldl_cons]
    by_cases hmem : k ∈ more
    · exact ih _ (fun k hk => hread k (List.mem_cons_of_mem _ hk)) k hmem
    · have hkk : k = key := by
        rcases List.mem_cons.mp hk with h | h
        · exact h
        · exact absurd h hmem
      apply foldl_storeFile_keep
      unfold storeFile
      cases hr : readStaticFile world (Join [rootDir, key]) with
      | none => exact absurd hr (hread key (List.mem_cons_self _ _))
      | some sf => rw [hkk]; simp [mapSet]

theorem addPushFiles_error (urlPathPrefix : GoString) (world : World) (files : List GoString) :
    ∀ (sfs : staticFileServer) (pushFiles : List GoString) (e : GoError),
      addPushFiles urlPathPrefix world files sfs pushFiles = .error e →
      ∃ s key, key ∈ files.map (fun file => Clean (Clean file)) ∧ sameConfig s sfs ∧
        (addStaticFile s world key).1 = some e := by
  induction files with
  | nil => intro sfs pushFiles e h; simp [addPushFiles] at h
  | cons file files ih =>
    intro sfs pushFiles e h
    unfold addPushFiles at h
    dsimp only at h
    have hinv := addStaticFile_inv sfs world (Clean (Clean file))
    rcases hadd : addStaticFile sfs world (Clean (Clean file)) with ⟨err, sfs1, evs⟩
    rw [hadd] at h hinv
    cases err with
    | some e1 =>
      simp only [Except.error.injEq] at h
      subst h
      exact ⟨sfs, _, List.mem_cons_self _ _, sameConfig_refl _, by rw [hadd]⟩
    | none =>
      simp only at h hinv
      obtain ⟨s, key, hkey, hc, herr⟩ := ih _ _ _ h
      exact ⟨s, key, List.mem_cons_of_mem _ hkey, sameConfig_trans hc hinv.1, herr⟩

theorem addPushContent_error (urlPathPrefix : GoString) (world : World)
    (content : List (GoString × List GoString)) :
    ∀ (sfs : staticFileServer) (e : GoError),
      addPushContent urlPathPrefix world content sfs = .error e →
      ∃ s key, key ∈ pushFileKeys content ∧ sameConfig s sfs ∧
        (addStaticFile s world key).1 = some e := by
  induction content with
  | nil => intro sfs e h; simp [addPushContent] at h
  | cons entry more ih =>
    intro sfs e h
    obtain ⟨ppath, files⟩ := entry
    unfold addPushContent at h
    cases hfiles : addPushFiles urlPathPrefix world files sfs [] with
    | error e1 =>
      rw [hfiles] at h
      simp only [Except.error.injEq] at h
      subst h
      obtain ⟨s, key, hkey, hc, herr⟩ := addPushFiles_error _ _ _ _ _ _ hfiles
      refine ⟨s, key, ?_, hc, herr⟩
      simp only [pushFileKeys, List.flatMap_cons, List.mem_append]
      exact Or.inl hkey
    | ok pr =>
      obtain ⟨sfs1, pushFiles⟩ := pr
      rw [hfiles] at h
      simp only at h
      obtain ⟨c1, _, _, _⟩ := addPushFiles_inv urlPathPrefix world files sfs [] _ hfiles
      obtain ⟨s, key, hkey, hc, herr⟩ := ih _ _ h
      refine ⟨s, key, ?_, sameConfig_trans hc c1, herr⟩
      simp only [pushFileKeys, List.flatMap_cons, List.mem_append]
      exact Or.inr hkey

theorem readDir_error (tree : DirTree) :
    ∀ (dir : GoString) (acc : List GoString) (e : GoError), readDir dir tree acc = .error e →
      ∃ cause, e = GoError.wrap cause "failed to read directory".toList := by
  induction tree with
  | done => intro dir acc e h; simp [readDir] at h
  | file name rest ih => intro dir acc e h; simp only [readDir] at h; exact ih _ _ _ h
  | dir name sub rest ihsub ihrest =>
    intro dir acc e h
    simp only [readDir] at h
    cases hsub : readDir (Join [dir, name]) sub (Join [dir, name] :: acc) with
    | error e1 =>
      rw [hsub] at h
      simp only [Except.error.injEq] at h
      subst h
      exact ihsub _ _ _ hsub
    | ok res => rw [hsub] at h; exact ihrest _ _ _ h
  | badDir name err rest _ =>
    intro dir acc e h
    simp only [readDir, Except.error.injEq] at h
    exact ⟨_, h.symm⟩

/-- C21 (counterexample): `NewHandler` succeeds on a push content that
declares the asset as `css/app.css`; the asset is cached under the key
`css/app.css`, while a GET for `/css/app.css` (or for `css/app.css`) resolves
to the key `/css/app.css`, which is not cached: the request is no hit, it
reads the filesystem. -/
theorem relative_asset_not_hit :
    NewHandler relativePushOptions (.ok testTree) testWorld = .ok relativePushServer ∧
    (relativePushServer.files "css/app.css".toList).isSome = true ∧
    cacheKey relativePushServer ⟨MethodGet, "/css/app.css".toList⟩ = "/css/app.css".toList ∧
    cacheKey relativePushServer ⟨MethodGet, "css/app.css".toList⟩ = "/css/app.css".toList ∧
    relativePushServer.files "/css/app.css".toList = none ∧
    (ServeHTTP relativePushServer testWorld ⟨MethodGet, "/css/app.css".toList⟩).trace =
      [Event.readFile "/srv/www/css/app.css".toList, Event.stat "/srv/www/css/app.css".toList] :=
  ⟨relativePushServer_new, by decide, by decide, by decide, by decide, by decide⟩

/-! ## The legacy handler and the static handler -/

theorem upgrade_addStaticFile (old : Legacy.staticFileServer) (world : World) (path : GoString) :
    addStaticFile (Legacy.upgrade old) world path =
      ((Legacy.addStaticFile old world path).1,
       Legacy.upgrade (Legacy.addStaticFile old world path).2.1,
       (Legacy.addStaticFile old world path).2.2) := by
  unfold addStaticFile Legacy.addStaticFile allowListPasses
  simp only [Legacy.upgrade]
  cases world.ReadFile (Join [old.rootDir, path]) with
  | error err => rfl
  | ok bs =>
    cases world.Stat (Join [old.rootDir, path]) with
    | error err => rfl
    | ok finfo => rfl

theorem upgrade_serverPush (old : Legacy.staticFileServer) (world : World) (fpath : GoString) :
    serverPush (Legacy.upgrade old) world fpath = Legacy.serverPush old world fpath := rfl

theorem upgrade_writeResponse (old : Legacy.staticFileServer) (name : GoString) :
    writeResponse (Legacy.upgrade old) name = Legacy.writeResponse old name := rfl

theorem upgrade_resolvePath (old : Legacy.staticFileServer) (r : Request) :
    resolvePath (Legacy.upgrade old) r = Legacy.resolvePath r := rfl

theorem upgrade_addNotFoundPath (old : Legacy.staticFileServer) (fpath : GoString) :
    addNotFoundPath (Legacy.upgrade old) fpath = Legacy.upgrade (Legacy.addNotFoundPath old fpath) :=
  rfl

/-- One call of the legacy `ServeHTTP` and one call of `ServeHTTP` on the
upgraded server give the same response and effects and leave servers with the
same fields. -/
theorem upgrade_ServeHTTP (old : Legacy.staticFileServer) (world : World) (r : Request) :
    (ServeHTTP (Legacy.upgrade old) world r).sfs =
      Legacy.upgrade (Legacy.ServeHTTP old world r).sfs ∧
    (ServeHTTP (Legacy.upgrade old) world r).response = (Legacy.ServeHTTP old world r).response ∧
    (ServeHTTP (Legacy.upgrade old) world r).trace = (Legacy.ServeHTTP old world r).trace := by
  unfold ServeHTTP Legacy.ServeHTTP
  by_cases hm : r.Method ≠ MethodGet
  · rw [if_pos hm, if_pos hm]
    exact ⟨rfl, rfl, rfl⟩
  · rw [if_neg hm, if_neg hm]
    simp only [upgrade_resolvePath]
    rcases hres : Legacy.resolvePath r with ⟨fpath, r1⟩
    simp only [getStaticFile, Legacy.getStaticFile]
    have hfiles : (Legacy.upgrade old).files fpath = old.files fpath := rfl
    rw [hfiles]
    cases hf : old.files fpath with
    | some sf => exact ⟨rfl, rfl, rfl⟩
    | none =>
      simp only
      have hnf : (Legacy.upgrade old).notFoundPaths fpath = old.notFoundPaths fpath := rfl
      rw [hnf]
      cases hn : old.notFoundPaths fpath with
      | some v => exact ⟨rfl, rfl, rfl⟩
      | none =>
        simp only
        rw [upgrade_addStaticFile]
        rcases hadd : Legacy.addStaticFile old world fpath with ⟨err, old1, evs⟩
        cases err with
        | none => exact ⟨rfl, rfl, rfl⟩
        | some e =>
          simp only
          by_cases hne : IsNotExist e = true
          · rw [if_pos hne, if_pos hne]
            exact ⟨rfl, rfl, rfl⟩
          · rw [if_neg hne, if_neg hne]
            exact ⟨rfl, rfl, rfl⟩

theorem upgrade_serveAll (reqs : List (World × Request)) :
    ∀ old : Legacy.staticFileServer,
      serveAll (Legacy.upgrade old) reqs = Legacy.upgrade (Legacy.serveAll old reqs) := by
  induction reqs with
  | nil => intro old; rfl
  | cons wr more ih =>
    intro old
    obtain ⟨world, r⟩ := wr
    simp only [serveAll, Legacy.serveAll]
    rw [(upgrade_ServeHTTP old world r).1]
    exact ih _

theorem upgrade_addPushFiles (urlPathPrefix : GoString) (world : World) (files : List GoString) :
    ∀ (old : Legacy.staticFileServer) (pushFiles : List GoString),
      addPushFiles urlPathPrefix world files (Legacy.upgrade old) pushFiles =
        (Legacy.addPushFiles urlPathPrefix world files old pushFiles).map
          (fun p => (Legacy.upgrade p.1, p.2)) := by
  induction files with
  | nil => intro old pushFiles; rfl
  | cons file files ih =>
    intro old pushFiles
    unfold addPushFiles Legacy.addPushFiles
    simp only
    rw [upgrade_addStaticFile]
    rcases hadd : Legacy.addStaticFile old world (Clean (Clean file)) with ⟨err, old1, evs⟩
    cases err with
    | some e => rfl
    | none => exact ih _ _

theorem upgrade_addPushContent (urlPathPrefix : GoString) (world : World)
    (content : List (GoString × List GoString)) :
    ∀ old : Legacy.staticFileServer,
      addPushContent urlPathPrefix world content (Legacy.upgrade old) =
        (Legacy.addPushContent urlPathPrefix world content old).map Legacy.upgrade := by
  induction content with
  | nil => intro old; rfl
  | cons entry more ih =>
    intro old
    obtain ⟨ppath, files⟩ := entry
    unfold addPushContent Legacy.addPushContent
    rw [upgrade_addPushFiles]
    cases hfiles : Legacy.addPushFiles urlPathPrefix world files old [] with
    | error e => rfl
    | ok pr =>
      obtain ⟨old1, pushFiles⟩ := pr
      exact ih ⟨_, _, _, _, _, _⟩

/-- With `Index: "/index.html"` and no `AllowedDirs`, `NewHandler` returns the
error of the legacy `NewHandler`, or the upgrade of the server it returns. -/
theorem upgrade_NewHandler (rootDir URLPathPrefix : GoString) (notFoundHandler : Option Handler)
    (pushContent : List (GoString × List GoString)) (root : Except OSError DirTree)
    (world : World) :
    NewHandler (Legacy.options rootDir URLPathPrefix notFoundHandler pushContent) root world =
      (Legacy.NewHandler rootDir URLPathPrefix notFoundHandler pushContent world).map
        Legacy.upgrade := by
  have hidx : Clean (if "/index.html".toList = [] then "./index.html".toList
      else "/index.html".toList) = "/index.html".toList := by decide
  unfold NewHandler Legacy.NewHandler
  simp only [Legacy.options, hidx, List.map_nil, List.filter_nil, List.length_nil, beq_self_eq_true,
    Bool.true_eq_false, if_false]
  by_cases hp : pushContent.length > 0
  · simp only [hp, decide_True, if_true]
    exact upgrade_addPushContent _ _ _ ⟨_, _, _, _, _, _⟩
  · simp only [hp, decide_False, Bool.false_eq_true, if_false]
    rfl

/-- C30: for every root directory, URL path prefix, not-found handler, push
content and filesystem, the legacy `NewHandler` and the `NewHandler` of package
`static` with `Index: "/index.html"` and no `AllowedDirs` fail with the same
error or both return a server; and after every sequence of requests, every
further request gets the same response from both, with the same effects in
the same order (file reads and offered pushes), and leaves both with the same
file cache and the same not-found set. -/
theorem legacy_equivalent (rootDir URLPathPrefix : GoString) (notFoundHandler : Option Handler)
    (pushContent : List (GoString × List GoString)) (root : Except OSError DirTree)
    (world0 : World) :
    match Legacy.NewHandler rootDir URLPathPrefix notFoundHandler pushContent world0,
      NewHandler (Legacy.options rootDir URLPathPrefix notFoundHandler pushContent) root world0
    with
    | .error e1, .error e2 => e1 = e2
    | .ok old, .ok sfs =>
      ∀ (reqs : List (World × Request)) (world : World) (r : Request),
        (Legacy.serveAll old reqs).files = (serveAll sfs reqs).files ∧
        (Legacy.serveAll old reqs).notFoundPaths = (serveAll sfs reqs).notFoundPaths ∧
        (Legacy.ServeHTTP (Legacy.serveAll old reqs) world r).response =
          (ServeHTTP (serveAll sfs reqs) world r).response ∧
        (Legacy.ServeHTTP (Legacy.serveAll old reqs) world r).trace =
          (ServeHTTP (serveAll sfs reqs) world r).trace ∧
        (Legacy.ServeHTTP (Legacy.serveAll old reqs) world r).sfs.files =
          (ServeHTTP (serveAll sfs reqs) world r).sfs.files ∧
        (Legacy.ServeHTTP (Legacy.serveAll old reqs) world r).sfs.notFoundPaths =
          (ServeHTTP (serveAll sfs reqs) world r).sfs.notFoundPaths
    | _, _ => False := by
  rw [upgrade_NewHandler]
  cases Legacy.NewHandler rootDir URLPathPrefix notFoundHandler pushContent world0 with
  | error e => rfl
  | ok old =>
    intro reqs world r
    show _ ∧ _ ∧ _ ∧ _ ∧ _ ∧ _
    rw [upgrade_serveAll]
    obtain ⟨h1, h2, h3⟩ := upgrade_ServeHTTP (Legacy.serveAll old reqs) world r
    rw [h1, h2, h3]
    exact ⟨rfl, rfl, rfl, rfl, rfl, rfl⟩

/-! ## The size setters and the storage key -/

theorem hexString_length (s : GoString) : (hexString s).length = 2 * s.length := by
  induction s with
  | nil => rfl
  | cons c t ih =>
    have h : hexString (c :: t) =
        hexDigit (c.toNat / 16 % 16) :: hexDigit (c.toNat % 16) :: hexString t := rfl
    rw [h, List.length_cons, List.length_cons, List.length_cons, ih]
    omega

theorem requestKey_length (path : GoString) :
    (requestKey path).2.length = 2 * (requestKey path).1.length + 64 := by
  simp only [requestKey, hexString_length, hashSum, List.length_append, List.length_map]
  have h : sha256Empty.length = 32 := rfl
  rw [h]
  omega

theorem requestKey_rooted (path : GoString) : 1 ≤ (requestKey path).1.length := by
  simp only [requestKey]
  by_cases h : HasPrefix (Clean path) ['/'] = false
  · rw [if_pos h]; simp
  · rw [if_neg h]
    cases hc : Clean path with
    | nil => rw [hc] at h; exact absurd rfl h
    | cons c t => simp

/-- C24: after `SetMaxUploadSize(10 * 1024 * 1024)`, the call of the test
suite, the limit of `filehandler` is still the initial 8 MiB and the handler
`New` builds afterwards has `maxUploadSize` 8 MiB; likewise
`SetMaxFileUploadSize` and `SetMaxRedisFileSize` of `dbstorage` leave 8 MiB and
50 KiB in place.  The setters store nothing for any size that is not negative,
and store a negative size. -/
theorem setters_keep_old_limit :
    (FileHandler.SetMaxUploadSize FileHandler.Package.init (10 * 1024 * 1024)).maxUploadSize =
      8 * 1024 * 1024 ∧
    suitePackage.maxUploadSize = 8 * 1024 * 1024 ∧
    FileHandler.New suitePackage fileOptions "0000".toList (fun _ => none) =
      .ok (fileServer, suitePackage) ∧
    fileServer.maxUploadSize = 8 * 1024 * 1024 ∧
    (DBStorage.SetMaxFileUploadSize DBStorage.Package.init (10 * 1024 * 1024)).maxUploadSize =
      8 * 1024 * 1024 ∧
    (DBStorage.SetMaxRedisFileSize DBStorage.Package.init (100 * 1024)).maxRedisFileSize =
      50 * 1024 ∧
    DBStorage.NewFileHandler
        (DBStorage.SetMaxFileUploadSize DBStorage.Package.init (10 * 1024 * 1024)) true true =
      .ok ({ redisCaching := true, maxUploadSize := 8 * 1024 * 1024 }, DBStorage.Package.init) ∧
    (∀ (pkg : FileHandler.Package) (n : Nat), FileHandler.SetMaxUploadSize pkg n = pkg) ∧
    (∀ (pkg : DBStorage.Package) (n : Nat),
      DBStorage.SetMaxFileUploadSize pkg n = pkg ∧ DBStorage.SetMaxRedisFileSize pkg n = pkg) ∧
    (FileHandler.SetMaxUploadSize FileHandler.Package.init (-1)).maxUploadSize = -1 := by
  refine ⟨by decide, by decide, rfl, by decide, by decide, by decide, rfl, ?_, ?_, by decide⟩
  · intro pkg n
    unfold FileHandler.SetMaxUploadSize
    rw [if_neg (by omega)]
  · intro pkg n
    unfold DBStorage.SetMaxFileUploadSize DBStorage.SetMaxRedisFileSize
    rw [if_neg (by omega), if_neg (by omega)]
    exact ⟨rfl, rfl⟩

set_option maxRecDepth 8000 in
/-- C26: for the URL path `/a` the key is the 68 characters `2f61e3b0…b855`:
the hexadecimal form of the path bytes `/a` followed by the SHA-256 digest of
the empty input, and `getFile` reads the file of that name.  For every request
path the key has twice the length of the cleaned path plus 64 characters,
never 64. -/
theorem key_is_path_and_empty_digest :
    (requestKey "/a".toList).2 =
      "2f61e3b0c44298fc1c149afbf4c8996fb92427ae41e4649b934ca495991b7852b855".toList ∧
    (requestKey "/a".toList).2.length = 68 ∧
    (FileHandler.ServeHTTP fileServer suitePackage workingWorld
        { Method := "GET".toList, Path := "/a".toList, Query := fun _ => [] }).trace =
      [FileHandler.Effect.readFile ("/srv/files/uploads/".toList ++ (requestKey "/a".toList).2),
       FileHandler.Effect.stat ("/srv/files/uploads/".toList ++ (requestKey "/a".toList).2)] ∧
    (∀ path, (requestKey path).2.length = 2 * (requestKey path).1.length + 64) ∧
    (∀ path, (requestKey path).2.length ≠ 64) := by
  refine ⟨by decide, by decide, rfl, requestKey_length, ?_⟩
  intro path
  have h1 := requestKey_length path
  have h2 := requestKey_rooted path
  omega

/-! ## The directory check of package `filehandler` -/

theorem FileHandler.rewritePath_Query (r : FileHandler.Request) :
    (FileHandler.rewritePath r).Query = r.Query := by
  unfold FileHandler.rewritePath
  split_ifs <;> rfl

theorem FileHandler.rewritePath_Method (r : FileHandler.Request) :
    (FileHandler.rewritePath r).Method = r.Method := by
  unfold FileHandler.rewritePath
  split_ifs <;> rfl

theorem FileHandler.isDirAllowed_iff (fsh : FileHandler.fsHandler) (dir : GoString) :
    FileHandler.isDirAllowed fsh dir = true ↔ dir ∈ fsh.allowedDirs := by
  unfold FileHandler.isDirAllowed
  rw [List.any_eq_true]
  constructor
  · rintro ⟨d, hd, he⟩
    rw [beq_iff_eq] at he
    exact he ▸ hd
  · intro h
    exact ⟨dir, h, by simp⟩

/-- The allowed directories of a handler built by `New`: the default directory
joined to the root, then the cleaned `AllowedDirs`. -/
theorem FileHandler.New_allowedDirs (pkg0 pkg1 : FileHandler.Package)
    (opt : FileHandler.ServerOptions) (uuid : GoString) (create : GoString → Option OSError)
    (fsh : FileHandler.fsHandler) (h : FileHandler.New pkg0 opt uuid create = .ok (fsh, pkg1)) :
    fsh.allowedDirs =
      Join [Clean (if opt.RootDir = [] then ['.'] else opt.RootDir), pkg0.defaultDir] ::
        opt.AllowedDirs.map Clean := by
  unfold FileHandler.New at h
  simp only at h
  split at h
  · cases h
  · simp only [Except.ok.injEq, Prod.mk.injEq] at h
    rw [← h.1]

theorem FileHandler.rollBack_quiet (fsh : FileHandler.fsHandler) :
    ∀ e ∈ FileHandler.rollBack fsh, e.touchesFile = false := by
  intro e he
  unfold FileHandler.rollBack at he
  split_ifs at he
  · simp only [List.mem_singleton] at he
    rw [he]; rfl
  · cases he

theorem FileHandler.getFile_denied (fsh : FileHandler.fsHandler) (pkg : FileHandler.Package)
    (world : FileHandler.World) (r : FileHandler.Request) (key : GoString)
    (hdir : r.Query pkg.urlQueryKeyDirectory ≠ [])
    (hnot : FileHandler.isDirAllowed fsh (Clean (r.Query pkg.urlQueryKeyDirectory)) = false) :
    FileHandler.getFile fsh pkg world r key =
      { response := some (httpError "NOT_ALLOWED_ACESS_TO_DIRECTORY".toList 400), trace := [] } := by
  unfold FileHandler.getFile
  simp only
  rw [if_pos ⟨hdir, hnot⟩]

theorem FileHandler.saveToDir_denied (fsh : FileHandler.fsHandler) (pkg : FileHandler.Package)
    (world : FileHandler.World) (r : FileHandler.Request) (key bs : GoString)
    (before : List FileHandler.Effect)
    (hdir : r.Query pkg.urlQueryKeyDirectory ≠ [])
    (hnot : FileHandler.isDirAllowed fsh (Clean (r.Query pkg.urlQueryKeyDirectory)) = false) :
    FileHandler.saveToDir fsh pkg world r key bs before =
      { response := some (httpError "NOT_ALLOWED_ACESS_TO_DIRECTORY".toList 400),
        trace := before ++ FileHandler.rollBack fsh } := by
  unfold FileHandler.saveToDir
  simp only
  rw [if_pos ⟨hdir, hnot⟩]

theorem FileHandler.deleteFromDir_denied (fsh : FileHandler.fsHandler)
    (pkg : FileHandler.Package) (world : FileHandler.World) (r : FileHandler.Request)
    (key : GoString) (before : List FileHandler.Effect)
    (hdir : r.Query pkg.urlQueryKeyDirectory ≠ [])
    (hnot : FileHandler.isDirAllowed fsh (Clean (r.Query pkg.urlQueryKeyDirectory)) = false) :
    FileHandler.deleteFromDir fsh pkg world r key before =
      { response := some (httpError "NOT_ALLOWED_DIRECTORY".toList 400),
        trace := before ++ FileHandler.rollBack fsh } := by
  unfold FileHandler.deleteFromDir
  simp only
  rw [if_pos ⟨hdir, hnot⟩]

/-- What `saveFile` does with a request for a directory that is not allowed:
no effect on a file, a response only with status 400 or 500, and status 400
from the directory check when every earlier step succeeds. -/
theorem FileHandler.saveFile_denied (fsh : FileHandler.fsHandler) (pkg : FileHandler.Package)
    (world : FileHandler.World) (r : FileHandler.Request) (key : GoString)
    (hdir : r.Query pkg.urlQueryKeyDirectory ≠ [])
    (hnot : FileHandler.isDirAllowed fsh (Clean (r.Query pkg.urlQueryKeyDirectory)) = false) :
    (∀ e ∈ (FileHandler.saveFile fsh pkg world r key).trace, e.touchesFile = false) ∧
    (∀ resp, (FileHandler.saveFile fsh pkg world r key).response = some resp →
      resp.status = 400 ∨ resp.status = 500) ∧
    (∀ file bs, world.ParseMultipartForm fsh.maxUploadSize = none →
      world.FormFile pkg.urlQueryKeyFormFile = .ok file → file.content = .ok bs →
      (file.Filename ≠ [] ∨
        ∃ ending more, world.ExtensionsByType (world.DetectContentType bs) = .ok (ending :: more)) →
      (fsh.useDB = true → world.Begin = none ∧ world.Save key = none) →
      (FileHandler.saveFile fsh pkg world r key).response =
        some (httpError "NOT_ALLOWED_ACESS_TO_DIRECTORY".toList 400)) := by
  have hquiet : ∀ before : List FileHandler.Effect, (∀ e ∈ before, e.touchesFile = false) →
      ∀ e ∈ before ++ FileHandler.rollBack fsh, e.touchesFile = false := by
    intro before hb e he
    rcases List.mem_append.mp he with h | h
    · exact hb e h
    · exact FileHandler.rollBack_quiet fsh e h
  refine ⟨?_, ?_, ?_⟩
  · unfold FileHandler.saveFile
    cases world.ParseMultipartForm fsh.maxUploadSize with
    | some err => intro e he; cases he
    | none =>
      simp only
      cases world.FormFile pkg.urlQueryKeyFormFile with
      | error err => intro e he; cases he
      | ok file =>
        simp only
        cases file.content with
        | error err => intro e he; cases he
        | ok bs =>
          simp only
          split
          · intro e he; cases he
          · intro e he; cases he
          · by_cases hdb : fsh.useDB = true
            · rw [if_pos hdb]
              cases world.Begin with
              | some err =>
                intro e he
                simp only [List.mem_singleton] at he
                rw [he]; rfl
              | none =>
                simp only
                cases world.Save key with
                | some err =>
                  intro e he
                  simp only [List.mem_cons, List.mem_singleton, List.not_mem_nil, or_false] at he
                  rcases he with h | h | h <;> (rw [h]; rfl)
                | none =>
                  simp only
                  rw [FileHandler.saveToDir_denied fsh pkg world r key bs _ hdir hnot]
                  apply hquiet
                  intro e he
                  simp only [List.mem_cons, List.mem_singleton, List.not_mem_nil, or_false] at he
                  rcases he with h | h <;> (rw [h]; rfl)
            · rw [if_neg hdb]
              rw [FileHandler.saveToDir_denied fsh pkg world r key bs _ hdir hnot]
              apply hquiet
              intro e he; cases he
  · unfold FileHandler.saveFile
    cases world.ParseMultipartForm fsh.maxUploadSize with
    | some err => intro resp h; simp only [Option.some.injEq] at h; rw [← h]; left; rfl
    | none =>
      simp only
      cases world.FormFile pkg.urlQueryKeyFormFile with
      | error err => intro resp h; simp only [Option.some.injEq] at h; rw [← h]; left; rfl
      | ok file =>
        simp only
        cases file.content with
        | error err => intro resp h; simp only [Option.some.injEq] at h; rw [← h]; left; rfl
        | ok bs =>
          simp only
          split
          · intro resp h; cases h
          · intro resp h; simp only [Option.some.injEq] at h; rw [← h]; right; rfl
          · by_cases hdb : fsh.useDB = true
            · rw [if_pos hdb]
              cases world.Begin with
              | some err =>
                intro resp h; simp only [Option.some.injEq] at h; rw [← h]; right; rfl
              | none =>
                simp only
                cases world.Save key with
                | some err =>
                  intro resp h; simp only [Option.some.injEq] at h; rw [← h]; right; rfl
                | none =>
                  simp only
                  rw [FileHandler.saveToDir_denied fsh pkg world r key bs _ hdir hnot]
                  intro resp h; simp only [Option.some.injEq] at h; rw [← h]; left; rfl
            · rw [if_neg hdb]
              rw [FileHandler.saveToDir_denied fsh pkg world r key bs _ hdir hnot]
              intro resp h; simp only [Option.some.injEq] at h; rw [← h]; left; rfl
  · intro file bs hparse hform hread hname hdbok
    unfold FileHandler.saveFile
    rw [hparse]
    simp only
    rw [hform]
    simp only
    rw [hread]
    simp only
    have hfile : ∃ name, (if file.Filename ≠ [] then some (Except.ok file.Filename)
        else match world.ExtensionsByType (world.DetectContentType bs) with
          | .error _ => some (.error (GoError.new "CANT_READ_FILE_EXT_TYPE".toList))
          | .ok [] => none
          | .ok (ending :: _) => some (.ok (world.uuid ++ ending))) =
        (some (Except.ok name) : Option (Except GoError GoString)) := by
      by_cases hf : file.Filename ≠ []
      · exact ⟨file.Filename, by rw [if_pos hf]⟩
      · rcases hname with h | ⟨ending, more, h⟩
        · exact absurd h hf
        · exact ⟨world.uuid ++ ending, by rw [if_neg hf, h]⟩
    obtain ⟨name, hfile⟩ := hfile
    rw [hfile]
    simp only
    by_cases hdb : fsh.useDB = true
    · rw [if_pos hdb, (hdbok hdb).1]
      simp only
      rw [(hdbok hdb).2]
      simp only
      rw [FileHandler.saveToDir_denied fsh pkg world r key bs _ hdir hnot]
    · rw [if_neg hdb]
      rw [FileHandler.saveToDir_denied fsh pkg world r key bs _ hdir hnot]

/-- What `deleteFile` does with a request for a directory that is not
allowed. -/
theorem FileHandler.deleteFile_denied (fsh : FileHandler.fsHandler)
    (pkg : FileHandler.Package) (world : FileHandler.World) (r : FileHandler.Request)
    (key : GoString)
    (hdir : r.Query pkg.urlQueryKeyDirectory ≠ [])
    (hnot : FileHandler.isDirAllowed fsh (Clean (r.Query pkg.urlQueryKeyDirectory)) = false) :
    (∀ e ∈ (FileHandler.deleteFile fsh pkg world r key).trace, e.touchesFile = false) ∧
    (∀ resp, (FileHandler.deleteFile fsh pkg world r key).response = some resp →
      resp.status = 400 ∨ resp.status = 500) ∧
    ((fsh.useDB = true →
        world.Begin = none ∧ world.Delete key (r.Query pkg.urlQueryKeyOwnerID) = none) →
      (FileHandler.deleteFile fsh pkg world r key).response =
        some (httpError "NOT_ALLOWED_DIRECTORY".toList 400)) := by
  have hquiet : ∀ before : List FileHandler.Effect, (∀ e ∈ before, e.touchesFile = false) →
      ∀ e ∈ before ++ FileHandler.rollBack fsh, e.touchesFile = false := by
    intro before hb e he
    rcases List.mem_append.mp he with h | h
    · exact hb e h
    · exact FileHandler.rollBack_quiet fsh e h
  unfold FileHandler.deleteFile
  simp only
  by_cases hdb : fsh.useDB = true
  · rw [if_pos hdb]
    cases hbegin : world.Begin with
    | some err =>
      refine ⟨?_, ?_, ?_⟩
      · intro e he
        simp only [List.mem_singleton] at he
        rw [he]; rfl
      · intro resp h; simp only [Option.some.injEq] at h; rw [← h]; right; rfl
      · intro hok
        exact absurd (hok hdb).1 (by simp)
    | none =>
      simp only
      cases hdel : world.Delete key (r.Query pkg.urlQueryKeyOwnerID) with
      | some err =>
        refine ⟨?_, ?_, ?_⟩
        · intro e he
          simp only [List.mem_cons, List.mem_singleton, List.not_mem_nil, or_false] at he
          rcases he with h | h | h <;> (rw [h]; rfl)
        · intro resp h; simp only [Option.some.injEq] at h; rw [← h]; right; rfl
        · intro hok
          exact absurd (hok hdb).2 (by simp)
      | none =>
        simp only
        rw [FileHandler.deleteFromDir_denied fsh pkg world r key _ hdir hnot]
        refine ⟨?_, ?_, fun _ => rfl⟩
        · apply hquiet
          intro e he
          simp only [List.mem_cons, List.mem_singleton, List.not_mem_nil, or_false] at he
          rcases he with h | h <;> (rw [h]; rfl)
        · intro resp h; simp only [Option.some.injEq] at h; rw [← h]; left; rfl
  · rw [if_neg hdb]
    rw [FileHandler.deleteFromDir_denied fsh pkg world r key _ hdir hnot]
    refine ⟨?_, ?_, fun _ => rfl⟩
    · apply hquiet
      intro e he; cases he
    · intro resp h; simp only [Option.some.injEq] at h; rw [← h]; left; rfl

/-- C25 (counterexample): the handler `New` builds from the options of the
test suite gets a DELETE request whose directory `/etc` is not allowed, while
the row deletion of the database transaction fails: the response has status
500, not 400. -/
theorem denied_dir_delete_500 :
    FileHandler.New suitePackage fileOptions "0000".toList (fun _ => none) =
      .ok (fileServer, suitePackage) ∧
    (etcRequest "DELETE".toList).Query suitePackage.urlQueryKeyDirectory = "/etc".toList ∧
    FileHandler.isDirAllowed fileServer (Clean "/etc".toList) = false ∧
    FileHandler.ServeHTTP fileServer suitePackage failingDeleteWorld (etcRequest "DELETE".toList) =
      { response := some (httpError "TX_DELETE_FILE_FAILED: connection lost".toList 500),
        trace := [FileHandler.Effect.begin,
                  FileHandler.Effect.dbDelete (requestKey "/image1".toList).2 [],
                  FileHandler.Effect.rollback] } :=
  ⟨rfl, by decide, by decide, by decide⟩

/-- C25 (amended): a handler built by `New` gets a request whose directory
parameter is non-empty and, cleaned, is neither the default directory joined to
the root nor one of the cleaned `AllowedDirs`.  Then no file is read, stat-ed,
created, written or removed, whatever the method.  A GET is answered with
status 400 at once.  A POST or PUT is answered with status 400 by the
directory check when the form is parsed, the file is read and named and the
database steps succeed, and a DELETE when the database steps succeed; a step
that fails earlier answers instead, and every answer of the three handlers has
status 400 or 500. -/
theorem denied_dir_no_file_access (pkg0 pkg1 pkg : FileHandler.Package)
    (opt : FileHandler.ServerOptions) (uuid : GoString) (create : GoString → Option OSError)
    (fsh : FileHandler.fsHandler) (world : FileHandler.World) (r : FileHandler.Request)
    (hnew : FileHandler.New pkg0 opt uuid create = .ok (fsh, pkg1))
    (hdir : r.Query pkg.urlQueryKeyDirectory ≠ [])
    (hnot : Clean (r.Query pkg.urlQueryKeyDirectory) ∉
      Join [Clean (if opt.RootDir = [] then ['.'] else opt.RootDir), pkg0.defaultDir] ::
        opt.AllowedDirs.map Clean) :
    (∀ e ∈ (FileHandler.ServeHTTP fsh pkg world r).trace, e.touchesFile = false) ∧
    (r.Method = "GET".toList →
      FileHandler.ServeHTTP fsh pkg world r =
        { response := some (httpError "NOT_ALLOWED_ACESS_TO_DIRECTORY".toList 400),
          trace := [] }) ∧
    (r.Method = "POST".toList ∨ r.Method = "PUT".toList →
      ∀ file bs, world.ParseMultipartForm fsh.maxUploadSize = none →
        world.FormFile pkg.urlQueryKeyFormFile = .ok file → file.content = .ok bs →
        (file.Filename ≠ [] ∨ ∃ ending more,
          world.ExtensionsByType (world.DetectContentType bs) = .ok (ending :: more)) →
        (fsh.useDB = true → world.Begin = none ∧ world.Save (requestKey r.Path).2 = none) →
        (FileHandler.ServeHTTP fsh pkg world r).response =
          some (httpError "NOT_ALLOWED_ACESS_TO_DIRECTORY".toList 400)) ∧
    (r.Method = "DELETE".toList →
      (fsh.useDB = true → world.Begin = none ∧
        world.Delete (requestKey r.Path).2 (r.Query pkg.urlQueryKeyOwnerID) = none) →
      (FileHandler.ServeHTTP fsh pkg world r).response =
        some (httpError "NOT_ALLOWED_DIRECTORY".toList 400)) ∧
    (r.Method ∈ ["GET".toList, "POST".toList, "PUT".toList, "DELETE".toList] →
      ∀ resp, (FileHandler.ServeHTTP fsh pkg world r).response = some resp →
        resp.status = 400 ∨ resp.status = 500) := by
  have hdeny : FileHandler.isDirAllowed fsh (Clean (r.Query pkg.urlQueryKeyDirectory)) = false := by
    rw [Bool.eq_false_iff]
    intro h
    rw [FileHandler.isDirAllowed_iff, FileHandler.New_allowedDirs pkg0 pkg1 opt uuid create fsh hnew]
      at h
    exact hnot h
  have hq : (FileHandler.rewritePath r).Query = r.Query := FileHandler.rewritePath_Query r
  have hm : (FileHandler.rewritePath r).Method = r.Method := FileHandler.rewritePath_Method r
  have hdir1 : (FileHandler.rewritePath r).Query pkg.urlQueryKeyDirectory ≠ [] := by
    rw [hq]; exact hdir
  have hdeny1 : FileHandler.isDirAllowed fsh
      (Clean ((FileHandler.rewritePath r).Query pkg.urlQueryKeyDirectory)) = false := by
    rw [hq]; exact hdeny
  have hget := FileHandler.getFile_denied fsh pkg world
    (FileHandler.rewritePath r) (requestKey r.Path).2 hdir1 hdeny1
  have hsave := FileHandler.saveFile_denied fsh pkg world
    (FileHandler.rewritePath r) (requestKey r.Path).2 hdir1 hdeny1
  have hdel := FileHandler.deleteFile_denied fsh pkg world
    (FileHandler.rewritePath r) (requestKey r.Path).2 hdir1 hdeny1
  rw [hq] at hdel
  have hserve : FileHandler.ServeHTTP fsh pkg world r =
      if (FileHandler.rewritePath r).Method = "GET".toList then
        FileHandler.getFile fsh pkg world (FileHandler.rewritePath r) (requestKey r.Path).2
      else if (FileHandler.rewritePath r).Method = "POST".toList then
        FileHandler.saveFile fsh pkg world (FileHandler.rewritePath r) (requestKey r.Path).2
      else if (FileHandler.rewritePath r).Method = "PUT".toList then
        FileHandler.saveFile fsh pkg world (FileHandler.rewritePath r) (requestKey r.Path).2
      else if (FileHandler.rewritePath r).Method = "DELETE".toList then
        FileHandler.deleteFile fsh pkg world (FileHandler.rewritePath r) (requestKey r.Path).2
      else { response := some { status := 200, headers := [], body := [] }, trace := [] } := rfl
  rw [hm] at hserve
  rw [hserve]
  by_cases hG : r.Method = "GET".toList
  · rw [if_pos hG, hget]
    refine ⟨fun e he => absurd he (List.not_mem_nil e), fun _ => rfl, ?_, ?_, ?_⟩
    · intro h; rcases h with h | h <;> (rw [hG] at h; exact absurd h (by decide))
    · intro h; rw [hG] at h; exact absurd h (by decide)
    · intro _ resp h; simp only [Option.some.injEq] at h; rw [← h]; left; rfl
  · rw [if_neg hG]
    by_cases hP : r.Method = "POST".toList
    · rw [if_pos hP]
      refine ⟨hsave.1, fun h => absurd h hG, fun _ => hsave.2.2, ?_, fun _ => hsave.2.1⟩
      intro h; rw [hP] at h; exact absurd h (by decide)
    · rw [if_neg hP]
      by_cases hU : r.Method = "PUT".toList
      · rw [if_pos hU]
        refine ⟨hsave.1, fun h => absurd h hG, fun _ => hsave.2.2, ?_, fun _ => hsave.2.1⟩
        intro h; rw [hU] at h; exact absurd h (by decide)
      · rw [if_neg hU]
        by_cases hD : r.Method = "DELETE".toList
        · rw [if_pos hD]
          refine ⟨hdel.1, fun h => absurd h hG, ?_, fun _ => hdel.2.2, fun _ => hdel.2.1⟩
          intro h; rcases h with h | h
          · exact absurd h hP
          · exact absurd h hU
        · rw [if_neg hD]
          refine ⟨fun e he => absurd he (List.not_mem_nil e), fun h => absurd h hG, ?_, fun h => absurd h hD, ?_⟩
          · intro h; rcases h with h | h
            · exact absurd h hP
            · exact absurd h hU
          · intro h
            simp only [List.mem_cons, List.mem_singleton, List.not_mem_nil, or_false] at h
            rcases h with h | h | h | h
            · exact absurd h hG
            · exact absurd h hP
            · exact absurd h hU
            · exact absurd h hD

/-- C25 (amended), at the handler of the test suite: a GET that names the
directory `/etc` is answered with status 400 and touches no file. -/
theorem denied_dir_no_file_access_witness :
    FileHandler.ServeHTTP fileServer suitePackage workingWorld (etcRequest "GET".toList) =
      { response := some (httpError "NOT_ALLOWED_ACESS_TO_DIRECTORY".toList 400), trace := [] } :=
  (denied_dir_no_file_access suitePackage suitePackage suitePackage fileOptions "0000".toList
    (fun _ => none) fileServer workingWorld (etcRequest "GET".toList) rfl (by decide)
    (by decide)).2.1 rfl

/-! ## Where the cached entries come from -/

theorem foldl_storeFile_source (rootDir : GoString) (world : World) (keys : List GoString) :
    ∀ (files : GoString → Option staticFile) (k : GoString) (sf : staticFile),
      (keys.foldl (storeFile rootDir world) files) k = some sf →
      files k = some sf ∨ readStaticFile world (Join [rootDir, k]) = some sf := by
  induction keys with
  | nil => intro files k sf h; exact Or.inl h
  | cons key more ih =>
    intro files k sf h
    rcases ih _ k sf h with h1 | h1
    · unfold storeFile at h1
      cases hr : readStaticFile world (Join [rootDir, key]) with
      | none => rw [hr] at h1; exact Or.inl h1
      | some s =>
        rw [hr] at h1
        simp only [mapSet] at h1
        by_cases hk : k = key
        · rw [if_pos hk] at h1
          right
          rw [hk, hr, h1]
        · rw [if_neg hk] at h1
          exact Or.inl h1
    · exact Or.inr h1

/-- An entry of the file cache after one call was there before, or is what
`addStaticFile` read for its key during the call. -/
theorem ServeHTTP_files_source (sfs : staticFileServer) (world : World) (r : Request)
    (key : GoString) (sf : staticFile) (h : (ServeHTTP sfs world r).sfs.files key = some sf) :
    sfs.files key = some sf ∨ readStaticFile world (fileOf sfs key) = some sf := by
  by_cases hget : r.Method = MethodGet
  · cases hf : sfs.files (cacheKey sfs r) with
    | some sf0 =>
      rw [ServeHTTP_hit _ _ _ hget sf0 hf] at h
      exact Or.inl h
    | none =>
      cases hn : sfs.notFoundPaths (cacheKey sfs r) with
      | some v =>
        rw [ServeHTTP_known _ _ _ hget hf v hn] at h
        exact Or.inl h
      | none =>
        rw [ServeHTTP_miss _ _ _ hget hf hn] at h
        rcases hadd : addStaticFile sfs world (cacheKey sfs r) with ⟨err, sfs1, evs⟩
        rw [hadd] at h
        cases err with
        | none =>
          obtain ⟨_, sf1, hread, hs⟩ := addStaticFile_none sfs world (cacheKey sfs r)
            (by rw [hadd])
          rw [hadd] at hs
          simp only at hs h
          rw [hs] at h
          simp only [mapSet] at h
          by_cases hk : key = cacheKey sfs r
          · rw [if_pos hk] at h
            right
            rw [hk]
            unfold fileOf
            rw [hread, h]
          · rw [if_neg hk] at h
            exact Or.inl h
        | some e =>
          have hsame : sfs1 = sfs := by
            rcases addStaticFile_sfs sfs world (cacheKey sfs r) with ⟨_, h2⟩ | ⟨_, _, h2, _⟩
            · rw [hadd] at h2; exact h2
            · rw [hadd] at h2; cases h2
          simp only at h
          by_cases hne : IsNotExist e = true
          · rw [if_pos hne, hsame] at h
            exact Or.inl h
          · rw [if_neg hne, hsame] at h
            exact Or.inl h
  · rw [ServeHTTP_notGet _ _ _ hget] at h
    exact Or.inl h

theorem serveAll_files_source (reqs : List (World × Request)) :
    ∀ (sfs : staticFileServer) (key : GoString) (sf : staticFile),
      (serveAll sfs reqs).files key = some sf →
      sfs.files key = some sf ∨
        ∃ w ∈ reqs.map Prod.fst, readStaticFile w (fileOf sfs key) = some sf := by
  induction reqs with
  | nil => intro sfs key sf h; exact Or.inl h
  | cons a more ih =>
    intro sfs key sf h
    obtain ⟨world, r⟩ := a
    rcases ih (ServeHTTP sfs world r).sfs key sf h with h1 | ⟨w, hw, h1⟩
    · rcases ServeHTTP_files_source sfs world r key sf h1 with h2 | h2
      · exact Or.inl h2
      · exact Or.inr ⟨world, by simp, h2⟩
    · rw [sameConfig_fileOf (ServeHTTP_sameConfig sfs world r)] at h1
      exact Or.inr ⟨w, by simp only [List.map_cons, List.mem_cons]; exact Or.inr hw, h1⟩

/-- C5: the root directory is never a member of the tracked-directory set
`NewHandler` builds, so with any allow-list a file whose parent directory is
the root passes the allow-list check.  In every state reached by requests
during which the file exists, a GET for it is served from the file cache: the
key holds an entry afterwards, the response is the 200 response `writeResponse`
builds from that entry (its content type, its size, its bytes as the body),
the entry is what `addStaticFile` read for the file at construction or during
one of the requests, the not-found handler is not called, and the key is not
recorded as not found. -/
theorem rootFile_served (opt : ServerOptions) (root : Except OSError DirTree)
    (world0 : World) (sfs0 : staticFileServer) (hnew : NewHandler opt root world0 = .ok sfs0)
    (hnames : ∀ tree, root = .ok tree → tree.wellNamed = true) :
    sfs0.rootDir ∉ sfs0.staticDirs ∧
    ∀ (reqs : List (World × Request)) (world : World) (r : Request),
      r.Method = MethodGet →
      Dir (fileOf sfs0 (cacheKey sfs0 r)) = sfs0.rootDir →
      (∀ w ∈ world :: reqs.map Prod.fst, w.hasFile (fileOf sfs0 (cacheKey sfs0 r)) = true) →
      allowListPasses sfs0 (fileOf sfs0 (cacheKey sfs0 r)) = true ∧
      (ServeHTTP (serveAll sfs0 reqs) world r).response.status = 200 ∧
      (∃ sf, (ServeHTTP (serveAll sfs0 reqs) world r).sfs.files (cacheKey sfs0 r) = some sf ∧
        (ServeHTTP (serveAll sfs0 reqs) world r).response =
          { status := 200,
            headers := [("Content-Type".toList, sf.ctype),
                        ("Content-Length".toList, FormatInt sf.finfo.Size),
                        ("Accept-Ranges".toList, "bytes".toList),
                        ("Last-Modified".toList, sf.finfo.ModTime)],
            body := sf.data } ∧
        ∃ w ∈ world0 :: world :: reqs.map Prod.fst,
          readStaticFile w (fileOf sfs0 (cacheKey sfs0 r)) = some sf) ∧
      (∀ e ∈ (ServeHTTP (serveAll sfs0 reqs) world r).trace, e.isNotFound = false) ∧
      (ServeHTTP (serveAll sfs0 reqs) world r).sfs.notFoundPaths (cacheKey sfs0 r) = none := by
  have hnot := rootDir_not_tracked opt root world0 sfs0 hnew hnames
  refine ⟨hnot, ?_⟩
  intro reqs world r hget hdir hex
  have hc := serveAll_sameConfig sfs0 reqs
  have hk := sameConfig_cacheKey hc r
  have hfo := sameConfig_fileOf hc (cacheKey sfs0 r)
  have hn0 : sfs0.notFoundPaths (cacheKey sfs0 r) = none := by
    rw [(NewHandler_ok opt root world0 sfs0 hnew).2.2.2.2.2.1]
  have hpass0 : allowListPasses sfs0 (fileOf sfs0 (cacheKey sfs0 r)) = true := by
    unfold allowListPasses
    rw [hdir]
    simp [hnot]
  have hn : (serveAll sfs0 reqs).notFoundPaths (cacheKey (serveAll sfs0 reqs) r) = none := by
    rw [hk]
    exact serveAll_notFound_none sfs0 reqs _ hn0
      (fun w hw => hex w (List.mem_cons_of_mem _ hw))
  have hp : allowListPasses (serveAll sfs0 reqs)
      (fileOf (serveAll sfs0 reqs) (cacheKey (serveAll sfs0 reqs) r)) = true := by
    rw [hk, hfo, sameConfig_allowListPasses hc]; exact hpass0
  have hw : world.hasFile (fileOf (serveAll sfs0 reqs) (cacheKey (serveAll sfs0 reqs) r))
      = true := by
    rw [hk, hfo]; exact hex world (List.mem_cons_self _ _)
  have hsrc0 : ∀ sf, sfs0.files (cacheKey sfs0 r) = some sf →
      readStaticFile world0 (fileOf sfs0 (cacheKey sfs0 r)) = some sf := by
    intro sf h
    rw [(NewHandler_push opt root world0 sfs0 hnew).1] at h
    rcases foldl_storeFile_source _ _ _ _ _ _ h with h1 | h1
    · cases h1
    · exact h1
  have hsrc : ∀ sf, (serveAll sfs0 reqs).files (cacheKey sfs0 r) = some sf →
      ∃ w ∈ world0 :: reqs.map Prod.fst,
        readStaticFile w (fileOf sfs0 (cacheKey sfs0 r)) = some sf := by
    intro sf h
    rcases serveAll_files_source reqs sfs0 _ sf h with h1 | ⟨w, hw1, h1⟩
    · exact ⟨world0, List.mem_cons_self _ _, hsrc0 sf h1⟩
    · exact ⟨w, List.mem_cons_of_mem _ hw1, h1⟩
  refine ⟨hpass0, ServeHTTP_status_200 _ _ _ hget hn hp hw, ?_⟩
  cases hf : (serveAll sfs0 reqs).files (cacheKey (serveAll sfs0 reqs) r) with
  | some sf =>
    rw [ServeHTTP_hit _ _ _ hget sf hf]
    refine ⟨⟨sf, ?_, ?_, ?_⟩, ?_, ?_⟩
    · rw [← hk]; exact hf
    · exact writeResponse_some _ _ sf hf
    · rw [hk] at hf
      obtain ⟨w, hw1, h1⟩ := hsrc sf hf
      refine ⟨w, ?_, h1⟩
      simp only [List.mem_cons] at hw1 ⊢
      rcases hw1 with h2 | h2
      · exact Or.inl h2
      · exact Or.inr (Or.inr h2)
    · intro e he
      have := serverPush_isPush _ _ _ e he
      cases e <;> first | rfl | cases this
    · rw [← hk]; exact hn
  | none =>
    obtain ⟨bs, finfo, hr, hs⟩ := World.hasFile_ok world _ hw
    rw [ServeHTTP_miss _ _ _ hget hf hn, addStaticFile_ok _ _ _ bs finfo hp hr hs]
    simp only
    refine ⟨⟨staticFile.mk bs finfo
      (if world.TypeByExtension
          (Ext (Join [(serveAll sfs0 reqs).rootDir, cacheKey (serveAll sfs0 reqs) r])) = []
        then world.DetectContentType bs
        else world.TypeByExtension
          (Ext (Join [(serveAll sfs0 reqs).rootDir, cacheKey (serveAll sfs0 reqs) r]))),
      ?_, ?_, ?_⟩, ?_, ?_⟩
    · rw [← hk]; exact mapSet_self _ _ _
    · exact writeResponse_some _ _ _ (mapSet_self _ _ _)
    · refine ⟨world, by simp, ?_⟩
      rw [← hfo, ← hk]
      unfold fileOf at hr hs
      unfold readStaticFile fileOf
      rw [hr, hs]
    · intro e he
      simp only [List.mem_append, List.mem_cons, List.mem_singleton, List.not_mem_nil,
        or_false] at he
      rcases he with (he | he | he) | he
      · split_ifs at he
        · simp only [List.mem_singleton] at he
          rw [he]; rfl
        · cases he
      · rw [he]; rfl
      · rw [he]; rfl
      · have := serverPush_isPush _ _ _ e he
        cases e <;> first | rfl | cases this
    · rw [← hk]; exact hn

/-- C5, at the test server: `/robots.txt` is served with status 200 and the
bytes of the file although the allow-list holds only `css` and `img`. -/
theorem rootFile_served_witness :
    testServer.rootDir ∉ testServer.staticDirs ∧
    (ServeHTTP (serveAll testServer [(testWorld, ⟨MethodGet, "/js/app.js".toList⟩)]) testWorld
      ⟨MethodGet, "/robots.txt".toList⟩).response.status = 200 ∧
    ∀ e ∈ (ServeHTTP (serveAll testServer [(testWorld, ⟨MethodGet, "/js/app.js".toList⟩)])
      testWorld ⟨MethodGet, "/robots.txt".toList⟩).trace, e.isNotFound = false :=
  have h := rootFile_served testOptions (.ok testTree) testWorld testServer testServer_new
    (fun tree ht => by cases ht; decide)
  have h2 := h.2 [(testWorld, ⟨MethodGet, "/js/app.js".toList⟩)] testWorld
    ⟨MethodGet, "/robots.txt".toList⟩ rfl (by decide)
    (fun w hw => by
      simp only [List.map_cons, List.map_nil, List.mem_cons, List.mem_singleton,
        List.not_mem_nil, or_false, or_self] at hw
      subst hw
      decide)
  ⟨h.1, h2.2.1, h2.2.2.2.1⟩

/-! ## Construction: which assets load, and which error is returned -/

theorem configuredBy_allowListPasses {opt : ServerOptions} {root : Except OSError DirTree}
    {a b : staticFileServer} (ha : configuredBy opt root a) (hb : configuredBy opt root b)
    (filePath : GoString) : allowListPasses a filePath = allowListPasses b filePath := by
  obtain ⟨a1, a2, a3, a4, a5⟩ := ha
  obtain ⟨b1, b2, b3, b4, b5⟩ := hb
  have hr : a.rootDir = b.rootDir := a1.trans b1.symm
  have hd : a.allowedDirs = b.allowedDirs := by rw [a2, b2, hr]
  have hall : a.allowAll = b.allowAll := by rw [a3, b3, hd]
  have hs : a.staticDirs = b.staticDirs := by
    cases hv : a.allowAll with
    | true => rw [a4 hv, b4 (hall ▸ hv)]
    | false =>
      obtain ⟨t1, r1, d1⟩ := a5 hv
      obtain ⟨t2, r2, d2⟩ := b5 (hall ▸ hv)
      rw [r1] at r2
      cases r2
      rw [hr, d2] at d1
      exact (Except.ok.inj d1).symm
  unfold allowListPasses
  rw [hd, hall, hs]

theorem NewHandler_configuredBy (opt : ServerOptions) (root : Except OSError DirTree)
    (world : World) (sfs : staticFileServer) (h : NewHandler opt root world = .ok sfs) :
    configuredBy opt root sfs := by
  obtain ⟨h1, h2, h3, h4, _, _, h7, h8, _⟩ := NewHandler_ok opt root world sfs h
  exact ⟨h1, by rw [h3, h2], h4, h7, h8⟩

/-- The error `addStaticFile` returns: the denial when the allow-list check
fails, otherwise the error of `ioutil.ReadFile` or of `os.Stat`. -/
theorem addStaticFile_some (sfs : staticFileServer) (world : World) (path : GoString)
    (e : GoError) (h : (addStaticFile sfs world path).1 = some e) :
    (allowListPasses sfs (Join [sfs.rootDir, path]) = false ∧
      e = GoError.new "directory access not allowed".toList) ∨
    (allowListPasses sfs (Join [sfs.rootDir, path]) = true ∧
      readStaticFile world (Join [sfs.rootDir, path]) = none ∧
      ∃ err, e = GoError.os err ∧
        (world.ReadFile (Join [sfs.rootDir, path]) = .error err ∨
          world.Stat (Join [sfs.rootDir, path]) = .error err)) := by
  cases hp : allowListPasses sfs (Join [sfs.rootDir, path]) with
  | false =>
    rw [addStaticFile_denied _ _ _ hp] at h
    simp only [Option.some.injEq] at h
    exact Or.inl ⟨rfl, h.symm⟩
  | true =>
    right
    cases hr : world.ReadFile (Join [sfs.rootDir, path]) with
    | error err =>
      rw [addStaticFile_readError _ _ _ err hp hr] at h
      simp only [Option.some.injEq] at h
      refine ⟨rfl, ?_, err, h.symm, Or.inl rfl⟩
      unfold readStaticFile
      rw [hr]
    | ok bs =>
      cases hs : world.Stat (Join [sfs.rootDir, path]) with
      | error err =>
        rw [addStaticFile_statError _ _ _ bs err hp hr hs] at h
        simp only [Option.some.injEq] at h
        refine ⟨rfl, ?_, err, h.symm, Or.inr rfl⟩
        unfold readStaticFile
        rw [hr, hs]
      | ok finfo =>
        rw [addStaticFile_ok _ _ _ bs finfo hp hr hs] at h
        cases h

/-- An error of `NewHandler` is the wrapped error of the directory walk (the
allow-list is then in force), or the error `addStaticFile` returned for a
declared push file on a server with the configuration `NewHandler` computed. -/
theorem NewHandler_error (opt : ServerOptions) (root : Except OSError DirTree) (world : World)
    (e : GoError) (h : NewHandler opt root world = .error e) :
    (∃ cause, e = GoError.wrap cause "failed to read directory".toList) ∨
    ∃ s key, key ∈ pushFileKeys opt.PushContent ∧ configuredBy opt root s ∧
      (addStaticFile s world key).1 = some e := by
  unfold NewHandler at h
  simp only at h
  split at h
  · rename_i err hwalk
    simp only [Except.error.injEq] at h
    subst h
    left
    by_cases hall : ((List.filter (fun dir => decide (dir ≠ Clean (if opt.Index = [] then
        "./index.html".toList else opt.Index))) (List.map (fun dir => Join [Clean (if opt.RootDir
        = [] then ['.'] else opt.RootDir), dir]) opt.AllowedDirs)).length == 0) = false
    · rw [if_pos hall] at hwalk
      cases root with
      | error e0 =>
        simp only [Except.error.injEq] at hwalk
        exact ⟨_, hwalk.symm⟩
      | ok tree => exact readDir_error tree _ _ _ hwalk
    · rw [if_neg hall] at hwalk
      cases hwalk
  · rename_i staticDirs hwalk
    split at h
    · right
      obtain ⟨s, key, hkey, hc, herr⟩ := addPushContent_error _ _ _ _ _ h
      obtain ⟨c1, _, c3, c4, c5, _, _⟩ := hc
      simp only at c1 c3 c4 c5
      have hallow : s.allowAll =
          (((opt.AllowedDirs.map (fun dir =>
              Join [Clean (if opt.RootDir = [] then ['.'] else opt.RootDir), dir])).filter
            (fun dir => decide (dir ≠
              Clean (if opt.Index = [] then "./index.html".toList else opt.Index)))).length
            == 0) := c5
      refine ⟨s, key, hkey, ⟨c1, ?_, ?_, ?_, ?_⟩, herr⟩
      · rw [c3, c1]
      · rw [c5, c3]
      · intro hv
        rw [c4]
        rw [hallow] at hv
        rw [hv] at hwalk
        simpa using hwalk.symm
      · intro hv
        rw [hallow] at hv
        rw [hv] at hwalk
        simp only [if_true] at hwalk
        cases root with
        | error e0 => simp at hwalk
        | ok tree =>
          refine ⟨tree, rfl, ?_⟩
          rw [c1, c4]
          simpa using hwalk
    · cases h

/-- The cleaned form of a path without a leading `/` has no leading `/`. -/
theorem Clean_unrooted (path : GoString) (h : HasPrefix path ['/'] = false) :
    HasPrefix (Clean path) ['/'] = false := by
  by_cases hne : path = []
  · subst hne; decide
  · obtain ⟨out, dd, hform, he⟩ := Clean_form path hne
    have hr : (path.head? == some '/') = false := by
      cases path with
      | nil => exact absurd rfl hne
      | cons c t =>
        simp only [HasPrefix, Bool.and_true] at h
        simpa using h
    rw [hr] at hform
    have hhead := hform.unrooted_head
    rw [he]
    unfold pathOf
    split_ifs with h0
    · decide
    · cases out with
      | nil => exact absurd rfl h0
      | cons c t =>
        simp only [List.head?_cons, ne_eq, Option.some.injEq] at hhead
        simp only [HasPrefix, Bool.and_true, beq_eq_false_iff_ne, ne_eq]
        exact hhead

/-- The key a request resolves to is the index path or begins with `/`. -/
theorem cacheKey_cases (sfs : staticFileServer) (r : Request) :
    cacheKey sfs r = sfs.indexPage ∨ HasPrefix (cacheKey sfs r) ['/'] = true := by
  unfold cacheKey resolvePath
  dsimp only
  by_cases hp : HasPrefix (Clean r.Path) ['/'] = false
  · rw [if_pos hp]
    dsimp only
    by_cases hc : ('/' :: Clean r.Path = ['/'] ∨ '/' :: Clean r.Path = [])
    · rw [if_pos hc]; exact Or.inl rfl
    · rw [if_neg hc]; right; simp [HasPrefix]
  · rw [if_neg hp]
    dsimp only
    by_cases hc : (Clean r.Path = ['/'] ∨ Clean r.Path = [])
    · rw [if_pos hc]; exact Or.inl rfl
    · rw [if_neg hc]; right; simpa using hp

/-- C21 (amended): if `NewHandler` succeeds, every declared dependent asset
was readable and admitted by the allow-list at construction and is in the
file cache under the cleaned form of its declared path.  When the declared
path begins with `/` and does not clean to `/`, that key is the key a GET for
the asset resolves to, so in every later state that request is a hit: the
response is the 200 response built from the cached entry, the server is
unchanged and nothing but pushes is performed.  When the declared path does
not begin with `/`, its key does not either, and a request resolves to that
key only if the key is the index path.  If a declared asset cannot be loaded
under the configuration `NewHandler` computes (its file cannot be read or
stat-ed, or the allow-list denies it), `NewHandler` returns an error and no
handler; and every error `NewHandler` returns is the wrapped error of the
directory walk or the error `addStaticFile` gives, under that configuration,
for a declared asset that cannot be loaded. -/
theorem declared_assets_loaded (opt : ServerOptions) (root : Except OSError DirTree)
    (world0 : World) :
    (∀ sfs, NewHandler opt root world0 = .ok sfs →
      ∀ ppath files file, (ppath, files) ∈ opt.PushContent → file ∈ files →
        readStaticFile world0 (Join [sfs.rootDir, Clean file]) ≠ none ∧
        allowListPasses sfs (Join [sfs.rootDir, Clean file]) = true ∧
        (∃ sf, sfs.files (Clean file) = some sf ∧
          (HasPrefix file ['/'] = true → Clean file ≠ ['/'] →
            ∀ (reqs : List (World × Request)) (world : World),
              cacheKey (serveAll sfs reqs) ⟨MethodGet, file⟩ = Clean file ∧
              (ServeHTTP (serveAll sfs reqs) world ⟨MethodGet, file⟩).response =
                { status := 200,
                  headers := [("Content-Type".toList, sf.ctype),
                              ("Content-Length".toList, FormatInt sf.finfo.Size),
                              ("Accept-Ranges".toList, "bytes".toList),
                              ("Last-Modified".toList, sf.finfo.ModTime)],
                  body := sf.data } ∧
              (ServeHTTP (serveAll sfs reqs) world ⟨MethodGet, file⟩).sfs = serveAll sfs reqs ∧
              ∀ e ∈ (ServeHTTP (serveAll sfs reqs) world ⟨MethodGet, file⟩).trace,
                e.isPush = true)) ∧
        (HasPrefix file ['/'] = false →
          HasPrefix (Clean file) ['/'] = false ∧
          ∀ (reqs : List (World × Request)) (r : Request),
            cacheKey (serveAll sfs reqs) r = Clean file → Clean file = sfs.indexPage)) ∧
    (∀ s key, configuredBy opt root s → key ∈ pushFileKeys opt.PushContent →
      (readStaticFile world0 (Join [s.rootDir, key]) = none ∨
        allowListPasses s (Join [s.rootDir, key]) = false) →
      ∃ e, NewHandler opt root world0 = .error e) ∧
    (∀ e, NewHandler opt root world0 = .error e →
      (∃ cause, e = GoError.wrap cause "failed to read directory".toList) ∨
      ∃ s key, key ∈ pushFileKeys opt.PushContent ∧ configuredBy opt root s ∧
        (addStaticFile s world0 key).1 = some e ∧
        ((allowListPasses s (Join [s.rootDir, key]) = false ∧
            e = GoError.new "directory access not allowed".toList) ∨
          (allowListPasses s (Join [s.rootDir, key]) = true ∧
            readStaticFile world0 (Join [s.rootDir, key]) = none ∧
            ∃ err, e = GoError.os err ∧
              (world0.ReadFile (Join [s.rootDir, key]) = .error err ∨
                world0.Stat (Join [s.rootDir, key]) = .error err)))) := by
  refine ⟨?_, ?_, ?_⟩
  · intro sfs hnew ppath files file hmem hfile
    obtain ⟨h1, h2, _, _, _⟩ := NewHandler_push opt root world0 sfs hnew
    have hkey : Clean file ∈ pushFileKeys opt.PushContent := by
      simp only [pushFileKeys, List.mem_flatMap, List.mem_map]
      exact ⟨(ppath, files), hmem, file, hfile, Clean_idem file⟩
    have hfiles : sfs.files (Clean file) ≠ none := by
      rw [h1]
      exact foldl_storeFile_mem _ _ _ _ (fun k hk => (h2 k hk).1) _ hkey
    refine ⟨(h2 _ hkey).1, (h2 _ hkey).2, ?_, ?_⟩
    · cases hsf : sfs.files (Clean file) with
      | none => exact absurd hsf hfiles
      | some sf =>
        refine ⟨sf, rfl, ?_⟩
        intro hrooted hne reqs world
        have hk : cacheKey sfs ⟨MethodGet, file⟩ = Clean file :=
          cacheKey_rooted sfs ⟨MethodGet, file⟩ hrooted hne
        have hc := serveAll_sameConfig sfs reqs
        have hkey2 : cacheKey (serveAll sfs reqs) ⟨MethodGet, file⟩ = Clean file :=
          (sameConfig_cacheKey hc _).trans hk
        have hf2 : (serveAll sfs reqs).files (cacheKey (serveAll sfs reqs) ⟨MethodGet, file⟩)
            = some sf := by
          rw [hkey2]; exact serveAll_files_some sfs reqs _ sf hsf
        refine ⟨hkey2, ?_, ?_, ?_⟩
        · rw [ServeHTTP_hit _ _ _ rfl sf hf2, writeResponse_some _ _ sf hf2]
        · rw [ServeHTTP_hit _ _ _ rfl sf hf2]
        · rw [ServeHTTP_hit _ _ _ rfl sf hf2]
          exact serverPush_isPush _ _ _
    · intro hrel
      have hun := Clean_unrooted file hrel
      refine ⟨hun, ?_⟩
      intro reqs r hr
      have hc := serveAll_sameConfig sfs reqs
      rcases cacheKey_cases (serveAll sfs reqs) r with h0 | h0
      · rw [← hr, h0]; exact hc.2.1
      · rw [hr, hun] at h0; cases h0
  · intro s key hs hkey hbad
    cases hres : NewHandler opt root world0 with
    | error e => exact ⟨e, rfl⟩
    | ok sfs =>
      exfalso
      obtain ⟨_, h2, _, _, _⟩ := NewHandler_push opt root world0 sfs hres
      have hcfg := NewHandler_configuredBy opt root world0 sfs hres
      have hroot : s.rootDir = sfs.rootDir := hs.1.trans hcfg.1.symm
      rcases hbad with hb | hb
      · rw [hroot] at hb
        exact (h2 key hkey).1 hb
      · rw [configuredBy_allowListPasses hs hcfg, hroot, (h2 key hkey).2] at hb
        cases hb
  · intro e he
    rcases NewHandler_error opt root world0 e he with h | ⟨s, key, hkey, hcfg, herr⟩
    · exact Or.inl h
    · exact Or.inr ⟨s, key, hkey, hcfg, herr, addStaticFile_some s world0 key e herr⟩

/-- C21 (amended), at the push test server: the declared `/css/app.css` is
cached under that key. -/
theorem declared_assets_loaded_witness :
    ∃ sf, pushServer.files (Clean "/css/app.css".toList) = some sf :=
  have h := ((declared_assets_loaded pushTestOptions (.ok testTree) testWorld).1 pushServer
    pushServer_new "/".toList ["/css/app.css".toList, "/js/app.js".toList] "/css/app.css".toList
    (by decide) (by decide)).2.2.1
  ⟨h.choose, h.choose_spec.1⟩

/-! ## Locking: what is guarded -/

/-- The steps of one call and the change of the two maps they stand for. -/
theorem ServeHTTPSteps_cases (sfs : staticFileServer) (world : World) (r : Request) :
    (ServeHTTPSteps sfs world r = [] ∧ (ServeHTTP sfs world r).sfs = sfs) ∨
    (ServeHTTPSteps sfs world r =
        [Step.RLock, Step.readFiles (cacheKey sfs r), Step.RUnlock,
         Step.RLock, Step.readFiles (cacheKey sfs r), Step.RUnlock] ∧
      (ServeHTTP sfs world r).sfs = sfs) ∨
    (ServeHTTPSteps sfs world r =
        [Step.RLock, Step.readFiles (cacheKey sfs r), Step.RUnlock,
         Step.readNotFound (cacheKey sfs r)] ∧
      (ServeHTTP sfs world r).sfs = sfs) ∨
    (ServeHTTPSteps sfs world r =
        [Step.RLock, Step.readFiles (cacheKey sfs r), Step.RUnlock,
         Step.readNotFound (cacheKey sfs r), Step.writeNotFound (cacheKey sfs r)] ∧
      sfs.notFoundPaths (cacheKey sfs r) = none ∧
      (ServeHTTP sfs world r).sfs = addNotFoundPath sfs (cacheKey sfs r)) ∨
    (ServeHTTPSteps sfs world r =
        [Step.RLock, Step.readFiles (cacheKey sfs r), Step.RUnlock,
         Step.readNotFound (cacheKey sfs r),
         Step.Lock, Step.writeFiles (cacheKey sfs r), Step.Unlock,
         Step.RLock, Step.readFiles (cacheKey sfs r), Step.RUnlock] ∧
      sfs.files (cacheKey sfs r) = none ∧
      ∃ sf, (ServeHTTP sfs world r).sfs =
        { sfs with files := mapSet sfs.files (cacheKey sfs r) sf }) := by
  by_cases hm : r.Method ≠ MethodGet
  · left
    refine ⟨?_, by rw [ServeHTTP_notGet _ _ _ hm]⟩
    unfold ServeHTTPSteps
    rw [if_pos hm]
  · right
    have hget : r.Method = MethodGet := not_not.mp hm
    have hsteps : ServeHTTPSteps sfs world r =
        getStaticFileSteps (cacheKey sfs r) ++
        match sfs.files (cacheKey sfs r) with
        | some _ => writeResponseSteps (cacheKey sfs r)
        | none =>
          Step.readNotFound (cacheKey sfs r) ::
          match sfs.notFoundPaths (cacheKey sfs r) with
          | some _ => []
          | none =>
            addStaticFileSteps sfs world (cacheKey sfs r) ++
            match (addStaticFile sfs world (cacheKey sfs r)).1 with
            | some err =>
              if IsNotExist err = true then addNotFoundPathSteps (cacheKey sfs r) else []
            | none => writeResponseSteps (cacheKey sfs r) := by
      unfold ServeHTTPSteps
      rw [if_neg hm]
      rfl
    rw [hsteps]
    cases hf : sfs.files (cacheKey sfs r) with
    | some sf =>
      left
      exact ⟨rfl, by rw [ServeHTTP_hit _ _ _ hget sf hf]⟩
    | none =>
      right
      cases hn : sfs.notFoundPaths (cacheKey sfs r) with
      | some v =>
        left
        refine ⟨rfl, ?_⟩
        rw [ServeHTTP_known _ _ _ hget hf v hn]
        rfl
      | none =>
        rw [ServeHTTP_miss _ _ _ hget hf hn]
        cases hp : allowListPasses sfs (Join [sfs.rootDir, cacheKey sfs r]) with
        | false =>
          left
          have hs : addStaticFileSteps sfs world (cacheKey sfs r) = [] := by
            unfold addStaticFileSteps
            simp only [hp, if_true]
          rw [hs, addStaticFile_denied _ _ _ hp]
          exact ⟨rfl, rfl⟩
        | true =>
          cases hr : world.ReadFile (Join [sfs.rootDir, cacheKey sfs r]) with
          | error err =>
            have hs : addStaticFileSteps sfs world (cacheKey sfs r) = [] := by
              unfold addStaticFileSteps
              simp only [hp, hr, Bool.true_eq_false, if_false]
            rw [hs, addStaticFile_readError _ _ _ err hp hr]
            simp only
            by_cases hne : IsNotExist (GoError.os err) = true
            · right; left
              rw [if_pos hne, if_pos hne]
              exact ⟨rfl, trivial, rfl⟩
            · left
              rw [if_neg hne, if_neg hne]
              exact ⟨rfl, rfl⟩
          | ok bs =>
            cases hst : world.Stat (Join [sfs.rootDir, cacheKey sfs r]) with
            | error err =>
              have hs : addStaticFileSteps sfs world (cacheKey sfs r) = [] := by
                unfold addStaticFileSteps
                simp only [hp, hr, hst, Bool.true_eq_false, if_false]
              rw [hs, addStaticFile_statError _ _ _ bs err hp hr hst]
              simp only
              by_cases hne : IsNotExist (GoError.os err) = true
              · right; left
                rw [if_pos hne, if_pos hne]
                exact ⟨rfl, trivial, rfl⟩
              · left
                rw [if_neg hne, if_neg hne]
                exact ⟨rfl, rfl⟩
            | ok finfo =>
              right; right
              have hs : addStaticFileSteps sfs world (cacheKey sfs r) =
                  [Step.Lock, Step.writeFiles (cacheKey sfs r), Step.Unlock] := by
                unfold addStaticFileSteps
                simp only [hp, hr, hst, Bool.true_eq_false, if_false]
              rw [hs, addStaticFile_ok _ _ _ bs finfo hp hr hst]
              exact ⟨rfl, rfl, _, rfl⟩

theorem ServeHTTPSteps_files_guarded (sfs : staticFileServer) (world : World) (r : Request) :
    unguarded Held.free ((ServeHTTPSteps sfs world r).filter (fun s => !s.onNotFound)) = [] := by
  rcases ServeHTTPSteps_cases sfs world r with
    ⟨h, _⟩ | ⟨h, _⟩ | ⟨h, _⟩ | ⟨h, _, _⟩ | ⟨h, _, _⟩ <;> rw [h] <;> rfl

/-- C23 (counterexample): on the server of the test configuration, a GET for
the missing file `/a.txt` reads the file cache under the read lock, then reads
the not-found set and writes it with no lock held; a second call for the
missing file `/b.txt` does the same, so the write of one call can happen
together with the read or the write of the other. -/
theorem notFound_set_unlocked :
    NewHandler testOptions (.ok testTree) testWorld = .ok testServer ∧
    ServeHTTPSteps testServer testWorld ⟨MethodGet, "/a.txt".toList⟩ =
      [Step.RLock, Step.readFiles "/a.txt".toList, Step.RUnlock,
       Step.readNotFound "/a.txt".toList, Step.writeNotFound "/a.txt".toList] ∧
    unguarded Held.free (ServeHTTPSteps testServer testWorld ⟨MethodGet, "/a.txt".toList⟩) =
      [Step.readNotFound "/a.txt".toList, Step.writeNotFound "/a.txt".toList] ∧
    (ServeHTTP testServer testWorld ⟨MethodGet, "/a.txt".toList⟩).sfs.notFoundPaths
      "/a.txt".toList = some 2 ∧
    unguarded Held.free (ServeHTTPSteps testServer testWorld ⟨MethodGet, "/b.txt".toList⟩) =
      [Step.readNotFound "/b.txt".toList, Step.writeNotFound "/b.txt".toList] ∧
    races (ServeHTTPSteps testServer testWorld ⟨MethodGet, "/a.txt".toList⟩)
      (ServeHTTPSteps testServer testWorld ⟨MethodGet, "/b.txt".toList⟩) = true :=
  ⟨testServer_new, by decide, by decide, by decide, by decide, by decide⟩

/-- C23 (amended): in every call of `ServeHTTP`, for every server, filesystem
and request, each access to the file cache is made under the lock it needs
(the reads of `getStaticFile` under the read lock, the write of
`addStaticFile` under the write lock) and the call ends holding nothing, so
the file-cache accesses of two concurrent calls never conflict unsynchronised.
The not-found set is not protected: every read and every write of it is made
with no lock held.  The steps agree with the effect of the call: the file
cache is written exactly when the call stores an entry for its key, the
not-found set exactly when the call records its key. -/
theorem files_guarded (sfs : staticFileServer) (world : World) (r : Request) :
    (∀ s ∈ unguarded Held.free (ServeHTTPSteps sfs world r), s.onFiles = false) ∧
    (ServeHTTPSteps sfs world r).foldl Held.next Held.free = Held.free ∧
    (∀ s ∈ ServeHTTPSteps sfs world r, s.onNotFound = true →
      s ∈ unguarded Held.free (ServeHTTPSteps sfs world r)) ∧
    (∀ (sfs2 : staticFileServer) (world2 : World) (r2 : Request),
      races ((ServeHTTPSteps sfs world r).filter (fun s => !s.onNotFound))
        ((ServeHTTPSteps sfs2 world2 r2).filter (fun s => !s.onNotFound)) = false) ∧
    (∀ key, Step.writeFiles key ∈ ServeHTTPSteps sfs world r ↔
      key = cacheKey sfs r ∧ (ServeHTTP sfs world r).sfs.files ≠ sfs.files) ∧
    (∀ key, Step.writeNotFound key ∈ ServeHTTPSteps sfs world r ↔
      key = cacheKey sfs r ∧ (ServeHTTP sfs world r).sfs.notFoundPaths ≠ sfs.notFoundPaths) := by
  have h4 : ∀ (sfs2 : staticFileServer) (world2 : World) (r2 : Request),
      races ((ServeHTTPSteps sfs world r).filter (fun s => !s.onNotFound))
        ((ServeHTTPSteps sfs2 world2 r2).filter (fun s => !s.onNotFound)) = false := by
    intro sfs2 world2 r2
    unfold races
    rw [ServeHTTPSteps_files_guarded, ServeHTTPSteps_files_guarded]
    rfl
  have hsetF : ∀ sf : staticFile, sfs.files (cacheKey sfs r) = none →
      mapSet sfs.files (cacheKey sfs r) sf ≠ sfs.files := by
    intro sf hnone heq
    have := congrFun heq (cacheKey sfs r)
    rw [mapSet_self, hnone] at this
    cases this
  have hsetN : sfs.notFoundPaths (cacheKey sfs r) = none →
      mapSet sfs.notFoundPaths (cacheKey sfs r) 2 ≠ sfs.notFoundPaths := by
    intro hnone heq
    have := congrFun heq (cacheKey sfs r)
    rw [mapSet_self, hnone] at this
    cases this
  rcases ServeHTTPSteps_cases sfs world r with
    ⟨h, hs⟩ | ⟨h, hs⟩ | ⟨h, hs⟩ | ⟨h, hn, hs⟩ | ⟨h, hf, sf, hs⟩
  · refine ⟨?_, ?_, ?_, h4, ?_, ?_⟩
    · rw [h]; intro s hmem; cases hmem
    · rw [h]; rfl
    · rw [h]; intro s hmem; cases hmem
    · intro key; rw [h, hs]; simp
    · intro key; rw [h, hs]; simp
  · have hu : unguarded Held.free [Step.RLock, Step.readFiles (cacheKey sfs r), Step.RUnlock,
        Step.RLock, Step.readFiles (cacheKey sfs r), Step.RUnlock] = [] := rfl
    refine ⟨?_, ?_, ?_, h4, ?_, ?_⟩
    · rw [h, hu]; intro s hmem; cases hmem
    · rw [h]; rfl
    · rw [h, hu]; intro s hmem hon
      simp only [List.mem_cons, List.mem_singleton, List.not_mem_nil, or_false] at hmem
      rcases hmem with e | e | e | e | e | e <;> (rw [e] at hon; cases hon)
    · intro key; rw [h, hs]; simp
    · intro key; rw [h, hs]; simp
  · have hu : unguarded Held.free [Step.RLock, Step.readFiles (cacheKey sfs r), Step.RUnlock,
        Step.readNotFound (cacheKey sfs r)] = [Step.readNotFound (cacheKey sfs r)] := rfl
    refine ⟨?_, ?_, ?_, h4, ?_, ?_⟩
    · rw [h, hu]; intro s hmem
      simp only [List.mem_singleton] at hmem
      rw [hmem]; rfl
    · rw [h]; rfl
    · rw [h, hu]; intro s hmem hon
      simp only [List.mem_cons, List.mem_singleton, List.not_mem_nil, or_false] at hmem
      rcases hmem with e | e | e | e
      · rw [e] at hon; cases hon
      · rw [e] at hon; cases hon
      · rw [e] at hon; cases hon
      · rw [e]; exact List.mem_singleton.mpr rfl
    · intro key; rw [h, hs]; simp
    · intro key; rw [h, hs]; simp
  · have hu : unguarded Held.free [Step.RLock, Step.readFiles (cacheKey sfs r), Step.RUnlock,
        Step.readNotFound (cacheKey sfs r), Step.writeNotFound (cacheKey sfs r)] =
        [Step.readNotFound (cacheKey sfs r), Step.writeNotFound (cacheKey sfs r)] := rfl
    refine ⟨?_, ?_, ?_, h4, ?_, ?_⟩
    · rw [h, hu]; intro s hmem
      simp only [List.mem_cons, List.mem_singleton, List.not_mem_nil, or_false] at hmem
      rcases hmem with e | e <;> (rw [e]; rfl)
    · rw [h]; rfl
    · rw [h, hu]; intro s hmem hon
      simp only [List.mem_cons, List.mem_singleton, List.not_mem_nil, or_false] at hmem ⊢
      rcases hmem with e | e | e | e | e
      · rw [e] at hon; cases hon
      · rw [e] at hon; cases hon
      · rw [e] at hon; cases hon
      · exact Or.inl e
      · exact Or.inr e
    · intro key; rw [h, hs]; simp [addNotFoundPath]
    · intro key; rw [h, hs]
      simp only [List.mem_cons, List.mem_singleton, List.not_mem_nil, or_false, reduceCtorEq,
        false_or, Step.writeNotFound.injEq, addNotFoundPath]
      constructor
      · intro e; exact ⟨e, hsetN hn⟩
      · intro e; exact e.1
  · have hu : unguarded Held.free [Step.RLock, Step.readFiles (cacheKey sfs r), Step.RUnlock,
        Step.readNotFound (cacheKey sfs r),
        Step.Lock, Step.writeFiles (cacheKey sfs r), Step.Unlock,
        Step.RLock, Step.readFiles (cacheKey sfs r), Step.RUnlock] =
        [Step.readNotFound (cacheKey sfs r)] := rfl
    refine ⟨?_, ?_, ?_, h4, ?_, ?_⟩
    · rw [h, hu]; intro s hmem
      simp only [List.mem_singleton] at hmem
      rw [hmem]; rfl
    · rw [h]; rfl
    · rw [h, hu]; intro s hmem hon
      simp only [List.mem_cons, List.mem_singleton, List.not_mem_nil, or_false] at hmem
      rcases hmem with e | e | e | e | e | e | e | e | e | e
      · rw [e] at hon; cases hon
      · rw [e] at hon; cases hon
      · rw [e] at hon; cases hon
      · rw [e]; exact List.mem_singleton.mpr rfl
      · rw [e] at hon; cases hon
      · rw [e] at hon; cases hon
      · rw [e] at hon; cases hon
      · rw [e] at hon; cases hon
      · rw [e] at hon; cases hon
      · rw [e] at hon; cases hon
    · intro key; rw [h, hs]
      simp only [List.mem_cons, List.mem_singleton, List.not_mem_nil, or_false, reduceCtorEq,
        false_or, or_false, Step.writeFiles.injEq]
      constructor
      · intro e; exact ⟨e, hsetF sf hf⟩
      · intro e; exact e.1
    · intro key; rw [h, hs]; simp

end Static
